import Mathlib

/-!
Verification development for the `paced/satchel` repository: a shallow
embedding, in Lean, of the multi-source reconciliation and caching pipeline
of the `directus-steam-sync` script, together with theorems settling the
specification claims about it.

Conventions of the embedding:
* JavaScript numbers are modelled as `ℕ`, `ℤ` or `ℚ` as appropriate; the
  floating-point `Math.round` is modelled on exact rationals.
* Optional (possibly `undefined`) fields become `Option`.
* JavaScript truthiness tests on optional numbers (`if (x.ts && useCache)`)
  are modelled by `jsTruthyNat`: `undefined` and `0` are falsy.
* `Array.prototype.sort` with comparator `(a, b) => key a - key b` is a
  stable sort ascending by key; it is modelled with `List.mergeSort`.
* Asynchronous, sequential code becomes explicit state passing; every
  outbound HTTP request made by a run is recorded in a `CallLog`.
-/

namespace Satchel

/-- JavaScript `Math.round` on an exact rational value: round half toward
positive infinity. -/
def jsRound (q : ℚ) : ℤ := ⌊q + 1 / 2⌋

/-- Truthiness of an optional JavaScript number: `undefined` and `0` are
falsy, every other numeric value is truthy. -/
def jsTruthyNat : Option ℕ → Bool
  | none => false
  | some v => v ≠ 0

/-- Stable ascending sort by a natural-number key, modelling
`Array.prototype.sort` with the comparator `(a, b) => key(a) - key(b)`. -/
def jsSortBy {α : Type} (key : α → ℕ) (l : List α) : List α :=
  l.mergeSort (fun a b => decide (key a ≤ key b))

/-- Assignment `m[k] = v` on a JavaScript object or `Map` viewed as an
association list: overwrite in place when the key is present (keeping its
position), append otherwise. -/
def setKey {α : Type} (m : List (ℕ × α)) (k : ℕ) (v : α) : List (ℕ × α) :=
  match m with
  | [] => [(k, v)]
  | (k', v') :: rest => if k' = k then (k, v) :: rest else (k', v') :: setKey rest k v

/-- Lookup `m[k]` on a JavaScript object or `Map` viewed as an association
list. -/
def lookupKey {α : Type} (m : List (ℕ × α)) (k : ℕ) : Option α :=
  match m with
  | [] => none
  | (k', v') :: rest => if k' = k then some v' else lookupKey rest k

/-! ### Review category (source: `handlers/steamspy.ts`, `determineReviewCategory`) -/

def REVIEWS_TOO_FEW_THRESHOLD : ℕ := 10
def REVIEWS_VERY_THRESHOLD : ℕ := 50
def REVIEWS_OVERWHELMINGLY_THRESHOLD : ℕ := 500

/-- Percentage of positive reviews, `(totalPositive / totalReviews) * 100`,
computed on exact rationals. -/
def positivePercentage (totalPositive totalNegative : ℕ) : ℚ :=
  ((totalPositive : ℚ) / ((totalPositive + totalNegative : ℕ) : ℚ)) * 100

/-- Embedding of `determineReviewCategory(totalPositive, totalNegative)`:
derive a Steam-like review category from positive/negative review counts,
or `none` when there are fewer than 10 reviews in total. -/
def determineReviewCategory (totalPositive totalNegative : ℕ) : Option String :=
  if totalPositive + totalNegative < REVIEWS_TOO_FEW_THRESHOLD then none
  else if REVIEWS_OVERWHELMINGLY_THRESHOLD ≤ totalPositive + totalNegative ∧
      (95 : ℚ) ≤ positivePercentage totalPositive totalNegative then
    some "Overwhelmingly Positive"
  else if (80 : ℚ) ≤ positivePercentage totalPositive totalNegative then
    if REVIEWS_VERY_THRESHOLD ≤ totalPositive + totalNegative then some "Very Positive"
    else some "Positive"
  else if (70 : ℚ) ≤ positivePercentage totalPositive totalNegative then some "Mostly Positive"
  else if (40 : ℚ) ≤ positivePercentage totalPositive totalNegative then some "Mixed"
  else if (20 : ℚ) ≤ positivePercentage totalPositive totalNegative then some "Mostly Negative"
  else if REVIEWS_OVERWHELMINGLY_THRESHOLD ≤ totalPositive + totalNegative then
    some "Overwhelmingly Negative"
  else if REVIEWS_VERY_THRESHOLD ≤ totalPositive + totalNegative then some "Very Negative"
  else some "Negative"

/-- Review category as the specification words it, with the percentage
thresholds restated as cross-multiplied integer comparisons: below 10 total
reviews no category; at least 500 total and at least 95 percent positive the
strongest label; at least 80 percent the Positive tier, upgraded to Very
Positive at 50 or more total; then 70, 40 and 20 percent tiers; below 20
percent a Negative tier escalating at 50 and 500 total reviews. -/
def specReviewCategory (p n : ℕ) : Option String :=
  if p + n < 10 then none
  else if 500 ≤ p + n ∧ 95 * (p + n) ≤ 100 * p then some "Overwhelmingly Positive"
  else if 80 * (p + n) ≤ 100 * p then
    if 50 ≤ p + n then some "Very Positive" else some "Positive"
  else if 70 * (p + n) ≤ 100 * p then some "Mostly Positive"
  else if 40 * (p + n) ≤ 100 * p then some "Mixed"
  else if 20 * (p + n) ≤ 100 * p then some "Mostly Negative"
  else if 500 ≤ p + n then some "Overwhelmingly Negative"
  else if 50 ≤ p + n then some "Very Negative"
  else some "Negative"

lemma pct_le_iff (p n c : ℕ) (h : 0 < p + n) :
    ((c : ℚ) ≤ positivePercentage p n) ↔ c * (p + n) ≤ 100 * p := by
  have ht : (0 : ℚ) < ((p + n : ℕ) : ℚ) := by exact_mod_cast h
  rw [positivePercentage, div_mul_eq_mul_div, le_div_iff₀ ht,
    show ((p : ℚ) * 100) = ((100 * p : ℕ) : ℚ) by push_cast; ring,
    show ((c : ℚ) * ((p + n : ℕ) : ℚ)) = ((c * (p + n) : ℕ) : ℚ) by push_cast; ring,
    Nat.cast_le]

lemma pct_le_95_iff (p n : ℕ) (h : 0 < p + n) :
    ((95 : ℚ) ≤ positivePercentage p n) ↔ 95 * (p + n) ≤ 100 * p := by
  have h2 := pct_le_iff p n 95 h; push_cast at h2; exact h2

lemma pct_le_80_iff (p n : ℕ) (h : 0 < p + n) :
    ((80 : ℚ) ≤ positivePercentage p n) ↔ 80 * (p + n) ≤ 100 * p := by
  have h2 := pct_le_iff p n 80 h; push_cast at h2; exact h2

lemma pct_le_70_iff (p n : ℕ) (h : 0 < p + n) :
    ((70 : ℚ) ≤ positivePercentage p n) ↔ 70 * (p + n) ≤ 100 * p := by
  have h2 := pct_le_iff p n 70 h; push_cast at h2; exact h2

lemma pct_le_40_iff (p n : ℕ) (h : 0 < p + n) :
    ((40 : ℚ) ≤ positivePercentage p n) ↔ 40 * (p + n) ≤ 100 * p := by
  have h2 := pct_le_iff p n 40 h; push_cast at h2; exact h2

lemma pct_le_20_iff (p n : ℕ) (h : 0 < p + n) :
    ((20 : ℚ) ≤ positivePercentage p n) ↔ 20 * (p + n) ≤ 100 * p := by
  have h2 := pct_le_iff p n 20 h; push_cast at h2; exact h2

/-- C1: for every pair of review counts, the derived review category agrees
with the fixed thresholds stated in the specification (restated over the
integers): fewer than 10 total reviews gives `none`; at least 500 total and
95 percent positive gives the strongest positive label; at least 80 percent
gives the Positive tier, upgraded to Very Positive at 50 or more total
reviews; then the 70, 40 and 20 percent tiers; below 20 percent a Negative
tier escalating at the same 50 and 500 totals. -/
theorem determineReviewCategory_eq_spec (p n : ℕ) :
    determineReviewCategory p n = specReviewCategory p n := by
  unfold determineReviewCategory specReviewCategory
  unfold REVIEWS_TOO_FEW_THRESHOLD REVIEWS_VERY_THRESHOLD REVIEWS_OVERWHELMINGLY_THRESHOLD
  by_cases h : p + n < 10
  · rw [if_pos h, if_pos h]
  · have hpos : 0 < p + n := by omega
    simp only [pct_le_95_iff p n hpos, pct_le_80_iff p n hpos, pct_le_70_iff p n hpos,
      pct_le_40_iff p n hpos, pct_le_20_iff p n hpos]

/-- Spot checks of the boundary cases named by the specification: 80
positive of 100 total is in the Positive tier (here Very Positive, since
the total is at least 50) and not Mostly Positive, and a total of 9 reviews
has no category regardless of ratio. -/
example : determineReviewCategory 80 20 = some "Very Positive" := by
  rw [determineReviewCategory_eq_spec]; decide
example : determineReviewCategory 9 0 = none := by
  rw [determineReviewCategory_eq_spec]; decide
example : determineReviewCategory 0 9 = none := by
  rw [determineReviewCategory_eq_spec]; decide

/-! ### Data model (source: `handlers/steam/types.ts`) -/

/-- Per-account ownership entry (`BasicSteamGameInfo`). The optional
`isAdmin?: boolean` flag is modelled as a `Bool` defaulting to `false`,
matching the truthiness tests applied to it. -/
structure BasicSteamGameInfo where
  isAdmin : Bool := false
  appId : ℕ
  hours : ℚ := 0
  lastPlayed : Option String := none
  lastPlayedUnix : Option ℕ := none
deriving DecidableEq

/-- Weighted tag from the SteamSpy statistics source. -/
structure SpyTag where
  name : String
  score : ℤ
deriving DecidableEq

/-- The durable enriched record (`ProcessedSteamGameInfo`), keyed by
`appId`. The four layers of `types.ts` appear in order: the transient
per-run `basicData`, the identity layer, the SteamSpy statistics layer and
the HowLongToBeat estimate layer; optional fields of later layers default
to `none` (absent). -/
structure ProcessedSteamGameInfo where
  basicData : Option BasicSteamGameInfo := none
  appId : ℕ
  query : String := ""
  name : String := ""
  detailed_description : String := ""
  about_the_game : String := ""
  short_description : String := ""
  header_image : String := ""
  capsule_image : String := ""
  capsule_imagev5 : String := ""
  movies : List String := []
  screenshots : List String := []
  background : String := ""
  background_raw : String := ""
  developers : List String := []
  publishers : List String := []
  metacritic_score : Option ℤ := none
  categories : List String := []
  genres : List String := []
  release_date_string : Option String := none
  release_date_timestamp : Option ℤ := none
  spy_update_timestamp : Option ℕ := none
  review_category : Option String := none
  total_positive_reviews : Option ℕ := none
  total_negative_reviews : Option ℕ := none
  total_reviews : Option ℕ := none
  spy_average_forever : Option ℤ := none
  spy_average_2weeks : Option ℤ := none
  spy_median_forever : Option ℤ := none
  spy_median_2weeks : Option ℤ := none
  spy_tags : Option (List SpyTag) := none
  last_hltb_update_timestamp : Option ℕ := none
  hltb_hours : Option ℤ := none
  hltb_hours_extra : Option ℤ := none
  hltb_hours_completionist : Option ℤ := none
  hltb_name : Option String := none
  hltb_url : Option String := none
deriving DecidableEq

/-! ### Cache store (source: `handlers/steam/caches.ts`) -/

/-- Removal of the transient per-run layer before a cache write: the
destructuring `const { basicData, ...rest } = gameInfo` in
`updateSteamGameInfoCache`. -/
def stripBasicData (g : ProcessedSteamGameInfo) : ProcessedSteamGameInfo :=
  { g with basicData := none }

/-- Merge computed by `updateSteamGameInfoCache(existingGameInfos,
gameInfos)`: the fresh records, then every existing record whose `appId`
is not among the fresh keys, sorted ascending by `appId`, each record
stripped of `basicData` before the write. The returned list is the
full-collection overwrite written to the cache file. -/
def updateSteamGameInfoCache (existingGameInfos gameInfos : List ProcessedSteamGameInfo) :
    List ProcessedSteamGameInfo :=
  let newGameInfosKeys := gameInfos.map (·.appId)
  let combinedGameInfos :=
    gameInfos ++ existingGameInfos.filter (fun g => decide (g.appId ∉ newGameInfosKeys))
  (jsSortBy (·.appId) combinedGameInfos).map stripBasicData

/-- Collection written by `updateKnownDeletedGamesCache(appIds)`: the app
ids sorted ascending (full overwrite of the denylist file). -/
def updateKnownDeletedGamesCache (appIds : List ℕ) : List ℕ :=
  jsSortBy id appIds

/-- Collection written by `updateOwnedGamesCache(targetSteamId,
basicSteamGameInfos)`: the ownership entries sorted ascending by `appId`. -/
def updateOwnedGamesCache (basicSteamGameInfos : List BasicSteamGameInfo) :
    List BasicSteamGameInfo :=
  jsSortBy (·.appId) basicSteamGameInfos

/-! ### Name-mismatch ledger (source: `handlers/steam/caches.ts`,
`updateDissimilarGamesCache` and `loadDissimilarGamesCache`) -/

/-- The two ledgers kept by the caches module. -/
inductive MatchMode where
  | dissimilar
  | unconfident
deriving DecidableEq

/-- Human-adjudicated status of one ledger line. -/
inductive MatchStatus where
  | yes
  | no
  | unconfirmed
deriving DecidableEq

def MatchStatus.text : MatchStatus → String
  | .yes => "yes"
  | .no => "no"
  | .unconfirmed => "unconfirmed"

/-- One parsed ledger entry, as produced by `loadDissimilarGamesCache`. -/
structure DissimilarEntry where
  gameInfoName : String
  matchedName : String
  status : MatchStatus
deriving DecidableEq

/-- One fresh warning raised during the current run. -/
structure DissimilarWarning where
  appId : ℕ
  gameInfoName : String
  matchedName : String
deriving DecidableEq

/-- Default status given to a fresh warning: dissimilar is worse than
unconfident, so the dissimilar ledger defaults to `unconfirmed` and the
unconfident ledger to `yes`. -/
def dissimilarDefaultStatus (mode : MatchMode) : MatchStatus :=
  match mode with
  | .dissimilar => .unconfirmed
  | .unconfident => .yes

/-- Sorted entry list computed by `updateDissimilarGamesCache(mode,
dissimilarGamesCache, dissimilarGamesList)`: fresh warnings are inserted
first with the default status for the mode, then every previously loaded
cache entry is inserted on top (so an existing entry and its human-set
status always override a fresh warning for the same id), and the merged
map entries are sorted ascending by app id. -/
def updateDissimilarGamesCache (mode : MatchMode) (dissimilarGamesCache : List (ℕ × DissimilarEntry))
    (dissimilarGamesList : List DissimilarWarning) : List (ℕ × DissimilarEntry) :=
  let mergedGamesMap :=
    dissimilarGamesList.foldl
      (fun m entry =>
        setKey m entry.appId
          ⟨entry.gameInfoName, entry.matchedName, dissimilarDefaultStatus mode⟩)
      []
  let mergedGamesMap₂ :=
    dissimilarGamesCache.foldl (fun m p => setKey m p.1 p.2) mergedGamesMap
  jsSortBy (·.1) mergedGamesMap₂

/-- Rendering of one ledger line, including the trailing space written by
the source template string. -/
def renderDissimilarLine (p : ℕ × DissimilarEntry) : String :=
  "(" ++ toString p.1 ++ ") Is " ++ p.2.gameInfoName ++ " really " ++ p.2.matchedName ++
    "? [" ++ p.2.status.text ++ "] "

/-- The lines of the ledger file written by `updateDissimilarGamesCache`. -/
def dissimilarCacheLines (mode : MatchMode) (dissimilarGamesCache : List (ℕ × DissimilarEntry))
    (dissimilarGamesList : List DissimilarWarning) : List String :=
  (updateDissimilarGamesCache mode dissimilarGamesCache dissimilarGamesList).map
    renderDissimilarLine

/-! ### Save wrappers and write-failure behaviour

The four save functions of the cache store perform `mkdir` and `writeFile`
behind `await`; the underlying write can throw. `WriteOutcome` abstracts
whether the write throws, `SaveResult` records both what the caller of the
save observes (`Except.error` means the exception escapes the function)
and what ended up on disk. -/

inductive WriteOutcome where
  | ok
  | fail
deriving DecidableEq

structure SaveResult (α : Type) where
  outcome : Except Unit Unit
  written : Option α

/-- Behaviour of `updateSteamGameInfoCache` as a fallible save: the whole
body is wrapped in try/catch, so a write failure is logged and the
function returns normally. -/
def updateSteamGameInfoCacheSave (wr : WriteOutcome)
    (existingGameInfos gameInfos : List ProcessedSteamGameInfo) :
    SaveResult (List ProcessedSteamGameInfo) :=
  match wr with
  | .ok => ⟨.ok (), some (updateSteamGameInfoCache existingGameInfos gameInfos)⟩
  | .fail => ⟨.ok (), none⟩

/-- Behaviour of `updateOwnedGamesCache` as a fallible save: body wrapped
in try/catch, write failures logged and swallowed. -/
def updateOwnedGamesCacheSave (wr : WriteOutcome)
    (basicSteamGameInfos : List BasicSteamGameInfo) : SaveResult (List BasicSteamGameInfo) :=
  match wr with
  | .ok => ⟨.ok (), some (updateOwnedGamesCache basicSteamGameInfos)⟩
  | .fail => ⟨.ok (), none⟩

/-- Behaviour of `updateKnownDeletedGamesCache` as a fallible save: body
wrapped in try/catch, write failures logged and swallowed. -/
def updateKnownDeletedGamesCacheSave (wr : WriteOutcome) (appIds : List ℕ) :
    SaveResult (List ℕ) :=
  match wr with
  | .ok => ⟨.ok (), some (updateKnownDeletedGamesCache appIds)⟩
  | .fail => ⟨.ok (), none⟩

/-- Behaviour of `updateDissimilarGamesCache` as a fallible save: unlike
the three JSON saves above, its body has no try/catch, so a failing
`writeFile` rejects the returned promise and the exception propagates to
the caller. -/
def updateDissimilarGamesCacheSave (wr : WriteOutcome) (mode : MatchMode)
    (dissimilarGamesCache : List (ℕ × DissimilarEntry))
    (dissimilarGamesList : List DissimilarWarning) : SaveResult (List String) :=
  match wr with
  | .ok => ⟨.ok (), some (dissimilarCacheLines mode dissimilarGamesCache dissimilarGamesList)⟩
  | .fail => ⟨.error (), none⟩

/-! ### Facts about the cache merge -/

lemma mem_jsSortBy {α : Type} (key : α → ℕ) (l : List α) (a : α) :
    a ∈ jsSortBy key l ↔ a ∈ l :=
  (List.mergeSort_perm l _).mem_iff

lemma stripBasicData_appId (g : ProcessedSteamGameInfo) :
    (stripBasicData g).appId = g.appId := rfl

lemma mem_updateSteamGameInfoCache (existing fresh : List ProcessedSteamGameInfo)
    (s : ProcessedSteamGameInfo) :
    s ∈ updateSteamGameInfoCache existing fresh ↔
      (∃ g ∈ fresh, s = stripBasicData g) ∨
      (∃ e ∈ existing, e.appId ∉ fresh.map (·.appId) ∧ s = stripBasicData e) := by
  unfold updateSteamGameInfoCache
  simp only [List.mem_map, mem_jsSortBy, List.mem_append, List.mem_filter, decide_eq_true_eq]
  constructor
  · rintro ⟨g, hg | hg, rfl⟩
    · exact Or.inl ⟨g, hg, rfl⟩
    · exact Or.inr ⟨g, hg.1, hg.2, rfl⟩
  · rintro (⟨g, hg, rfl⟩ | ⟨e, he, hnot, rfl⟩)
    · exact ⟨g, Or.inl hg, rfl⟩
    · exact ⟨e, Or.inr ⟨he, hnot⟩, rfl⟩

/-- C2 (amended): when the fresh result set carries no duplicate ids, the
saved collection contains, for every fresh record, exactly that record
with the transient `basicData` layer stripped (fresh wins over any
existing record sharing the id), and every existing record whose id is
not among the fresh ids survives the save, likewise modulo the
`basicData` strip applied to everything written. -/
theorem updateSteamGameInfoCache_merge_policy
    (existing fresh : List ProcessedSteamGameInfo)
    (hfresh : (fresh.map (·.appId)).Nodup) :
    (∀ g ∈ fresh, stripBasicData g ∈ updateSteamGameInfoCache existing fresh ∧
      ∀ s ∈ updateSteamGameInfoCache existing fresh, s.appId = g.appId →
        s = stripBasicData g) ∧
    (∀ e ∈ existing, e.appId ∉ fresh.map (·.appId) →
      stripBasicData e ∈ updateSteamGameInfoCache existing fresh) := by
  constructor
  · intro g hg
    constructor
    · exact (mem_updateSteamGameInfoCache existing fresh _).mpr (Or.inl ⟨g, hg, rfl⟩)
    · intro s hs heq
      rcases (mem_updateSteamGameInfoCache existing fresh s).mp hs with
        ⟨g', hg', rfl⟩ | ⟨e, _, hnot, rfl⟩
      · have hkey : g'.appId = g.appId := by
          simpa [stripBasicData_appId] using heq
        have : g' = g := List.inj_on_of_nodup_map hfresh hg' hg hkey
        rw [this]
      · exfalso
        apply hnot
        have : e.appId = g.appId := by simpa [stripBasicData_appId] using heq
        rw [this]
        exact List.mem_map_of_mem (·.appId) hg
  · intro e he hnot
    exact (mem_updateSteamGameInfoCache existing fresh _).mpr (Or.inr ⟨e, he, hnot, rfl⟩)

/-- Concrete existing record used in the C2 counterexample. -/
def c2Existing : ProcessedSteamGameInfo := { appId := 1, name := "cached copy" }

/-- Concrete fresh record used in the C2 counterexample; its transient
`basicData` layer is present, as it is for every record produced by a
live run. -/
def c2Fresh : ProcessedSteamGameInfo :=
  { appId := 1, name := "fresh copy", basicData := some { appId := 1 } }

/-- C2 counterexample: for an id present in both inputs the saved
collection does not contain the fresh record verbatim — it contains the
fresh record with `basicData` stripped, so the claim "the saved collection
contains exactly the fresh record" fails as stated. -/
theorem updateSteamGameInfoCache_strips_fresh_record :
    updateSteamGameInfoCache [c2Existing] [c2Fresh] = [stripBasicData c2Fresh] ∧
    c2Fresh ∉ updateSteamGameInfoCache [c2Existing] [c2Fresh] := by
  have h : updateSteamGameInfoCache [c2Existing] [c2Fresh] = [stripBasicData c2Fresh] := by
    simp [updateSteamGameInfoCache, jsSortBy, List.mergeSort, c2Existing, c2Fresh]
  refine ⟨h, ?_⟩
  rw [h]
  simp [stripBasicData, c2Fresh]

/-- Witness for the C2 theorem at a concrete input. -/
theorem updateSteamGameInfoCache_merge_policy_witness :
    stripBasicData c2Fresh ∈ updateSteamGameInfoCache [c2Existing] [c2Fresh] :=
  ((updateSteamGameInfoCache_merge_policy [c2Existing] [c2Fresh]
    (by simp)).1 c2Fresh (List.mem_singleton.mpr rfl)).1

/-! ### Facts about the JS object and Map emulation -/

lemma lookupKey_setKey_self {α : Type} (m : List (ℕ × α)) (k : ℕ) (v : α) :
    lookupKey (setKey m k v) k = some v := by
  induction m with
  | nil => simp [setKey, lookupKey]
  | cons p rest ih =>
    obtain ⟨k', v'⟩ := p
    by_cases h : k' = k
    · simp [setKey, h, lookupKey]
    · simp [setKey, h, lookupKey, ih]

lemma lookupKey_setKey_other {α : Type} (m : List (ℕ × α)) (k k' : ℕ) (v : α)
    (h : k' ≠ k) : lookupKey (setKey m k v) k' = lookupKey m k' := by
  induction m with
  | nil => simp [setKey, lookupKey, Ne.symm h]
  | cons p rest ih =>
    obtain ⟨k₀, v₀⟩ := p
    by_cases h0 : k₀ = k
    · subst h0
      simp [setKey, lookupKey, Ne.symm h]
    · simp only [setKey, if_neg h0, lookupKey]
      by_cases h1 : k₀ = k'
      · simp [h1]
      · simp [h1, ih]

lemma mem_keys_setKey {α : Type} (m : List (ℕ × α)) (k a : ℕ) (v : α) :
    a ∈ (setKey m k v).map Prod.fst ↔ a ∈ m.map Prod.fst ∨ a = k := by
  induction m with
  | nil => simp [setKey]
  | cons p rest ih =>
    obtain ⟨k₀, v₀⟩ := p
    by_cases h0 : k₀ = k
    · subst h0
      simp [setKey]
      tauto
    · simp [setKey, h0, ih]
      tauto

lemma keys_setKey_nodup {α : Type} (m : List (ℕ × α)) (k : ℕ) (v : α)
    (h : (m.map Prod.fst).Nodup) : ((setKey m k v).map Prod.fst).Nodup := by
  induction m with
  | nil => simp [setKey]
  | cons p rest ih =>
    obtain ⟨k₀, v₀⟩ := p
    simp only [List.map_cons, List.nodup_cons] at h
    by_cases h0 : k₀ = k
    · subst h0
      simpa [setKey] using h
    · simp only [setKey, if_neg h0, List.map_cons, List.nodup_cons]
      refine ⟨?_, ih h.2⟩
      rw [mem_keys_setKey]
      rintro (hh | hh)
      · exact h.1 hh
      · exact h0 hh

lemma lookupKey_foldl_setKey_not_mem {α β : Type} (key : β → ℕ) (val : β → α)
    (l : List β) (id : ℕ) :
    ∀ init : List (ℕ × α), id ∉ l.map key →
      lookupKey (l.foldl (fun m b => setKey m (key b) (val b)) init) id = lookupKey init id := by
  induction l with
  | nil => intro init _; rfl
  | cons b rest ih =>
    intro init h
    simp only [List.map_cons, List.mem_cons, not_or] at h
    rw [List.foldl_cons, ih _ h.2, lookupKey_setKey_other _ _ _ _ h.1]

lemma lookupKey_foldl_setKey_mem {α β : Type} (key : β → ℕ) (val : β → α)
    (l : List β) (b : β) :
    ∀ init : List (ℕ × α), b ∈ l → (l.map key).Nodup →
      lookupKey (l.foldl (fun m b => setKey m (key b) (val b)) init) (key b) = some (val b) := by
  induction l with
  | nil => intro init hb _; cases hb
  | cons x rest ih =>
    intro init hb hl
    simp only [List.map_cons, List.nodup_cons] at hl
    rcases List.mem_cons.mp hb with rfl | hb'
    · rw [List.foldl_cons, lookupKey_foldl_setKey_not_mem key val rest _ _ hl.1,
        lookupKey_setKey_self]
    · rw [List.foldl_cons]
      exact ih _ hb' hl.2

lemma keys_foldl_setKey_nodup {α β : Type} (key : β → ℕ) (val : β → α)
    (l : List β) :
    ∀ init : List (ℕ × α), (init.map Prod.fst).Nodup →
      ((l.foldl (fun m b => setKey m (key b) (val b)) init).map Prod.fst).Nodup := by
  induction l with
  | nil => intro init h; exact h
  | cons x rest ih => intro init h; exact ih _ (keys_setKey_nodup _ _ _ h)

lemma lookupKey_eq_none_iff {α : Type} (m : List (ℕ × α)) (k : ℕ) :
    lookupKey m k = none ↔ k ∉ m.map Prod.fst := by
  induction m with
  | nil => simp [lookupKey]
  | cons p rest ih =>
    obtain ⟨k₀, v₀⟩ := p
    by_cases h0 : k₀ = k
    · simp [lookupKey, h0]
    · have h1 : k ≠ k₀ := Ne.symm h0
      simp [lookupKey, h0, ih, h1]

lemma mem_of_lookupKey_eq_some {α : Type} (m : List (ℕ × α)) (k : ℕ) (v : α)
    (h : lookupKey m k = some v) : (k, v) ∈ m := by
  induction m with
  | nil => simp [lookupKey] at h
  | cons p rest ih =>
    obtain ⟨k₀, v₀⟩ := p
    by_cases h0 : k₀ = k
    · subst h0
      have h' : v₀ = v := by simpa [lookupKey] using h
      rw [← h']
      exact List.mem_cons_self _ _
    · simp only [lookupKey, if_neg h0] at h
      exact List.mem_cons_of_mem _ (ih h)

lemma lookupKey_eq_some_of_mem {α : Type} (m : List (ℕ × α)) (k : ℕ) (v : α)
    (hnodup : (m.map Prod.fst).Nodup) (h : (k, v) ∈ m) : lookupKey m k = some v := by
  induction m with
  | nil => cases h
  | cons p rest ih =>
    obtain ⟨k₀, v₀⟩ := p
    simp only [List.map_cons, List.nodup_cons] at hnodup
    rcases List.mem_cons.mp h with heq | hmem
    · injection heq with h1 h2
      simp [lookupKey, h1.symm, h2]
    · have hk : k₀ ≠ k := by
        rintro rfl
        exact hnodup.1 (List.mem_map_of_mem Prod.fst hmem)
      simp only [lookupKey, if_neg hk]
      exact ih hnodup.2 hmem

lemma lookupKey_eq_of_perm {α : Type} (m m' : List (ℕ × α))
    (hperm : List.Perm m m') (hnodup : (m.map Prod.fst).Nodup) (k : ℕ) :
    lookupKey m k = lookupKey m' k := by
  cases hl : lookupKey m k with
  | none =>
    rw [lookupKey_eq_none_iff] at hl
    symm
    rw [lookupKey_eq_none_iff]
    intro hmem
    exact hl (((hperm.map Prod.fst).mem_iff).mpr hmem)
  | some v =>
    have hmem := mem_of_lookupKey_eq_some m k v hl
    have hnodup' : (m'.map Prod.fst).Nodup := ((hperm.map Prod.fst).nodup_iff).mp hnodup
    exact (lookupKey_eq_some_of_mem m' k v hnodup' (hperm.mem_iff.mp hmem)).symm

lemma jsSortBy_sorted_keys {α : Type} (key : α → ℕ) (l : List α) :
    List.Sorted (· ≤ ·) ((jsSortBy key l).map key) := by
  have h := @List.sorted_mergeSort α (fun a b : α => decide (key a ≤ key b))
    (fun a b c h1 h2 => by simp at h1 h2 ⊢; omega)
    (fun a b => by simp; omega) l
  rw [List.Sorted, List.pairwise_map]
  simpa using h

/-- C10: on a save of the name-mismatch ledger, every id already present
in the previously loaded ledger keeps its stored entry and human-set
status (existing wins over fresh); a fresh warning contributes an entry
only for ids not already in the ledger, with the default status of the
mode — `unconfirmed` for the dissimilar ledger, `yes` for the unconfident
ledger — and the written entry list is sorted by id ascending. -/
theorem updateDissimilarGamesCache_policy (mode : MatchMode)
    (cache : List (ℕ × DissimilarEntry)) (list : List DissimilarWarning)
    (hcache : (cache.map Prod.fst).Nodup) (hlist : (list.map (·.appId)).Nodup) :
    (∀ p ∈ cache, lookupKey (updateDissimilarGamesCache mode cache list) p.1 = some p.2) ∧
    (∀ w ∈ list, w.appId ∉ cache.map Prod.fst →
      lookupKey (updateDissimilarGamesCache mode cache list) w.appId =
        some ⟨w.gameInfoName, w.matchedName, dissimilarDefaultStatus mode⟩) ∧
    (∀ id, id ∉ cache.map Prod.fst → id ∉ list.map (·.appId) →
      lookupKey (updateDissimilarGamesCache mode cache list) id = none) ∧
    (dissimilarDefaultStatus .dissimilar = .unconfirmed ∧
      dissimilarDefaultStatus .unconfident = .yes) ∧
    List.Sorted (· ≤ ·) ((updateDissimilarGamesCache mode cache list).map Prod.fst) := by
  have hm1nodup :
      (((list.foldl
        (fun m entry => setKey m entry.appId
          ⟨entry.gameInfoName, entry.matchedName, dissimilarDefaultStatus mode⟩)
        ([] : List (ℕ × DissimilarEntry)))).map Prod.fst).Nodup :=
    keys_foldl_setKey_nodup _ _ _ _ (by simp)
  have hm2nodup :
      ((cache.foldl (fun m p => setKey m p.1 p.2)
        (list.foldl
          (fun m entry => setKey m entry.appId
            ⟨entry.gameInfoName, entry.matchedName, dissimilarDefaultStatus mode⟩)
          ([] : List (ℕ × DissimilarEntry)))).map Prod.fst).Nodup :=
    keys_foldl_setKey_nodup Prod.fst Prod.snd _ _ hm1nodup
  have hperm : ∀ k, lookupKey (updateDissimilarGamesCache mode cache list) k =
      lookupKey (cache.foldl (fun m p => setKey m p.1 p.2)
        (list.foldl
          (fun m entry => setKey m entry.appId
            ⟨entry.gameInfoName, entry.matchedName, dissimilarDefaultStatus mode⟩)
          ([] : List (ℕ × DissimilarEntry)))) k := by
    intro k
    exact (lookupKey_eq_of_perm _ _ (List.mergeSort_perm _ _).symm hm2nodup k).symm
  refine ⟨?_, ?_, ?_, ⟨rfl, rfl⟩, ?_⟩
  · intro p hp
    rw [hperm]
    exact lookupKey_foldl_setKey_mem Prod.fst Prod.snd cache p _ hp hcache
  · intro w hw hnot
    rw [hperm, lookupKey_foldl_setKey_not_mem Prod.fst Prod.snd cache _ _ hnot]
    exact lookupKey_foldl_setKey_mem (·.appId) _ list w _ hw hlist
  · intro id hnc hnl
    rw [hperm, lookupKey_foldl_setKey_not_mem Prod.fst Prod.snd cache _ _ hnc,
      lookupKey_foldl_setKey_not_mem (·.appId) _ list _ _ hnl]
    rfl
  · exact jsSortBy_sorted_keys _ _

/-- Concrete previously loaded ledger used in the C10 witness. -/
def c10Cache : List (ℕ × DissimilarEntry) := [(7, ⟨"A", "B", .no⟩)]

/-- Concrete fresh warning list used in the C10 witness. -/
def c10List : List DissimilarWarning := [⟨5, "C", "D"⟩]

/-- Witness for the C10 theorem at a concrete input: the human-set `no`
entry for id 7 survives the save, and the fresh warning for id 5 is added
with the default `unconfirmed` status of the dissimilar ledger. -/
theorem updateDissimilarGamesCache_policy_witness :
    lookupKey (updateDissimilarGamesCache .dissimilar c10Cache c10List) 7 =
      some ⟨"A", "B", MatchStatus.no⟩ ∧
    lookupKey (updateDissimilarGamesCache .dissimilar c10Cache c10List) 5 =
      some ⟨"C", "D", MatchStatus.unconfirmed⟩ :=
  ⟨(updateDissimilarGamesCache_policy .dissimilar c10Cache c10List
      (by simp [c10Cache]) (by simp [c10List])).1 (7, ⟨"A", "B", .no⟩)
      (List.mem_singleton.mpr rfl),
   (updateDissimilarGamesCache_policy .dissimilar c10Cache c10List
      (by simp [c10Cache]) (by simp [c10List])).2.1 ⟨5, "C", "D"⟩
      (List.mem_singleton.mpr rfl) (by simp [c10Cache])⟩

/-- C8 (amended): a failing underlying write is swallowed (the save
returns normally) for the enriched-record cache, the owned-list cache and
the denylist — their bodies are wrapped in try/catch — but the
name-mismatch ledger save has no such guard, so a failing write there
propagates to the caller. -/
theorem cacheSave_failures_swallowed_except_ledger :
    (∀ wr existing fresh, (updateSteamGameInfoCacheSave wr existing fresh).outcome = .ok ()) ∧
    (∀ wr basics, (updateOwnedGamesCacheSave wr basics).outcome = .ok ()) ∧
    (∀ wr ids, (updateKnownDeletedGamesCacheSave wr ids).outcome = .ok ()) ∧
    (∀ mode cache list,
      (updateDissimilarGamesCacheSave .fail mode cache list).outcome = .error ()) := by
  refine ⟨fun wr _ _ => ?_, fun wr _ => ?_, fun wr _ => ?_, fun _ _ _ => rfl⟩ <;>
    cases wr <;> rfl

/-- C8 counterexample: a failing write during the name-mismatch ledger
save escapes `updateDissimilarGamesCache` instead of being caught and
logged, refuting the claim that every cache save swallows write
failures. -/
theorem ledgerSave_failure_propagates :
    (updateDissimilarGamesCacheSave .fail .dissimilar [] []).outcome = .error () := rfl

/-! ### Catalog source adapters and the external world

The pipeline is embedded against a deterministic external world: each
adapter answer is a function of its key, modelling the premise that no
external source changes between runs. Rate-limit sleeps and log output
are irrelevant to the claims and are not modelled; every outbound request
is recorded in a `CallLog`. -/

/-- Identity payload of a `success: true` appdetails response, restricted
to the fields `mapSteamAppToProcessedGameInfo` copies. Category and genre
objects are represented by their `description` strings; a release date is
carried together with its parsed epoch value. Fields the source guards
with `|| []` or `? :` are `Option` here. -/
structure SteamAppData where
  name : String := ""
  detailed_description : String := ""
  about_the_game : String := ""
  short_description : String := ""
  header_image : String := ""
  capsule_image : String := ""
  capsule_imagev5 : String := ""
  movies : Option (List String) := none
  screenshots : Option (List String) := none
  background : String := ""
  background_raw : String := ""
  developers : List String := []
  publishers : List String := []
  metacritic : Option ℤ := none
  categories : Option (List String) := none
  genres : Option (List String) := none
  release_date : Option (String × ℤ) := none
deriving DecidableEq

/-- Embedding of `mapSteamAppToProcessedGameInfo(basicData, data, query)`
from `handlers/steam/mappers.ts`, in the revision that keys the record by
the owned-list app id (its comment explains that Steam sometimes reuses
store app ids, so the owned-games id is authoritative). The try/catch of
the source guards only against malformed payloads, which the typed model
rules out. -/
def mapSteamAppToProcessedGameInfo (basicData : BasicSteamGameInfo) (data : SteamAppData)
    (query : String) : ProcessedSteamGameInfo :=
  { basicData := some basicData
    appId := basicData.appId
    query := query
    name := data.name
    detailed_description := data.detailed_description
    about_the_game := data.about_the_game
    short_description := data.short_description
    header_image := data.header_image
    capsule_image := data.capsule_image
    capsule_imagev5 := data.capsule_imagev5
    movies := data.movies.getD []
    screenshots := data.screenshots.getD []
    background := data.background
    background_raw := data.background_raw
    developers := data.developers
    publishers := data.publishers
    metacritic_score := data.metacritic
    categories := data.categories.getD []
    genres := data.genres.getD []
    release_date_string := data.release_date.map Prod.fst
    release_date_timestamp := data.release_date.map Prod.snd }

/-- Lookup URL built by `createSteamGameLookupUrl`; it doubles as the
`query` field of the produced record. -/
def createSteamGameLookupUrl (appId : ℕ) (language : String) : String :=
  "https://store.steampowered.com/api/appdetails/?appids=" ++ toString appId ++
    "&l=" ++ language

/-- Outcome of one appdetails lookup, as the identity loop discriminates
it: the fetch can fail outright (the `.catch` handler returns
`undefined`), the response can lack the entry for the app id, the entry
can carry `success: false` (affirmatively deleted), carry a falsy
`success` that is not `=== false`, or succeed with a payload. -/
inductive StoreLookupResult where
  | fetchFailed
  | missingEntry
  | successFalse
  | successUndefined
  | ok (data : SteamAppData)
deriving DecidableEq

/-- Statistics payload of a SteamSpy response whose `name` field is
truthy. Absent numeric fields model the falsy values defaulted by
`|| 0`; `tags` models the optional tag map, already flattened to
name/score pairs. -/
structure SteamSpyData where
  average_forever : Option ℤ := none
  average_2weeks : Option ℤ := none
  median_forever : Option ℤ := none
  median_2weeks : Option ℤ := none
  tags : Option (List SpyTag) := none
  positive : Option ℕ := none
  negative : Option ℕ := none
deriving DecidableEq

/-- Outcome of one SteamSpy lookup: a thrown fetch, a response without a
truthy `name` (soft no-data), or a payload. -/
inductive SpyLookupResult where
  | fetchFailed
  | noData
  | ok (data : SteamSpyData)
deriving DecidableEq

/-- First search hit of a HowLongToBeat response (`response.data[0]`),
with the duration fields in seconds. -/
structure HltbData where
  game_name : String := ""
  comp_main : ℕ := 0
  comp_plus : ℕ := 0
  comp_100 : ℕ := 0
  game_id : ℕ := 0
deriving DecidableEq

/-- Outcome of one HowLongToBeat search: a thrown request, a successful
request with an empty result list, or a first hit. -/
inductive HltbLookupResult where
  | fetchFailed
  | noData
  | ok (data : HltbData)
deriving DecidableEq

/-- A deterministic external world: what each source answers for each
key, whether the browser-driven HLTB auth-token capture succeeds, and the
clock value recorded into layer timestamps (`new Date().getTime()`). -/
structure SteamWorld where
  ownedGames : String → List BasicSteamGameInfo
  store : ℕ → StoreLookupResult
  spy : ℕ → SpyLookupResult
  hltb : String → HltbLookupResult
  authOk : Bool
  time : ℕ

/-- Outbound requests issued by (part of) a run: one counter for the
per-account owned-games fetch, the app ids of identity lookups, of
statistics lookups and of estimate searches, and a counter of HLTB
auth-token captures. -/
structure CallLog where
  ownedCalls : ℕ := 0
  identityCalls : List ℕ := []
  spyCalls : List ℕ := []
  hltbCalls : List ℕ := []
  authCaptures : ℕ := 0
deriving DecidableEq

/-- Total number of outbound network requests in a log. -/
def CallLog.total (log : CallLog) : ℕ :=
  log.ownedCalls + log.identityCalls.length + log.spyCalls.length +
    log.hltbCalls.length + log.authCaptures

/-- Number of per-item enrichment requests in a log (identity,
statistics and estimate lookups; excludes the per-account owned-list
fetch and the auth handshake). -/
def CallLog.itemCalls (log : CallLog) : ℕ :=
  log.identityCalls.length + log.spyCalls.length + log.hltbCalls.length

def CallLog.append (a b : CallLog) : CallLog :=
  { ownedCalls := a.ownedCalls + b.ownedCalls
    identityCalls := a.identityCalls ++ b.identityCalls
    spyCalls := a.spyCalls ++ b.spyCalls
    hltbCalls := a.hltbCalls ++ b.hltbCalls
    authCaptures := a.authCaptures + b.authCaptures }

/-- The `.find(record => record.appId === a)` idiom used by the identity
loop on both the in-progress result set and the loaded cache. -/
def cacheFind (l : List ProcessedSteamGameInfo) (a : ℕ) : Option ProcessedSteamGameInfo :=
  l.find? (fun c => c.appId == a)

/-! ### Identity layer (source: `processSteamGamesForSingleUser`, current
revision, steps 1 to 5 of the per-item loop) -/

/-- Mutable state of the identity loop: the result set, the failed list,
the (mutating) known-deleted list and the app ids fetched so far. -/
structure IdentityPassState where
  gameInfos : List ProcessedSteamGameInfo := []
  failedGameInfos : List ℕ := []
  knownDeletedAppIds : List ℕ := []
  identityCalls : List ℕ := []
deriving DecidableEq

/-- One iteration of the identity loop over an owned-games entry, in
source order: skip when the app id is already in the result set; reuse a
cached record verbatim merged with the fresh `basicData` (no network
call); skip as failed when the id is known deleted (no network call);
otherwise perform the rate-limited lookup and dispatch on its outcome
(`success: false` additionally denylists the id). -/
def identityStep (w : SteamWorld) (language : String)
    (cachedGameInfos : List ProcessedSteamGameInfo)
    (st : IdentityPassState) (basicGameInfo : BasicSteamGameInfo) : IdentityPassState :=
  if (cacheFind st.gameInfos basicGameInfo.appId).isSome then st
  else
    match cacheFind cachedGameInfos basicGameInfo.appId with
    | some cachedGameInfo =>
        { st with gameInfos :=
            st.gameInfos ++ [{ cachedGameInfo with basicData := some basicGameInfo }] }
    | none =>
        if basicGameInfo.appId ∈ st.knownDeletedAppIds then
          { st with failedGameInfos := st.failedGameInfos ++ [basicGameInfo.appId] }
        else
          match w.store basicGameInfo.appId with
          | .fetchFailed =>
              { st with identityCalls := st.identityCalls ++ [basicGameInfo.appId] }
          | .missingEntry =>
              { st with identityCalls := st.identityCalls ++ [basicGameInfo.appId] }
          | .successFalse =>
              { st with
                identityCalls := st.identityCalls ++ [basicGameInfo.appId]
                failedGameInfos := st.failedGameInfos ++ [basicGameInfo.appId]
                knownDeletedAppIds := st.knownDeletedAppIds ++ [basicGameInfo.appId] }
          | .successUndefined =>
              { st with
                identityCalls := st.identityCalls ++ [basicGameInfo.appId]
                failedGameInfos := st.failedGameInfos ++ [basicGameInfo.appId] }
          | .ok data =>
              { st with
                identityCalls := st.identityCalls ++ [basicGameInfo.appId]
                gameInfos := st.gameInfos ++
                  [mapSteamAppToProcessedGameInfo basicGameInfo data
                    (createSteamGameLookupUrl basicGameInfo.appId language)] }

/-- The identity pass over the whole owned list. -/
def identityPass (w : SteamWorld) (language : String)
    (cachedGameInfos : List ProcessedSteamGameInfo) (knownDeletedAppIds : List ℕ)
    (basics : List BasicSteamGameInfo) : IdentityPassState :=
  basics.foldl (identityStep w language cachedGameInfos)
    { knownDeletedAppIds := knownDeletedAppIds }

/-! ### Statistics layer (source: `handlers/steamspy.ts`,
`fetchSteamSpyDataForAppIds`) -/

/-- Field updates applied to a record from a SteamSpy payload, including
the derived review category and the layer timestamp. -/
def applySpyData (w : SteamWorld) (gameInfo : ProcessedSteamGameInfo)
    (data : SteamSpyData) : ProcessedSteamGameInfo :=
  let total_positive := data.positive.getD 0
  let total_negative := data.negative.getD 0
  { gameInfo with
    spy_average_forever := some (data.average_forever.getD 0)
    spy_average_2weeks := some (data.average_2weeks.getD 0)
    spy_median_forever := some (data.median_forever.getD 0)
    spy_median_2weeks := some (data.median_2weeks.getD 0)
    spy_tags := some (data.tags.getD [])
    total_positive_reviews := some total_positive
    total_negative_reviews := some total_negative
    total_reviews := some (total_positive + total_negative)
    review_category := determineReviewCategory total_positive total_negative
    spy_update_timestamp := some w.time }

/-- One iteration of the statistics loop: skip when the layer timestamp
is truthy and caching is on; otherwise call SteamSpy, and on a response
(with or without data) stamp the layer timestamp — a thrown fetch leaves
the record untouched. Returns the updated record and whether a request
was made. -/
def spyStep (w : SteamWorld) (useCache : Bool) (gameInfo : ProcessedSteamGameInfo) :
    ProcessedSteamGameInfo × Bool :=
  if jsTruthyNat gameInfo.spy_update_timestamp && useCache then (gameInfo, false)
  else
    match w.spy gameInfo.appId with
    | .fetchFailed => (gameInfo, true)
    | .noData => ({ gameInfo with spy_update_timestamp := some w.time }, true)
    | .ok data => (applySpyData w gameInfo data, true)

/-- The statistics pass over the result set (the source mutates the
records in place; here the updated list is returned together with the app
ids requested). -/
def fetchSteamSpyDataForAppIds (w : SteamWorld) (useCache : Bool)
    (gameInfos : List ProcessedSteamGameInfo) :
    List ProcessedSteamGameInfo × List ℕ :=
  gameInfos.foldl
    (fun acc gi =>
      let r := spyStep w useCache gi
      (acc.1 ++ [r.1], if r.2 then acc.2 ++ [gi.appId] else acc.2))
    ([], [])

/-! ### Estimate layer (source: `handlers/hltb.ts`,
`processHltbDataForSteamGames`) -/

def MAX_HLTB_FAILED_ATTEMPTS : ℕ := 10

/-- Search query sent to HLTB: the record name with trademark glyphs
removed. -/
def hltbSearchQuery (name : String) : String :=
  (name.replace "™" "").replace "®" ""

/-- Field updates applied to a record from the first HLTB search hit:
seconds are converted to hours with `Math.round(x / 60 / 60)`, and the
layer timestamp is stamped. -/
def applyHltbData (w : SteamWorld) (gameInfo : ProcessedSteamGameInfo)
    (hltbData : HltbData) : ProcessedSteamGameInfo :=
  { gameInfo with
    hltb_name := some hltbData.game_name
    hltb_hours := some (jsRound ((hltbData.comp_main : ℚ) / 60 / 60))
    hltb_hours_extra := some (jsRound ((hltbData.comp_plus : ℚ) / 60 / 60))
    hltb_hours_completionist := some (jsRound ((hltbData.comp_100 : ℚ) / 60 / 60))
    hltb_url := some ("https://howlongtobeat.com/game/" ++ toString hltbData.game_id)
    last_hltb_update_timestamp := some w.time }

/-- The HLTB per-item loop with its consecutive-failure counter: skip
when the layer timestamp is truthy and caching is on; on a successful
search apply the hit (or stamp the timestamp when the result list is
empty) and reset the counter; on a thrown request increment the counter,
abort the layer at the failure ceiling, otherwise recapture the auth
token and abort if the capture fails. Returns the updated records, the
app ids searched, and how many recaptures were performed. -/
def processHltbLoop (w : SteamWorld) (useCache : Bool) :
    List ProcessedSteamGameInfo → ℕ → List ProcessedSteamGameInfo × List ℕ × ℕ
  | [], _ => ([], [], 0)
  | gameInfo :: rest, failedAttempts =>
    if jsTruthyNat gameInfo.last_hltb_update_timestamp && useCache then
      let r := processHltbLoop w useCache rest failedAttempts
      (gameInfo :: r.1, r.2.1, r.2.2)
    else
      match w.hltb (hltbSearchQuery gameInfo.name) with
      | .ok data =>
        let r := processHltbLoop w useCache rest 0
        (applyHltbData w gameInfo data :: r.1, gameInfo.appId :: r.2.1, r.2.2)
      | .noData =>
        let r := processHltbLoop w useCache rest 0
        ({ gameInfo with last_hltb_update_timestamp := some w.time } :: r.1,
          gameInfo.appId :: r.2.1, r.2.2)
      | .fetchFailed =>
        if MAX_HLTB_FAILED_ATTEMPTS ≤ failedAttempts + 1 then
          (gameInfo :: rest, [gameInfo.appId], 0)
        else if w.authOk then
          let r := processHltbLoop w useCache rest (failedAttempts + 1)
          (gameInfo :: r.1, gameInfo.appId :: r.2.1, r.2.2 + 1)
        else
          (gameInfo :: rest, [gameInfo.appId], 1)

/-- The estimate pass: capture an auth token first (an outbound browser
handshake, counted as a capture); abort the whole layer when the capture
fails, otherwise run the per-item loop. -/
def processHltbDataForSteamGames (w : SteamWorld) (useCache : Bool)
    (gameInfos : List ProcessedSteamGameInfo) :
    List ProcessedSteamGameInfo × List ℕ × ℕ :=
  if w.authOk then
    let r := processHltbLoop w useCache gameInfos 0
    (r.1, r.2.1, r.2.2 + 1)
  else
    (gameInfos, [], 1)

/-! ### Per-account run and the whole pipeline (source: `processSteamGames`
and `processSteamGamesForSingleUser`, current revision) -/

/-- The durable cache files threaded through the pipeline. -/
structure CacheState where
  gameInfoCache : List ProcessedSteamGameInfo := []
  knownDeleted : List ℕ := []
deriving DecidableEq

/-- Result of one per-account run. -/
structure SingleUserRun where
  gameInfos : List ProcessedSteamGameInfo
  failed : List ℕ
  state : CacheState
  log : CallLog

/-- Embedding of `processSteamGamesForSingleUser`: fetch the owned list
(always an outbound request), load the caches when caching is enabled,
run the identity pass, persist cache and denylist, then the statistics
and estimate layers, each followed by a cache re-read-and-write. Cache
writes are modelled as succeeding (write failures are the subject of the
separate save wrappers). -/
def processSteamGamesForSingleUser (w : SteamWorld) (useCache : Bool) (language : String)
    (st : CacheState) (targetSteamId : String) : SingleUserRun :=
  let basicSteamGameInfos := w.ownedGames targetSteamId
  let cachedGameInfos := if useCache then st.gameInfoCache else []
  let knownDeletedAppIds := if useCache then st.knownDeleted else []
  let idSt := identityPass w language cachedGameInfos knownDeletedAppIds basicSteamGameInfos
  let cacheA := updateSteamGameInfoCache cachedGameInfos idSt.gameInfos
  let denyFile := updateKnownDeletedGamesCache idSt.knownDeletedAppIds
  let spyResult := fetchSteamSpyDataForAppIds w useCache idSt.gameInfos
  let cacheB := updateSteamGameInfoCache cacheA spyResult.1
  let hltbResult := processHltbDataForSteamGames w useCache spyResult.1
  let cacheC := updateSteamGameInfoCache cacheB hltbResult.1
  { gameInfos := hltbResult.1
    failed := idSt.failedGameInfos
    state := { gameInfoCache := cacheC, knownDeleted := denyFile }
    log := { ownedCalls := 1, identityCalls := idSt.identityCalls,
             spyCalls := spyResult.2, hltbCalls := hltbResult.2.1,
             authCaptures := hltbResult.2.2 } }

/-- Truthiness of `game.basicData?.isAdmin`. -/
def jsIsAdmin (g : ProcessedSteamGameInfo) : Bool :=
  (g.basicData.map (·.isAdmin)).getD false

/-- Truthiness of `uniqueGamesMap[game.appId]?.basicData?.isAdmin`: the
optional chain is falsy when the map has no entry for the id. -/
def jsIsAdminOpt (o : Option ProcessedSteamGameInfo) : Bool :=
  match o with
  | some existing => jsIsAdmin existing
  | none => false

/-- One assignment into `uniqueGamesMap` of the cross-account merge
(current revision): skip a non-admin duplicate when the record already
stored for the id came from the admin account, otherwise overwrite. -/
def uniqueGamesStep (m : List (ℕ × ProcessedSteamGameInfo)) (game : ProcessedSteamGameInfo) :
    List (ℕ × ProcessedSteamGameInfo) :=
  if jsIsAdminOpt (lookupKey m game.appId) && !(jsIsAdmin game) then m
  else setKey m game.appId game

/-- Cross-account merge and final ordering of `processSteamGames`
(current revision): fold the combined per-account results into
`uniqueGamesMap`, then return its values sorted ascending by app id.
The explicit sort makes the `Object.values` ordering (ascending integer
keys) irrelevant. -/
def processSteamGamesFinalize (combinedGames : List ProcessedSteamGameInfo) :
    List ProcessedSteamGameInfo :=
  let uniqueGamesMap := combinedGames.foldl uniqueGamesStep []
  jsSortBy (·.appId) (uniqueGamesMap.map Prod.snd)

/-- Final step of the older `processSteamGames` revision
(`handlers/steam/index.ts` and its twin): `uniqueGamesMap` has no admin
preference, `uniqueGames` is computed and its length logged, but the
function returns `combinedGames` — the computed unique list is dead. -/
def processSteamGamesFinalizeOldRevision (combinedGames : List ProcessedSteamGameInfo) :
    List ProcessedSteamGameInfo :=
  let uniqueGamesMap :=
    combinedGames.foldl (fun m game => setKey m game.appId game) []
  let _uniqueGames := jsSortBy (·.appId) (uniqueGamesMap.map Prod.snd)
  combinedGames

/-- Result of a whole pipeline run. -/
structure PipelineRun where
  records : List ProcessedSteamGameInfo
  state : CacheState
  log : CallLog

/-- Embedding of `processSteamGames(targetIds, options)` (current
revision): run each account sequentially, threading the cache state (each
per-account run rewrites the cache files read by the next), concatenate
the per-account results and finalize with the cross-account merge. -/
def processSteamGames (w : SteamWorld) (useCache : Bool) (language : String)
    (targetIds : List String) (st : CacheState) : PipelineRun :=
  let folded := targetIds.foldl
    (fun (acc : List ProcessedSteamGameInfo × CacheState × CallLog) targetId =>
      let run := processSteamGamesForSingleUser w useCache language acc.2.1 targetId
      (acc.1 ++ run.gameInfos, run.state, acc.2.2.append run.log))
    ([], st, {})
  { records := processSteamGamesFinalize folded.1
    state := folded.2.1
    log := folded.2.2 }

/-! ### Facts about the cross-account merge -/

lemma uniqueGamesStep_lookup_other (m : List (ℕ × ProcessedSteamGameInfo))
    (g : ProcessedSteamGameInfo) (a : ℕ) (h : a ≠ g.appId) :
    lookupKey (uniqueGamesStep m g) a = lookupKey m a := by
  unfold uniqueGamesStep
  split
  · rfl
  · exact lookupKey_setKey_other m g.appId a g h

lemma uniqueGamesStep_lookup_self_of_admin (m : List (ℕ × ProcessedSteamGameInfo))
    (g : ProcessedSteamGameInfo) (hadmin : jsIsAdmin g = true) :
    lookupKey (uniqueGamesStep m g) g.appId = some g := by
  unfold uniqueGamesStep
  rw [if_neg]
  · exact lookupKey_setKey_self m g.appId g
  · simp [hadmin]

lemma uniqueGamesStep_lookup_self_of_nonadmin_existing
    (m : List (ℕ × ProcessedSteamGameInfo)) (y : ProcessedSteamGameInfo)
    (h : ∀ e, lookupKey m y.appId = some e → jsIsAdmin e = false) :
    lookupKey (uniqueGamesStep m y) y.appId = some y := by
  unfold uniqueGamesStep
  cases hl : lookupKey m y.appId with
  | none =>
    simp only [hl, jsIsAdminOpt, Bool.false_and, Bool.false_eq_true, if_false]
    exact lookupKey_setKey_self m y.appId y
  | some e =>
    simp only [hl, jsIsAdminOpt, h e hl, Bool.false_and, Bool.false_eq_true, if_false]
    exact lookupKey_setKey_self m y.appId y

lemma uniqueGamesMap_admin_preserved (a : ℕ) (g : ProcessedSteamGameInfo) :
    ∀ (l : List ProcessedSteamGameInfo) (m : List (ℕ × ProcessedSteamGameInfo)),
      lookupKey m a = some g → jsIsAdmin g = true →
      (∀ y ∈ l, y.appId = a → jsIsAdmin y = true → y = g) →
      lookupKey (l.foldl uniqueGamesStep m) a = some g := by
  intro l
  induction l with
  | nil => intro m hm _ _; exact hm
  | cons x rest ih =>
    intro m hm hadmin huniq
    rw [List.foldl_cons]
    refine ih _ ?_ hadmin (fun y hy => huniq y (List.mem_cons_of_mem _ hy))
    by_cases hxa : x.appId = a
    · by_cases hxadmin : jsIsAdmin x = true
      · have hxg : x = g := huniq x (List.mem_cons_self _ _) hxa hxadmin
        subst hxg
        have h1 := uniqueGamesStep_lookup_self_of_admin m x hxadmin
        rwa [hxa] at h1
      · have hxfalse : jsIsAdmin x = false := by
          revert hxadmin; cases jsIsAdmin x <;> simp
        unfold uniqueGamesStep
        rw [hxa, hm]
        simpa [jsIsAdminOpt, hadmin, hxfalse] using hm
    · rw [uniqueGamesStep_lookup_other m x a (fun hh => hxa hh.symm)]
      exact hm

lemma uniqueGamesMap_admin_wins (a : ℕ) (g : ProcessedSteamGameInfo) :
    ∀ (l : List ProcessedSteamGameInfo) (m : List (ℕ × ProcessedSteamGameInfo)),
      g ∈ l → g.appId = a → jsIsAdmin g = true →
      (∀ y ∈ l, y.appId = a → jsIsAdmin y = true → y = g) →
      lookupKey (l.foldl uniqueGamesStep m) a = some g := by
  intro l
  induction l with
  | nil => intro m h; cases h
  | cons x rest ih =>
    intro m hmem hid hadmin huniq
    rw [List.foldl_cons]
    rcases List.mem_cons.mp hmem with rfl | hrest
    · refine uniqueGamesMap_admin_preserved a g rest _ ?_ hadmin
        (fun y hy => huniq y (List.mem_cons_of_mem _ hy))
      have h1 := uniqueGamesStep_lookup_self_of_admin m g hadmin
      rwa [hid] at h1
    · exact ih _ hrest hid hadmin (fun y hy => huniq y (List.mem_cons_of_mem _ hy))

lemma uniqueGamesMap_nonadmin_invariant (a : ℕ) :
    ∀ (l : List ProcessedSteamGameInfo) (m : List (ℕ × ProcessedSteamGameInfo)),
      (∀ z ∈ l, z.appId = a → jsIsAdmin z = false) →
      (∀ e, lookupKey m a = some e → jsIsAdmin e = false) →
      ∀ e, lookupKey (l.foldl uniqueGamesStep m) a = some e → jsIsAdmin e = false := by
  intro l
  induction l with
  | nil => intro m _ hm; exact hm
  | cons x rest ih =>
    intro m hl hm
    rw [List.foldl_cons]
    refine ih _ (fun z hz => hl z (List.mem_cons_of_mem _ hz)) ?_
    by_cases hxa : x.appId = a
    · intro e he
      unfold uniqueGamesStep at he
      by_cases hc : (jsIsAdminOpt (lookupKey m x.appId) && !(jsIsAdmin x)) = true
      · rw [if_pos hc] at he
        exact hm e he
      · rw [if_neg hc, hxa, lookupKey_setKey_self] at he
        injection he with he'
        rw [← he']
        exact hl x (List.mem_cons_self _ _) hxa
    · intro e he
      rw [uniqueGamesStep_lookup_other m x a (fun hh => hxa hh.symm)] at he
      exact hm e he

lemma lookup_foldl_uniqueGamesStep_no_id (a : ℕ) :
    ∀ (l : List ProcessedSteamGameInfo) (m : List (ℕ × ProcessedSteamGameInfo)),
      (∀ z ∈ l, z.appId ≠ a) →
      lookupKey (l.foldl uniqueGamesStep m) a = lookupKey m a := by
  intro l
  induction l with
  | nil => intro m _; rfl
  | cons x rest ih =>
    intro m hl
    rw [List.foldl_cons, ih _ (fun z hz => hl z (List.mem_cons_of_mem _ hz)),
      uniqueGamesStep_lookup_other m x a
        (fun hh => hl x (List.mem_cons_self _ _) hh.symm)]

lemma uniqueGamesMap_last_wins (a : ℕ) (y : ProcessedSteamGameInfo) (hya : y.appId = a)
    (l₁ l₂ : List ProcessedSteamGameInfo) (m : List (ℕ × ProcessedSteamGameInfo))
    (hnoadmin : ∀ z ∈ l₁ ++ y :: l₂, z.appId = a → jsIsAdmin z = false)
    (hm : ∀ e, lookupKey m a = some e → jsIsAdmin e = false)
    (hl₂ : ∀ z ∈ l₂, z.appId ≠ a) :
    lookupKey ((l₁ ++ y :: l₂).foldl uniqueGamesStep m) a = some y := by
  rw [List.foldl_append, List.foldl_cons]
  rw [lookup_foldl_uniqueGamesStep_no_id a l₂ _ hl₂]
  have hm₁ : ∀ e, lookupKey (l₁.foldl uniqueGamesStep m) a = some e → jsIsAdmin e = false :=
    uniqueGamesMap_nonadmin_invariant a l₁ m
      (fun z hz => hnoadmin z (List.mem_append_left _ hz)) hm
  have h1 := uniqueGamesStep_lookup_self_of_nonadmin_existing
    (l₁.foldl uniqueGamesStep m) y (by rw [hya]; exact hm₁)
  rwa [hya] at h1

lemma mem_setKey {α : Type} (m : List (ℕ × α)) (k : ℕ) (v : α) (p : ℕ × α)
    (h : p ∈ setKey m k v) : p ∈ m ∨ p = (k, v) := by
  induction m with
  | nil => simpa [setKey] using h
  | cons q rest ih =>
    obtain ⟨k₀, v₀⟩ := q
    by_cases h0 : k₀ = k
    · rw [setKey, if_pos h0] at h
      rcases List.mem_cons.mp h with rfl | hmem
      · exact Or.inr rfl
      · exact Or.inl (List.mem_cons_of_mem _ hmem)
    · rw [setKey, if_neg h0] at h
      rcases List.mem_cons.mp h with rfl | hmem
      · exact Or.inl (List.mem_cons_self _ _)
      · rcases ih hmem with hmem' | rfl
        · exact Or.inl (List.mem_cons_of_mem _ hmem')
        · exact Or.inr rfl

lemma uniqueGamesMap_entry_key :
    ∀ (l : List ProcessedSteamGameInfo) (m : List (ℕ × ProcessedSteamGameInfo)),
      (∀ p ∈ m, p.2.appId = p.1) →
      ∀ p ∈ l.foldl uniqueGamesStep m, p.2.appId = p.1 := by
  intro l
  induction l with
  | nil => intro m hm; exact hm
  | cons x rest ih =>
    intro m hm
    rw [List.foldl_cons]
    refine ih _ ?_
    intro p hp
    unfold uniqueGamesStep at hp
    by_cases hc : (jsIsAdminOpt (lookupKey m x.appId) && !(jsIsAdmin x)) = true
    · rw [if_pos hc] at hp
      exact hm p hp
    · rw [if_neg hc] at hp
      rcases mem_setKey m x.appId x p hp with hmem | rfl
      · exact hm p hmem
      · rfl

lemma uniqueGamesMap_keys_nodup :
    ∀ (l : List ProcessedSteamGameInfo) (m : List (ℕ × ProcessedSteamGameInfo)),
      (m.map Prod.fst).Nodup →
      ((l.foldl uniqueGamesStep m).map Prod.fst).Nodup := by
  intro l
  induction l with
  | nil => intro m hm; exact hm
  | cons x rest ih =>
    intro m hm
    rw [List.foldl_cons]
    refine ih _ ?_
    unfold uniqueGamesStep
    split
    · exact hm
    · exact keys_setKey_nodup m x.appId x hm

lemma mem_processSteamGamesFinalize (combined : List ProcessedSteamGameInfo)
    (s : ProcessedSteamGameInfo) :
    s ∈ processSteamGamesFinalize combined ↔
      ∃ k, (k, s) ∈ combined.foldl uniqueGamesStep [] := by
  unfold processSteamGamesFinalize
  rw [mem_jsSortBy, List.mem_map]
  constructor
  · rintro ⟨p, hp, rfl⟩
    exact ⟨p.1, hp⟩
  · rintro ⟨k, hk⟩
    exact ⟨(k, s), hk, rfl⟩

/-- C4: in the cross-account merge of the current `processSteamGames`
revision, when the records produced for an app id include exactly one
from the primary (admin-flagged) account, that record is the one kept in
the final merged set regardless of where it occurs in iteration order;
when none of the records for an id comes from a primary-flagged account,
the last record produced for that id (the later account in iteration
order) is kept. -/
theorem processSteamGames_crossAccount_primacy :
    (∀ (combinedGames : List ProcessedSteamGameInfo) (a : ℕ) (g : ProcessedSteamGameInfo),
      g ∈ combinedGames → g.appId = a → jsIsAdmin g = true →
      (∀ y ∈ combinedGames, y.appId = a → jsIsAdmin y = true → y = g) →
      g ∈ processSteamGamesFinalize combinedGames ∧
        ∀ s ∈ processSteamGamesFinalize combinedGames, s.appId = a → s = g) ∧
    (∀ (l₁ l₂ : List ProcessedSteamGameInfo) (y : ProcessedSteamGameInfo) (a : ℕ),
      y.appId = a →
      (∀ z ∈ l₁ ++ y :: l₂, z.appId = a → jsIsAdmin z = false) →
      (∀ z ∈ l₂, z.appId ≠ a) →
      y ∈ processSteamGamesFinalize (l₁ ++ y :: l₂) ∧
        ∀ s ∈ processSteamGamesFinalize (l₁ ++ y :: l₂), s.appId = a → s = y) := by
  have main : ∀ (combinedGames : List ProcessedSteamGameInfo) (a : ℕ)
      (g : ProcessedSteamGameInfo),
      lookupKey (combinedGames.foldl uniqueGamesStep []) a = some g →
      g ∈ processSteamGamesFinalize combinedGames ∧
        ∀ s ∈ processSteamGamesFinalize combinedGames, s.appId = a → s = g := by
    intro combinedGames a g hlook
    have hnodup := uniqueGamesMap_keys_nodup combinedGames [] (by simp)
    have hkeys := uniqueGamesMap_entry_key combinedGames [] (by simp)
    constructor
    · exact (mem_processSteamGamesFinalize combinedGames g).mpr
        ⟨a, mem_of_lookupKey_eq_some _ a g hlook⟩
    · intro s hs hsa
      obtain ⟨k, hk⟩ := (mem_processSteamGamesFinalize combinedGames s).mp hs
      have hks : k = a := by rw [← hsa]; exact (hkeys (k, s) hk).symm
      subst hks
      have h2 := lookupKey_eq_some_of_mem _ k s hnodup hk
      have h3 : some s = some g := h2.symm.trans hlook
      exact Option.some.inj h3
  constructor
  · intro combinedGames a g hmem hid hadmin huniq
    exact main combinedGames a g
      (uniqueGamesMap_admin_wins a g combinedGames [] hmem hid hadmin huniq)
  · intro l₁ l₂ y a hya hnoadmin hl₂
    exact main (l₁ ++ y :: l₂) a y
      (uniqueGamesMap_last_wins a y hya l₁ l₂ [] hnoadmin (by simp [lookupKey]) hl₂)

/-- Admin-account record used in the C4 witness. -/
def c4Admin : ProcessedSteamGameInfo :=
  { appId := 3, name := "from admin", basicData := some { isAdmin := true, appId := 3 } }

/-- Non-admin record for the same app id used in the C4 witness. -/
def c4Plain : ProcessedSteamGameInfo :=
  { appId := 3, name := "from other", basicData := some { appId := 3 } }

/-- Witness for the C4 theorem at concrete inputs: with the admin record
iterated second it still wins, and with no admin record the later record
wins. -/
theorem processSteamGames_crossAccount_primacy_witness :
    c4Admin ∈ processSteamGamesFinalize [c4Plain, c4Admin] ∧
    c4Plain ∈ processSteamGamesFinalize [c4Plain, c4Plain] :=
  ⟨(processSteamGames_crossAccount_primacy.1 [c4Plain, c4Admin] 3 c4Admin
      (by decide) (by decide) (by decide) (by decide)).1,
   (processSteamGames_crossAccount_primacy.2 [c4Plain] [] c4Plain 3
      (by decide) (by decide) (by decide)).1⟩

/-- Record contributed by the first account in the C5 failing input. -/
def c5gA : ProcessedSteamGameInfo := { appId := 10, name := "from account A" }

/-- Record contributed by the second account in the C5 failing input. -/
def c5gB : ProcessedSteamGameInfo := { appId := 10, name := "from account B" }

/-- C5: the older `processSteamGames` revision computes the deduplicated,
sorted `uniqueGames` but returns `combinedGames`, so with two accounts
owning the same app id the returned final set carries a duplicate id; the
current revision returns the unique list, whose ids are duplicate-free
and sorted ascending for every input. -/
theorem processSteamGames_final_set_uniqueness :
    (processSteamGamesFinalizeOldRevision [c5gA, c5gB] = [c5gA, c5gB] ∧
      ¬ ((processSteamGamesFinalizeOldRevision [c5gA, c5gB]).map (·.appId)).Nodup) ∧
    (∀ combinedGames : List ProcessedSteamGameInfo,
      ((processSteamGamesFinalize combinedGames).map (·.appId)).Nodup ∧
      List.Sorted (· ≤ ·) ((processSteamGamesFinalize combinedGames).map (·.appId))) := by
  refine ⟨⟨rfl, by decide⟩, ?_⟩
  intro combinedGames
  have hnodup := uniqueGamesMap_keys_nodup combinedGames [] (by simp)
  have hkeys := uniqueGamesMap_entry_key combinedGames [] (by simp)
  constructor
  · have hperm : List.Perm
        ((processSteamGamesFinalize combinedGames).map (·.appId))
        (((combinedGames.foldl uniqueGamesStep []).map Prod.snd).map (·.appId)) :=
      (List.mergeSort_perm _ _).map _
    rw [(hperm.nodup_iff), List.map_map]
    show (List.map (fun p => p.2.appId) (combinedGames.foldl uniqueGamesStep [])).Nodup
    rw [List.map_congr_left (fun p hp => hkeys p hp)]
    exact hnodup
  · show List.Sorted (· ≤ ·)
      ((jsSortBy (·.appId) ((combinedGames.foldl uniqueGamesStep []).map Prod.snd)).map
        (·.appId))
    exact jsSortBy_sorted_keys _ _

/-- Numeric bridge: JavaScript `Math.round(s / 60 / 60)` on a seconds
value equals `(s + 1800) / 3600` in integer arithmetic — nearest whole
hour with halves rounding up. -/
lemma jsRound_seconds_to_hours (s : ℕ) :
    jsRound ((s : ℚ) / 60 / 60) = (((s + 1800) / 3600 : ℕ) : ℤ) := by
  have key : (s : ℚ) / 60 / 60 + 1 / 2 = ((s : ℚ) + 1800) / 3600 := by ring
  rw [jsRound, key, Int.floor_eq_iff]
  have h0 : (0 : ℚ) < 3600 := by norm_num
  constructor
  · rw [le_div_iff₀ h0]
    exact_mod_cast (by omega : ((s + 1800) / 3600) * 3600 ≤ s + 1800)
  · rw [div_lt_iff₀ h0]
    push_cast
    exact_mod_cast (by omega : s + 1800 < ((s + 1800) / 3600 + 1) * 3600)

/-- C6 (amended): every duration figure produced by the estimate layer is
the source seconds value converted to hours and rounded to the nearest
whole hour with halves rounding up (JavaScript `Math.round`), equal to
`(seconds + 1800) / 3600` in integer arithmetic — so 7199 seconds give 2
hours, while 1800 seconds give 1 hour, not 0. -/
theorem applyHltbData_duration_rounding (w : SteamWorld) (g : ProcessedSteamGameInfo)
    (d : HltbData) :
    (applyHltbData w g d).hltb_hours = some (((d.comp_main + 1800) / 3600 : ℕ) : ℤ) ∧
    (applyHltbData w g d).hltb_hours_extra = some (((d.comp_plus + 1800) / 3600 : ℕ) : ℤ) ∧
    (applyHltbData w g d).hltb_hours_completionist =
      some (((d.comp_100 + 1800) / 3600 : ℕ) : ℤ) := by
  refine ⟨?_, ?_, ?_⟩ <;> simp [applyHltbData, jsRound_seconds_to_hours]

/-- World used by concrete estimate-layer evaluations. -/
def c6World : SteamWorld :=
  { ownedGames := fun _ => [], store := fun _ => .fetchFailed, spy := fun _ => .noData,
    hltb := fun _ => .noData, authOk := true, time := 1 }

/-- Record and search hit used in the C6 counterexample. -/
def c6Game : ProcessedSteamGameInfo := { appId := 1 }

def c6Hit : HltbData := { comp_main := 1800, comp_plus := 7199 }

/-- C6 counterexample: a source value of 1800 seconds is stored as 1 hour
by the estimate layer (Math.round rounds the exact half up), not 0 as the
claim states; 7199 seconds give 2 hours as claimed. -/
theorem estimate_layer_1800_seconds_gives_one_hour :
    (applyHltbData c6World c6Game c6Hit).hltb_hours = some 1 ∧
    (applyHltbData c6World c6Game c6Hit).hltb_hours_extra = some 2 := by
  constructor <;>
    · simp only [applyHltbData, c6Hit, jsRound_seconds_to_hours]
      norm_num

/-! ### Facts about `cacheFind` and the merge written by the cache store -/

lemma cacheFind_eq_none_iff (l : List ProcessedSteamGameInfo) (a : ℕ) :
    cacheFind l a = none ↔ a ∉ l.map (·.appId) := by
  induction l with
  | nil => simp [cacheFind]
  | cons c rest ih =>
    by_cases hc : c.appId = a
    · rw [cacheFind, List.find?_cons_of_pos _ (by simp [hc])]
      simp [hc]
    · rw [cacheFind, List.find?_cons_of_neg _ (by simp [hc])]
      rw [show (List.find? (fun x => x.appId == a) rest) = cacheFind rest a from rfl, ih]
      simp [Ne.symm hc]

lemma cacheFind_eq_some (l : List ProcessedSteamGameInfo) (a : ℕ)
    (c : ProcessedSteamGameInfo) (h : cacheFind l a = some c) : c ∈ l ∧ c.appId = a := by
  unfold cacheFind at h
  exact ⟨List.mem_of_find?_eq_some h, by simpa using List.find?_some h⟩

lemma cacheFind_eq_some_of_mem (l : List ProcessedSteamGameInfo) (a : ℕ)
    (c : ProcessedSteamGameInfo) (hnodup : (l.map (·.appId)).Nodup) (hc : c ∈ l)
    (hk : c.appId = a) : cacheFind l a = some c := by
  induction l with
  | nil => cases hc
  | cons x rest ih =>
    simp only [List.map_cons, List.nodup_cons] at hnodup
    rcases List.mem_cons.mp hc with rfl | hmem
    · rw [cacheFind, List.find?_cons_of_pos _ (by simp [hk])]
    · have hxa : x.appId ≠ a := by
        intro hxa
        apply hnodup.1
        rw [hxa, ← hk]
        exact List.mem_map_of_mem (·.appId) hmem
      rw [cacheFind, List.find?_cons_of_neg _ (by simp [hxa])]
      exact ih hnodup.2 hmem

lemma cacheFind_append_singleton (l : List ProcessedSteamGameInfo)
    (g : ProcessedSteamGameInfo) (a : ℕ) :
    cacheFind (l ++ [g]) a =
      match cacheFind l a with
      | some c => some c
      | none => if g.appId = a then some g else none := by
  induction l with
  | nil =>
    by_cases hg : g.appId = a
    · rw [List.nil_append, cacheFind, List.find?_cons_of_pos _ (by simp [hg])]
      simp [cacheFind, List.find?, hg]
    · rw [List.nil_append, cacheFind, List.find?_cons_of_neg _ (by simp [hg])]
      simp [cacheFind, List.find?, hg]
  | cons x rest ih =>
    by_cases hx : x.appId = a
    · rw [show (x :: rest) ++ [g] = x :: (rest ++ [g]) from rfl, cacheFind,
        List.find?_cons_of_pos _ (by simp [hx]), cacheFind,
        List.find?_cons_of_pos _ (by simp [hx])]
    · rw [show (x :: rest) ++ [g] = x :: (rest ++ [g]) from rfl, cacheFind,
        List.find?_cons_of_neg _ (by simp [hx]), cacheFind,
        List.find?_cons_of_neg _ (by simp [hx])]
      exact ih

lemma stripBasicData_keys (l : List ProcessedSteamGameInfo) :
    (l.map stripBasicData).map (·.appId) = l.map (·.appId) := by
  rw [List.map_map]
  rfl

lemma keys_updateSteamGameInfoCache_perm (e f : List ProcessedSteamGameInfo) :
    List.Perm ((updateSteamGameInfoCache e f).map (·.appId))
      (f.map (·.appId) ++
        (e.filter (fun g => decide (g.appId ∉ f.map (·.appId)))).map (·.appId)) := by
  unfold updateSteamGameInfoCache
  rw [stripBasicData_keys, ← List.map_append]
  exact (List.mergeSort_perm _ _).map _

lemma keys_updateSteamGameInfoCache_nodup (e f : List ProcessedSteamGameInfo)
    (he : (e.map (·.appId)).Nodup) (hf : (f.map (·.appId)).Nodup) :
    ((updateSteamGameInfoCache e f).map (·.appId)).Nodup := by
  rw [(keys_updateSteamGameInfoCache_perm e f).nodup_iff]
  refine List.Nodup.append hf ?_ ?_
  · exact ((e.filter_sublist).map (·.appId)).nodup he
  · intro a haf hafil
    obtain ⟨g, hg, hga⟩ := List.mem_map.mp hafil
    have := (List.mem_filter.mp hg).2
    rw [decide_eq_true_eq] at this
    rw [hga] at this
    exact this haf

lemma mem_keys_updateSteamGameInfoCache (e f : List ProcessedSteamGameInfo) (a : ℕ) :
    a ∈ (updateSteamGameInfoCache e f).map (·.appId) ↔
      a ∈ f.map (·.appId) ∨ a ∈ e.map (·.appId) := by
  rw [(keys_updateSteamGameInfoCache_perm e f).mem_iff, List.mem_append]
  constructor
  · rintro (h | h)
    · exact Or.inl h
    · obtain ⟨g, hg, hga⟩ := List.mem_map.mp h
      exact Or.inr (List.mem_map.mpr ⟨g, (List.mem_filter.mp hg).1, hga⟩)
  · rintro (h | h)
    · exact Or.inl h
    · by_cases hf : a ∈ f.map (·.appId)
      · exact Or.inl hf
      · obtain ⟨g, hg, hga⟩ := List.mem_map.mp h
        refine Or.inr (List.mem_map.mpr ⟨g, List.mem_filter.mpr ⟨hg, ?_⟩, hga⟩)
        rw [decide_eq_true_eq, hga]
        exact hf

lemma cacheFind_updateSteamGameInfoCache (e f : List ProcessedSteamGameInfo) (a : ℕ)
    (he : (e.map (·.appId)).Nodup) (hf : (f.map (·.appId)).Nodup) :
    cacheFind (updateSteamGameInfoCache e f) a =
      match cacheFind f a with
      | some g => some (stripBasicData g)
      | none => (cacheFind e a).map stripBasicData := by
  cases hff : cacheFind f a with
  | some g =>
    obtain ⟨hmem, hkey⟩ := cacheFind_eq_some f a g hff
    exact cacheFind_eq_some_of_mem _ a _ (keys_updateSteamGameInfoCache_nodup e f he hf)
      ((mem_updateSteamGameInfoCache e f _).mpr (Or.inl ⟨g, hmem, rfl⟩)) hkey
  | none =>
    have hnf : a ∉ f.map (·.appId) := (cacheFind_eq_none_iff f a).mp hff
    cases hfe : cacheFind e a with
    | some c =>
      obtain ⟨hmem, hkey⟩ := cacheFind_eq_some e a c hfe
      exact cacheFind_eq_some_of_mem _ a _ (keys_updateSteamGameInfoCache_nodup e f he hf)
        ((mem_updateSteamGameInfoCache e f _).mpr
          (Or.inr ⟨c, hmem, by rw [hkey]; exact hnf, rfl⟩)) hkey
    | none =>
      have hne : a ∉ e.map (·.appId) := (cacheFind_eq_none_iff e a).mp hfe
      show cacheFind (updateSteamGameInfoCache e f) a = none
      rw [cacheFind_eq_none_iff, mem_keys_updateSteamGameInfoCache]
      rintro (h | h)
      · exact hnf h
      · exact hne h

lemma updateSteamGameInfoCache_clean (e f : List ProcessedSteamGameInfo) :
    ∀ s ∈ updateSteamGameInfoCache e f, s.basicData = none := by
  intro s hs
  rcases (mem_updateSteamGameInfoCache e f s).mp hs with ⟨g, _, rfl⟩ | ⟨g, _, _, rfl⟩ <;> rfl

/-! ### Facts about the identity loop -/

lemma identityStep_deny_mono (w : SteamWorld) (language : String)
    (cached : List ProcessedSteamGameInfo) (st : IdentityPassState)
    (b : BasicSteamGameInfo) (a : ℕ) (h : a ∈ st.knownDeletedAppIds) :
    a ∈ (identityStep w language cached st b).knownDeletedAppIds := by
  unfold identityStep
  split
  · exact h
  · split
    · exact h
    · split
      · exact h
      · split <;> simp [List.mem_append, h]

lemma identityStep_failed_mono (w : SteamWorld) (language : String)
    (cached : List ProcessedSteamGameInfo) (st : IdentityPassState)
    (b : BasicSteamGameInfo) (a : ℕ) (h : a ∈ st.failedGameInfos) :
    a ∈ (identityStep w language cached st b).failedGameInfos := by
  unfold identityStep
  split
  · exact h
  · split
    · exact h
    · split
      · simp [List.mem_append, h]
      · split <;> simp [List.mem_append, h]

lemma identityStep_calls_preserved (w : SteamWorld) (language : String)
    (cached : List ProcessedSteamGameInfo) (st : IdentityPassState)
    (b : BasicSteamGameInfo) (a : ℕ) (h : a ∉ st.identityCalls)
    (hd : b.appId ∈ st.knownDeletedAppIds ∨ b.appId ≠ a) :
    a ∉ (identityStep w language cached st b).identityCalls := by
  unfold identityStep
  split
  · exact h
  · split
    · exact h
    · split
      · exact h
      · rcases hd with hd | hd
        · rename_i hnotdeny
          exact absurd hd hnotdeny
        · split <;> simp [List.mem_append, h, Ne.symm hd]

lemma identityStep_cacheFind_other (w : SteamWorld) (language : String)
    (cached : List ProcessedSteamGameInfo) (st : IdentityPassState)
    (b : BasicSteamGameInfo) (a : ℕ) (hba : b.appId ≠ a) :
    cacheFind (identityStep w language cached st b).gameInfos a =
      cacheFind st.gameInfos a := by
  unfold identityStep
  split
  · rfl
  · split
    · rename_i c hfind
      have hkey : c.appId = b.appId := (cacheFind_eq_some cached _ c hfind).2
      show cacheFind (st.gameInfos ++ [{ c with basicData := some b }]) a = _
      rw [cacheFind_append_singleton]
      cases h2 : cacheFind st.gameInfos a with
      | some c' => rfl
      | none =>
        have hca : c.appId ≠ a := by rw [hkey]; exact hba
        simp [hca]
    · split
      · rfl
      · split
        · rfl
        · rfl
        · rfl
        · rfl
        · show cacheFind (st.gameInfos ++ [_]) a = _
          rw [cacheFind_append_singleton]
          cases h2 : cacheFind st.gameInfos a with
          | some c' => rfl
          | none => simp [mapSteamAppToProcessedGameInfo, hba]

lemma identityPass_foldl_deny_mono (w : SteamWorld) (language : String)
    (cached : List ProcessedSteamGameInfo) (a : ℕ) :
    ∀ (basics : List BasicSteamGameInfo) (st : IdentityPassState),
      a ∈ st.knownDeletedAppIds →
      a ∈ (basics.foldl (identityStep w language cached) st).knownDeletedAppIds := by
  intro basics
  induction basics with
  | nil => intro st h; exact h
  | cons b rest ih =>
    intro st h
    rw [List.foldl_cons]
    exact ih _ (identityStep_deny_mono w language cached st b a h)

lemma identityPass_foldl_failed_mono (w : SteamWorld) (language : String)
    (cached : List ProcessedSteamGameInfo) (a : ℕ) :
    ∀ (basics : List BasicSteamGameInfo) (st : IdentityPassState),
      a ∈ st.failedGameInfos →
      a ∈ (basics.foldl (identityStep w language cached) st).failedGameInfos := by
  intro basics
  induction basics with
  | nil => intro st h; exact h
  | cons b rest ih =>
    intro st h
    rw [List.foldl_cons]
    exact ih _ (identityStep_failed_mono w language cached st b a h)

lemma identityPass_foldl_denied_no_call (w : SteamWorld) (language : String)
    (cached : List ProcessedSteamGameInfo) (a : ℕ) :
    ∀ (basics : List BasicSteamGameInfo) (st : IdentityPassState),
      a ∈ st.knownDeletedAppIds → a ∉ st.identityCalls →
      a ∉ (basics.foldl (identityStep w language cached) st).identityCalls := by
  intro basics
  induction basics with
  | nil => intro st _ h2; exact h2
  | cons b rest ih =>
    intro st h1 h2
    rw [List.foldl_cons]
    refine ih _ (identityStep_deny_mono w language cached st b a h1) ?_
    by_cases hba : b.appId = a
    · exact identityStep_calls_preserved w language cached st b a h2 (Or.inl (hba ▸ h1))
    · exact identityStep_calls_preserved w language cached st b a h2 (Or.inr hba)

lemma identityPass_foldl_denied (w : SteamWorld) (language : String)
    (cached : List ProcessedSteamGameInfo) (a : ℕ) (hcache : cacheFind cached a = none) :
    ∀ (basics : List BasicSteamGameInfo) (st : IdentityPassState),
      a ∈ st.knownDeletedAppIds →
      cacheFind st.gameInfos a = none →
      cacheFind (basics.foldl (identityStep w language cached) st).gameInfos a = none ∧
      ((∃ b ∈ basics, b.appId = a) →
        a ∈ (basics.foldl (identityStep w language cached) st).failedGameInfos) := by
  intro basics
  induction basics with
  | nil =>
    intro st _ h2
    exact ⟨h2, by rintro ⟨b, hb, _⟩; cases hb⟩
  | cons b rest ih =>
    intro st h1 h2
    rw [List.foldl_cons]
    by_cases hba : b.appId = a
    · have hstep : identityStep w language cached st b =
          { st with failedGameInfos := st.failedGameInfos ++ [b.appId] } := by
        unfold identityStep
        rw [hba]
        rw [if_neg (by rw [h2]; simp), hcache, if_pos h1]
      rw [hstep]
      obtain ⟨hnone, _⟩ := ih { st with failedGameInfos := st.failedGameInfos ++ [b.appId] }
        h1 h2
      refine ⟨hnone, fun _ => ?_⟩
      refine identityPass_foldl_failed_mono w language cached a rest _ ?_
      rw [hba]
      simp [List.mem_append, hba]
    · have hdm := identityStep_deny_mono w language cached st b a h1
      have hcf := identityStep_cacheFind_other w language cached st b a hba
      obtain ⟨hnone, hfail⟩ := ih (identityStep w language cached st b) hdm (by rw [hcf]; exact h2)
      refine ⟨hnone, ?_⟩
      rintro ⟨b', hb', hb'a⟩
      rcases List.mem_cons.mp hb' with rfl | hb'rest
      · exact absurd hb'a hba
      · exact hfail ⟨b', hb'rest, hb'a⟩

/-! ### Call provenance of the statistics and estimate layers -/

lemma spyStep_snd (w : SteamWorld) (u : Bool) (g : ProcessedSteamGameInfo) :
    (spyStep w u g).2 = !(jsTruthyNat g.spy_update_timestamp && u) := by
  unfold spyStep
  by_cases h : (jsTruthyNat g.spy_update_timestamp && u) = true
  · simp [h]
  · have h' : (jsTruthyNat g.spy_update_timestamp && u) = false := by
      revert h; cases (jsTruthyNat g.spy_update_timestamp && u) <;> simp
    rw [if_neg h, h']
    cases w.spy g.appId <;> rfl

lemma spyStep_appId (w : SteamWorld) (u : Bool) (g : ProcessedSteamGameInfo) :
    (spyStep w u g).1.appId = g.appId := by
  unfold spyStep
  split
  · rfl
  · split <;> rfl

lemma spy_foldl_general (w : SteamWorld) (u : Bool) :
    ∀ (l : List ProcessedSteamGameInfo) (acc : List ProcessedSteamGameInfo × List ℕ),
      l.foldl
        (fun acc gi =>
          let r := spyStep w u gi
          (acc.1 ++ [r.1], if r.2 then acc.2 ++ [gi.appId] else acc.2)) acc =
      (acc.1 ++ l.map (fun g => (spyStep w u g).1),
       acc.2 ++ (l.filter
         (fun g => !(jsTruthyNat g.spy_update_timestamp && u))).map (·.appId)) := by
  intro l
  induction l with
  | nil => intro acc; simp
  | cons g rest ih =>
    intro acc
    rw [List.foldl_cons]
    show (rest.foldl _ (acc.1 ++ [(spyStep w u g).1],
      if (spyStep w u g).2 then acc.2 ++ [g.appId] else acc.2)) = _
    rw [ih, spyStep_snd]
    cases hx : jsTruthyNat g.spy_update_timestamp <;> cases hu : u <;>
      simp [hx, hu, List.filter_cons, List.append_assoc]

lemma fetchSteamSpyDataForAppIds_eq (w : SteamWorld) (u : Bool)
    (l : List ProcessedSteamGameInfo) :
    fetchSteamSpyDataForAppIds w u l =
      (l.map (fun g => (spyStep w u g).1),
       (l.filter (fun g => !(jsTruthyNat g.spy_update_timestamp && u))).map (·.appId)) := by
  unfold fetchSteamSpyDataForAppIds
  rw [spy_foldl_general]
  simp

lemma fetchSteamSpyDataForAppIds_calls_sub (w : SteamWorld) (u : Bool)
    (l : List ProcessedSteamGameInfo) (x : ℕ)
    (hx : x ∈ (fetchSteamSpyDataForAppIds w u l).2) : x ∈ l.map (·.appId) := by
  rw [fetchSteamSpyDataForAppIds_eq] at hx
  obtain ⟨g, hg, hga⟩ := List.mem_map.mp hx
  exact List.mem_map.mpr ⟨g, List.mem_of_mem_filter hg, hga⟩

lemma fetchSteamSpyDataForAppIds_keys (w : SteamWorld) (u : Bool)
    (l : List ProcessedSteamGameInfo) :
    (fetchSteamSpyDataForAppIds w u l).1.map (·.appId) = l.map (·.appId) := by
  rw [fetchSteamSpyDataForAppIds_eq]
  rw [List.map_map]
  exact List.map_congr_left (fun g _ => spyStep_appId w u g)

lemma processHltbLoop_calls_sub (w : SteamWorld) (u : Bool) :
    ∀ (l : List ProcessedSteamGameInfo) (n : ℕ) (x : ℕ),
      x ∈ (processHltbLoop w u l n).2.1 → x ∈ l.map (·.appId) := by
  intro l
  induction l with
  | nil => intro n x hx; simp [processHltbLoop] at hx
  | cons g rest ih =>
    intro n x hx
    unfold processHltbLoop at hx
    rw [List.map_cons]
    by_cases hskip : (jsTruthyNat g.last_hltb_update_timestamp && u) = true
    · rw [if_pos hskip] at hx
      have hx' : x ∈ (processHltbLoop w u rest n).2.1 := hx
      exact List.mem_cons_of_mem _ (ih n x hx')
    · rw [if_neg hskip] at hx
      cases hh : w.hltb (hltbSearchQuery g.name) with
      | ok d =>
        rw [hh] at hx
        have hx' : x ∈ g.appId :: (processHltbLoop w u rest 0).2.1 := hx
        rcases List.mem_cons.mp hx' with rfl | hmem
        · exact List.mem_cons_self _ _
        · exact List.mem_cons_of_mem _ (ih 0 x hmem)
      | noData =>
        rw [hh] at hx
        have hx' : x ∈ g.appId :: (processHltbLoop w u rest 0).2.1 := hx
        rcases List.mem_cons.mp hx' with rfl | hmem
        · exact List.mem_cons_self _ _
        · exact List.mem_cons_of_mem _ (ih 0 x hmem)
      | fetchFailed =>
        rw [hh] at hx
        by_cases hceil : MAX_HLTB_FAILED_ATTEMPTS ≤ n + 1
        · rw [if_pos hceil] at hx
          have hx' : x ∈ [g.appId] := hx
          rw [List.mem_singleton.mp hx']
          exact List.mem_cons_self _ _
        · rw [if_neg hceil] at hx
          by_cases hauth : w.authOk = true
          · rw [if_pos hauth] at hx
            have hx' : x ∈ g.appId :: (processHltbLoop w u rest (n + 1)).2.1 := hx
            rcases List.mem_cons.mp hx' with rfl | hmem
            · exact List.mem_cons_self _ _
            · exact List.mem_cons_of_mem _ (ih (n + 1) x hmem)
          · rw [if_neg hauth] at hx
            have hx' : x ∈ [g.appId] := hx
            rw [List.mem_singleton.mp hx']
            exact List.mem_cons_self _ _

lemma processHltbDataForSteamGames_calls_sub (w : SteamWorld) (u : Bool)
    (l : List ProcessedSteamGameInfo) (x : ℕ)
    (hx : x ∈ (processHltbDataForSteamGames w u l).2.1) : x ∈ l.map (·.appId) := by
  unfold processHltbDataForSteamGames at hx
  by_cases hauth : w.authOk = true
  · rw [if_pos hauth] at hx
    exact processHltbLoop_calls_sub w u l 0 x hx
  · rw [if_neg hauth] at hx
    simp at hx

/-- C7 (amended): once an id is in the persisted denylist, a subsequent
run with caching enabled issues no identity-layer request for it, and the
denylist entry survives the run (nothing ever removes it); when the id is
also absent from the enrichment cache, every owned occurrence of it is
recorded as failed/skipped and no statistics or estimate request is made
for it either. (A run with caching disabled bypasses the denylist and
does refetch; see the counterexample.) -/
theorem denylisted_id_not_refetched (w : SteamWorld) (language : String)
    (st : CacheState) (targetSteamId : String) (a : ℕ) (ha : a ∈ st.knownDeleted) :
    a ∉ (processSteamGamesForSingleUser w true language st targetSteamId).log.identityCalls ∧
    a ∈ (processSteamGamesForSingleUser w true language st targetSteamId).state.knownDeleted ∧
    (a ∉ st.gameInfoCache.map (·.appId) →
      ((∃ b ∈ w.ownedGames targetSteamId, b.appId = a) →
        a ∈ (processSteamGamesForSingleUser w true language st targetSteamId).failed) ∧
      a ∉ (processSteamGamesForSingleUser w true language st targetSteamId).log.spyCalls ∧
      a ∉ (processSteamGamesForSingleUser w true language st targetSteamId).log.hltbCalls) := by
  refine ⟨?_, ?_, ?_⟩
  · show a ∉ ((w.ownedGames targetSteamId).foldl
      (identityStep w language st.gameInfoCache)
      { knownDeletedAppIds := st.knownDeleted }).identityCalls
    exact identityPass_foldl_denied_no_call w language st.gameInfoCache a _ _ ha (by simp)
  · show a ∈ updateKnownDeletedGamesCache ((w.ownedGames targetSteamId).foldl
      (identityStep w language st.gameInfoCache)
      { knownDeletedAppIds := st.knownDeleted }).knownDeletedAppIds
    rw [updateKnownDeletedGamesCache, (mem_jsSortBy id _ a)]
    exact identityPass_foldl_deny_mono w language st.gameInfoCache a _ _ ha
  · intro hnc
    have hcf : cacheFind st.gameInfoCache a = none := (cacheFind_eq_none_iff _ a).mpr hnc
    obtain ⟨hnone, hfail⟩ := identityPass_foldl_denied w language st.gameInfoCache a hcf
      (w.ownedGames targetSteamId) { knownDeletedAppIds := st.knownDeleted } ha rfl
    have hkeys : a ∉ (((w.ownedGames targetSteamId).foldl
        (identityStep w language st.gameInfoCache)
        { knownDeletedAppIds := st.knownDeleted }).gameInfos).map (·.appId) :=
      (cacheFind_eq_none_iff _ a).mp hnone
    refine ⟨?_, ?_, ?_⟩
    · intro howned
      show a ∈ ((w.ownedGames targetSteamId).foldl
        (identityStep w language st.gameInfoCache)
        { knownDeletedAppIds := st.knownDeleted }).failedGameInfos
      exact hfail howned
    · intro hspy
      have hspy' : a ∈ ((((w.ownedGames targetSteamId).foldl
          (identityStep w language st.gameInfoCache)
          { knownDeletedAppIds := st.knownDeleted }).gameInfos).map (·.appId)) :=
        fetchSteamSpyDataForAppIds_calls_sub w true _ a hspy
      exact hkeys hspy'
    · intro hhltb
      have hh1 : a ∈ ((fetchSteamSpyDataForAppIds w true
          (((w.ownedGames targetSteamId).foldl
            (identityStep w language st.gameInfoCache)
            { knownDeletedAppIds := st.knownDeleted }).gameInfos)).1).map (·.appId) :=
        processHltbDataForSteamGames_calls_sub w true _ a hhltb
      rw [fetchSteamSpyDataForAppIds_keys] at hh1
      exact hkeys hh1

/-- World for the C7 counterexample: one account owning one game whose id
is already denylisted, but whose store lookup would succeed. -/
def c7World : SteamWorld :=
  { ownedGames := fun _ => [{ appId := 5 }]
    store := fun _ => .ok {}
    spy := fun _ => .noData
    hltb := fun _ => .noData
    authOk := false
    time := 1 }

/-- State for the C7 counterexample: id 5 is denylisted and not cached. -/
def c7State : CacheState := { gameInfoCache := [], knownDeleted := [5] }

/-- C7 counterexample: a subsequent run executed with caching disabled
(the cache-bypass CLI flag) does issue an identity-layer request for the
denylisted id, because the denylist is only loaded when caching is
enabled — so the claim is false for arbitrary subsequent runs. -/
theorem denylisted_id_refetched_without_cache :
    5 ∈ (processSteamGamesForSingleUser c7World false "english" c7State "u").log.identityCalls := by
  decide

/-- Witness for the C7 theorem at a concrete input: with caching enabled
the denylisted id 5 is not fetched, survives in the denylist, and is
recorded as failed. -/
theorem denylisted_id_not_refetched_witness :
    5 ∉ (processSteamGamesForSingleUser c7World true "english" c7State "u").log.identityCalls ∧
    5 ∈ (processSteamGamesForSingleUser c7World true "english" c7State "u").state.knownDeleted ∧
    5 ∈ (processSteamGamesForSingleUser c7World true "english" c7State "u").failed := by
  obtain ⟨h1, h2, h3⟩ :=
    denylisted_id_not_refetched c7World "english" c7State "u" 5 (by decide)
  obtain ⟨h4, _, _⟩ := h3 (by decide)
  exact ⟨h1, h2, h4 ⟨{ appId := 5 }, by decide, rfl⟩⟩

/-! ### Idempotence machinery

`replayRecords` is what the identity loop computes when every owned item
can be served from cache or denylist: cached records are reused with the
fresh per-run layer attached, everything else is skipped. `settledId`
captures the states from which the pipeline has nothing left to fetch for
an id. -/

/-- One replay step of the identity loop (cache hit or skip only). -/
def replayStep (cache : List ProcessedSteamGameInfo)
    (acc : List ProcessedSteamGameInfo) (b : BasicSteamGameInfo) :
    List ProcessedSteamGameInfo :=
  if (cacheFind acc b.appId).isSome then acc
  else
    match cacheFind cache b.appId with
    | some c => acc ++ [{ c with basicData := some b }]
    | none => acc

/-- The result set of a fully cached identity pass. -/
def replayRecords (cache : List ProcessedSteamGameInfo)
    (basics : List BasicSteamGameInfo) : List ProcessedSteamGameInfo :=
  basics.foldl (replayStep cache) []

/-- An id the pipeline will never spend another request on: either its
cached record carries truthy statistics and estimate timestamps, or it is
denylisted and absent from the cache. -/
def settledId (st : CacheState) (a : ℕ) : Prop :=
  (∃ c, cacheFind st.gameInfoCache a = some c ∧
    jsTruthyNat c.spy_update_timestamp = true ∧
    jsTruthyNat c.last_hltb_update_timestamp = true) ∨
  (cacheFind st.gameInfoCache a = none ∧ a ∈ st.knownDeleted)

lemma spyStep_skip (w : SteamWorld) (g : ProcessedSteamGameInfo)
    (h : jsTruthyNat g.spy_update_timestamp = true) : spyStep w true g = (g, false) := by
  unfold spyStep
  rw [if_pos (by simp [h])]

lemma spyStep_fst_spy_ts (w : SteamWorld) (g : ProcessedSteamGameInfo)
    (hspy : w.spy g.appId ≠ .fetchFailed) (htime : w.time ≠ 0) :
    jsTruthyNat (spyStep w true g).1.spy_update_timestamp = true := by
  unfold spyStep
  by_cases h : (jsTruthyNat g.spy_update_timestamp && true) = true
  · rw [if_pos h]
    simpa using h
  · rw [if_neg h]
    cases hs : w.spy g.appId with
    | fetchFailed => exact absurd hs hspy
    | noData => simp [jsTruthyNat, htime]
    | ok d => simp [applySpyData, jsTruthyNat, htime]

lemma spyStep_fst_hltb_ts (w : SteamWorld) (u : Bool) (g : ProcessedSteamGameInfo) :
    (spyStep w u g).1.last_hltb_update_timestamp = g.last_hltb_update_timestamp := by
  unfold spyStep
  split
  · rfl
  · split <;> rfl

lemma spyStep_fst_basicData (w : SteamWorld) (u : Bool) (g : ProcessedSteamGameInfo) :
    (spyStep w u g).1.basicData = g.basicData := by
  unfold spyStep
  split
  · rfl
  · split <;> rfl

lemma fetchSteamSpyDataForAppIds_all_skip (w : SteamWorld)
    (l : List ProcessedSteamGameInfo)
    (h : ∀ g ∈ l, jsTruthyNat g.spy_update_timestamp = true) :
    fetchSteamSpyDataForAppIds w true l = (l, []) := by
  rw [fetchSteamSpyDataForAppIds_eq]
  have h1 : l.map (fun g => (spyStep w true g).1) = l := by
    conv_rhs => rw [← List.map_id l]
    exact List.map_congr_left (fun g hg => by rw [spyStep_skip w g (h g hg)]; rfl)
  have h2 : (l.filter (fun g => !(jsTruthyNat g.spy_update_timestamp && true))) = [] :=
    List.filter_eq_nil_iff.mpr (fun g hg => by simp [h g hg])
  rw [h1, h2]
  rfl

lemma processHltbLoop_all_skip (w : SteamWorld) (l : List ProcessedSteamGameInfo)
    (h : ∀ g ∈ l, jsTruthyNat g.last_hltb_update_timestamp = true) :
    ∀ n, processHltbLoop w true l n = (l, [], 0) := by
  induction l with
  | nil => intro n; rfl
  | cons g rest ih =>
    intro n
    unfold processHltbLoop
    rw [if_pos (by simp [h g (List.mem_cons_self _ _)])]
    rw [ih (fun g' hg' => h g' (List.mem_cons_of_mem _ hg')) n]

lemma processHltbDataForSteamGames_all_skip (w : SteamWorld)
    (l : List ProcessedSteamGameInfo)
    (h : ∀ g ∈ l, jsTruthyNat g.last_hltb_update_timestamp = true) :
    processHltbDataForSteamGames w true l = (l, [], 1) := by
  unfold processHltbDataForSteamGames
  by_cases hauth : w.authOk = true
  · rw [if_pos hauth, processHltbLoop_all_skip w l h 0]
  · rw [if_neg hauth]

/-! ### The identity loop on a settled state -/

lemma identityPass_foldl_settled (w : SteamWorld) (language : String)
    (cache : List ProcessedSteamGameInfo) :
    ∀ (basics : List BasicSteamGameInfo) (st : IdentityPassState),
      (∀ b ∈ basics, cacheFind cache b.appId = none → b.appId ∈ st.knownDeletedAppIds) →
      (basics.foldl (identityStep w language cache) st).gameInfos =
        basics.foldl (replayStep cache) st.gameInfos ∧
      (basics.foldl (identityStep w language cache) st).identityCalls = st.identityCalls ∧
      (basics.foldl (identityStep w language cache) st).knownDeletedAppIds =
        st.knownDeletedAppIds := by
  intro basics
  induction basics with
  | nil => intro st _; exact ⟨rfl, rfl, rfl⟩
  | cons b rest ih =>
    intro st hset
    rw [List.foldl_cons, List.foldl_cons]
    by_cases hdup : (cacheFind st.gameInfos b.appId).isSome = true
    · have hstep : identityStep w language cache st b = st := by
        unfold identityStep
        rw [if_pos hdup]
      have hrep : replayStep cache st.gameInfos b = st.gameInfos := by
        unfold replayStep
        rw [if_pos hdup]
      rw [hstep, hrep]
      exact ih st (fun b' hb' => hset b' (List.mem_cons_of_mem _ hb'))
    · cases hfind : cacheFind cache b.appId with
      | some c =>
        have hstep : identityStep w language cache st b =
            { st with gameInfos := st.gameInfos ++ [{ c with basicData := some b }] } := by
          unfold identityStep
          rw [if_neg hdup, hfind]
        have hrep : replayStep cache st.gameInfos b =
            st.gameInfos ++ [{ c with basicData := some b }] := by
          unfold replayStep
          rw [if_neg hdup, hfind]
        rw [hstep, hrep]
        exact ih _ (fun b' hb' => hset b' (List.mem_cons_of_mem _ hb'))
      | none =>
        have hdeny : b.appId ∈ st.knownDeletedAppIds :=
          hset b (List.mem_cons_self _ _) hfind
        have hstep : identityStep w language cache st b =
            { st with failedGameInfos := st.failedGameInfos ++ [b.appId] } := by
          unfold identityStep
          rw [if_neg hdup, hfind, if_pos hdeny]
        have hrep : replayStep cache st.gameInfos b = st.gameInfos := by
          unfold replayStep
          rw [if_neg hdup, hfind]
        rw [hstep, hrep]
        exact ih _ (fun b' hb' => hset b' (List.mem_cons_of_mem _ hb'))

lemma replayRecords_foldl_provenance (cache : List ProcessedSteamGameInfo) :
    ∀ (basics : List BasicSteamGameInfo) (acc : List ProcessedSteamGameInfo),
      ∀ g ∈ basics.foldl (replayStep cache) acc,
        g ∈ acc ∨ ∃ b ∈ basics, ∃ c, cacheFind cache b.appId = some c ∧
          g = { c with basicData := some b } := by
  intro basics
  induction basics with
  | nil => intro acc g hg; exact Or.inl hg
  | cons b rest ih =>
    intro acc g hg
    rw [List.foldl_cons] at hg
    rcases ih (replayStep cache acc b) g hg with hacc | ⟨b', hb', c, hc, rfl⟩
    · unfold replayStep at hacc
      by_cases hdup : (cacheFind acc b.appId).isSome = true
      · rw [if_pos hdup] at hacc
        exact Or.inl hacc
      · rw [if_neg hdup] at hacc
        cases hfind : cacheFind cache b.appId with
        | some c =>
          rw [hfind] at hacc
          rcases List.mem_append.mp hacc with h | h
          · exact Or.inl h
          · refine Or.inr ⟨b, List.mem_cons_self _ _, c, hfind, ?_⟩
            rw [List.mem_singleton.mp h]
        | none =>
          rw [hfind] at hacc
          exact Or.inl hacc
    · exact Or.inr ⟨b', List.mem_cons_of_mem _ hb', c, hc, rfl⟩

lemma replayRecords_keys_nodup (cache : List ProcessedSteamGameInfo) :
    ∀ (basics : List BasicSteamGameInfo) (acc : List ProcessedSteamGameInfo),
      (acc.map (·.appId)).Nodup →
      ((basics.foldl (replayStep cache) acc).map (·.appId)).Nodup := by
  intro basics
  induction basics with
  | nil => intro acc h; exact h
  | cons b rest ih =>
    intro acc h
    rw [List.foldl_cons]
    refine ih _ ?_
    unfold replayStep
    by_cases hdup : (cacheFind acc b.appId).isSome = true
    · rw [if_pos hdup]; exact h
    · rw [if_neg hdup]
      cases hfind : cacheFind cache b.appId with
      | some c =>
        have hkey : c.appId = b.appId := (cacheFind_eq_some cache _ c hfind).2
        have hnone : cacheFind acc b.appId = none := by
          cases hc : cacheFind acc b.appId
          · rfl
          · rw [hc] at hdup; exact absurd rfl hdup
        have hnot : b.appId ∉ acc.map (·.appId) := (cacheFind_eq_none_iff _ _).mp hnone
        rw [List.map_append]
        refine List.Nodup.append h (by simp) ?_
        intro x hx hx2
        have : x = b.appId := by simpa [hkey] using hx2
        rw [this] at hx
        exact hnot hx
      | none => exact h

lemma stripBasicData_eq_self (c : ProcessedSteamGameInfo) (h : c.basicData = none) :
    stripBasicData c = c := by
  cases c
  unfold stripBasicData
  subst h
  rfl

lemma replayRecords_ts (st : CacheState) (basics : List BasicSteamGameInfo)
    (hset : ∀ b ∈ basics, settledId st b.appId) :
    ∀ g ∈ replayRecords st.gameInfoCache basics,
      jsTruthyNat g.spy_update_timestamp = true ∧
      jsTruthyNat g.last_hltb_update_timestamp = true := by
  intro g hg
  rcases replayRecords_foldl_provenance st.gameInfoCache basics [] g hg with
    h | ⟨b, hb, c, hc, rfl⟩
  · cases h
  · rcases hset b hb with ⟨c', hc', hts1, hts2⟩ | ⟨hnone, _⟩
    · rw [hc'] at hc
      injection hc with hcc
      subst hcc
      exact ⟨hts1, hts2⟩
    · rw [hnone] at hc
      cases hc

lemma cacheFind_update_replay (cacheS e : List ProcessedSteamGameInfo)
    (basics : List BasicSteamGameInfo)
    (hSclean : ∀ c ∈ cacheS, c.basicData = none)
    (heq : ∀ a, cacheFind e a = cacheFind cacheS a)
    (henodup : (e.map (·.appId)).Nodup) (a : ℕ) :
    cacheFind (updateSteamGameInfoCache e (replayRecords cacheS basics)) a =
      cacheFind e a := by
  have hrnodup : ((replayRecords cacheS basics).map (·.appId)).Nodup :=
    replayRecords_keys_nodup cacheS basics [] (by simp)
  rw [cacheFind_updateSteamGameInfoCache e _ a henodup hrnodup]
  cases hr : cacheFind (replayRecords cacheS basics) a with
  | some g =>
    obtain ⟨hm, hk⟩ := cacheFind_eq_some _ a g hr
    rcases replayRecords_foldl_provenance cacheS basics [] g hm with h | ⟨b, _, c, hc, rfl⟩
    · cases h
    · have hck : c.appId = b.appId := (cacheFind_eq_some cacheS _ c hc).2
      have hba : b.appId = a := by
        rw [← hck]
        exact hk
      have hclean : stripBasicData c = c :=
        stripBasicData_eq_self c (hSclean c (cacheFind_eq_some cacheS _ c hc).1)
      have hstrip : stripBasicData { c with basicData := some b } = c := by
        rw [← hclean]
        rfl
      show some (stripBasicData { c with basicData := some b }) = cacheFind e a
      rw [hstrip, heq a, ← hba, hc]
  | none =>
    cases he : cacheFind e a with
    | none => rfl
    | some c =>
      have hc' : cacheFind cacheS a = some c := by rw [← heq a, he]
      have : stripBasicData c = c :=
        stripBasicData_eq_self c (hSclean c (cacheFind_eq_some cacheS _ c hc').1)
      simp [this]

/-- A per-account run on a state where every owned id is settled: the
result set is the cache replay, no identity, statistics or estimate
request is issued, the cache lookups and denylist membership are
unchanged by the run, and the cache file invariants persist. -/
lemma processSteamGamesForSingleUser_replay (w : SteamWorld) (language : String)
    (st : CacheState) (t : String)
    (hset : ∀ b ∈ w.ownedGames t, settledId st b.appId)
    (hnodup : (st.gameInfoCache.map (·.appId)).Nodup)
    (hclean : ∀ c ∈ st.gameInfoCache, c.basicData = none) :
    (processSteamGamesForSingleUser w true language st t).gameInfos =
      replayRecords st.gameInfoCache (w.ownedGames t) ∧
    (processSteamGamesForSingleUser w true language st t).log.identityCalls = [] ∧
    (processSteamGamesForSingleUser w true language st t).log.spyCalls = [] ∧
    (processSteamGamesForSingleUser w true language st t).log.hltbCalls = [] ∧
    (∀ a, cacheFind (processSteamGamesForSingleUser w true language st t).state.gameInfoCache a =
      cacheFind st.gameInfoCache a) ∧
    (∀ a, a ∈ (processSteamGamesForSingleUser w true language st t).state.knownDeleted ↔
      a ∈ st.knownDeleted) ∧
    (((processSteamGamesForSingleUser w true language st t).state.gameInfoCache.map
      (·.appId)).Nodup) ∧
    (∀ c ∈ (processSteamGamesForSingleUser w true language st t).state.gameInfoCache,
      c.basicData = none) := by
  have hloop := identityPass_foldl_settled w language st.gameInfoCache (w.ownedGames t)
    { knownDeletedAppIds := st.knownDeleted }
    (by
      intro b hb hnone
      rcases hset b hb with ⟨c, hc, _, _⟩ | ⟨_, hdeny⟩
      · rw [hc] at hnone; cases hnone
      · exact hdeny)
  have hts := replayRecords_ts st (w.ownedGames t) hset
  have hspy := fetchSteamSpyDataForAppIds_all_skip w
    (replayRecords st.gameInfoCache (w.ownedGames t)) (fun g hg => (hts g hg).1)
  have hhltb := processHltbDataForSteamGames_all_skip w
    (replayRecords st.gameInfoCache (w.ownedGames t)) (fun g hg => (hts g hg).2)
  have hrecs : ((w.ownedGames t).foldl
      (identityStep w language st.gameInfoCache)
      { knownDeletedAppIds := st.knownDeleted }).gameInfos =
      replayRecords st.gameInfoCache (w.ownedGames t) := hloop.1
  refine ⟨?_, ?_, ?_, ?_, ?_, ?_, ?_, ?_⟩
  · show (processHltbDataForSteamGames w true (fetchSteamSpyDataForAppIds w true
      ((w.ownedGames t).foldl (identityStep w language st.gameInfoCache)
        { knownDeletedAppIds := st.knownDeleted }).gameInfos).1).1 = _
    rw [hrecs, hspy, hhltb]
  · exact hloop.2.1
  · show (fetchSteamSpyDataForAppIds w true
      ((w.ownedGames t).foldl (identityStep w language st.gameInfoCache)
        { knownDeletedAppIds := st.knownDeleted }).gameInfos).2 = []
    rw [hrecs, hspy]
  · show (processHltbDataForSteamGames w true (fetchSteamSpyDataForAppIds w true
      ((w.ownedGames t).foldl (identityStep w language st.gameInfoCache)
        { knownDeletedAppIds := st.knownDeleted }).gameInfos).1).2.1 = []
    rw [hrecs, hspy, hhltb]
  · intro a
    show cacheFind (updateSteamGameInfoCache (updateSteamGameInfoCache
      (updateSteamGameInfoCache st.gameInfoCache
        ((w.ownedGames t).foldl (identityStep w language st.gameInfoCache)
          { knownDeletedAppIds := st.knownDeleted }).gameInfos)
      (fetchSteamSpyDataForAppIds w true
        ((w.ownedGames t).foldl (identityStep w language st.gameInfoCache)
          { knownDeletedAppIds := st.knownDeleted }).gameInfos).1)
      (processHltbDataForSteamGames w true (fetchSteamSpyDataForAppIds w true
        ((w.ownedGames t).foldl (identityStep w language st.gameInfoCache)
          { knownDeletedAppIds := st.knownDeleted }).gameInfos).1).1) a =
      cacheFind st.gameInfoCache a
    rw [hrecs, hspy, hhltb]
    have hrnodup : ((replayRecords st.gameInfoCache (w.ownedGames t)).map (·.appId)).Nodup :=
      replayRecords_keys_nodup st.gameInfoCache (w.ownedGames t) [] (by simp)
    have h1 : ∀ a, cacheFind (updateSteamGameInfoCache st.gameInfoCache
        (replayRecords st.gameInfoCache (w.ownedGames t))) a =
        cacheFind st.gameInfoCache a :=
      fun a => cacheFind_update_replay st.gameInfoCache st.gameInfoCache _ hclean
        (fun _ => rfl) hnodup a
    have hanodup := keys_updateSteamGameInfoCache_nodup st.gameInfoCache
      (replayRecords st.gameInfoCache (w.ownedGames t)) hnodup hrnodup
    have h2 : ∀ a, cacheFind (updateSteamGameInfoCache (updateSteamGameInfoCache
        st.gameInfoCache (replayRecords st.gameInfoCache (w.ownedGames t)))
        (replayRecords st.gameInfoCache (w.ownedGames t))) a =
        cacheFind (updateSteamGameInfoCache st.gameInfoCache
          (replayRecords st.gameInfoCache (w.ownedGames t))) a :=
      fun a => cacheFind_update_replay st.gameInfoCache _ _ hclean h1 hanodup a
    have hbnodup := keys_updateSteamGameInfoCache_nodup _
      (replayRecords st.gameInfoCache (w.ownedGames t)) hanodup hrnodup
    have h3 : ∀ a, cacheFind (updateSteamGameInfoCache (updateSteamGameInfoCache
        (updateSteamGameInfoCache st.gameInfoCache
          (replayRecords st.gameInfoCache (w.ownedGames t)))
        (replayRecords st.gameInfoCache (w.ownedGames t)))
        (replayRecords st.gameInfoCache (w.ownedGames t))) a =
        cacheFind (updateSteamGameInfoCache (updateSteamGameInfoCache st.gameInfoCache
          (replayRecords st.gameInfoCache (w.ownedGames t)))
          (replayRecords st.gameInfoCache (w.ownedGames t))) a :=
      fun a => cacheFind_update_replay st.gameInfoCache _ _ hclean
        (fun a => (h2 a).trans (h1 a)) hbnodup a
    rw [h3 a, h2 a, h1 a]
  · intro a
    show a ∈ updateKnownDeletedGamesCache ((w.ownedGames t).foldl
      (identityStep w language st.gameInfoCache)
      { knownDeletedAppIds := st.knownDeleted }).knownDeletedAppIds ↔ _
    rw [updateKnownDeletedGamesCache, mem_jsSortBy, hloop.2.2]
  · show ((updateSteamGameInfoCache (updateSteamGameInfoCache
      (updateSteamGameInfoCache st.gameInfoCache
        ((w.ownedGames t).foldl (identityStep w language st.gameInfoCache)
          { knownDeletedAppIds := st.knownDeleted }).gameInfos)
      (fetchSteamSpyDataForAppIds w true
        ((w.ownedGames t).foldl (identityStep w language st.gameInfoCache)
          { knownDeletedAppIds := st.knownDeleted }).gameInfos).1)
      (processHltbDataForSteamGames w true (fetchSteamSpyDataForAppIds w true
        ((w.ownedGames t).foldl (identityStep w language st.gameInfoCache)
          { knownDeletedAppIds := st.knownDeleted }).gameInfos).1).1).map (·.appId)).Nodup
    rw [hrecs, hspy, hhltb]
    have hrn : ((replayRecords st.gameInfoCache (w.ownedGames t)).map (·.appId)).Nodup :=
      replayRecords_keys_nodup st.gameInfoCache (w.ownedGames t) [] (by simp)
    exact keys_updateSteamGameInfoCache_nodup _ _
      (keys_updateSteamGameInfoCache_nodup _ _
        (keys_updateSteamGameInfoCache_nodup _ _ hnodup hrn) hrn) hrn
  · intro c hc
    exact updateSteamGameInfoCache_clean _ _ c hc

/-! ### The enrichment layers as per-record maps -/

lemma cacheFind_append_of_some (l l' : List ProcessedSteamGameInfo) (a : ℕ)
    (r : ProcessedSteamGameInfo) (h : cacheFind l a = some r) :
    cacheFind (l ++ l') a = some r := by
  induction l with
  | nil => cases h
  | cons x rest ih =>
    by_cases hx : x.appId = a
    · rw [cacheFind, List.find?_cons_of_pos _ (by simp [hx])] at h
      rw [List.cons_append, cacheFind, List.find?_cons_of_pos _ (by simp [hx])]
      exact h
    · rw [cacheFind, List.find?_cons_of_neg _ (by simp [hx])] at h
      rw [List.cons_append, cacheFind, List.find?_cons_of_neg _ (by simp [hx])]
      exact ih h

lemma cacheFind_append_singleton_other (l : List ProcessedSteamGameInfo)
    (g : ProcessedSteamGameInfo) (a : ℕ) (hk : g.appId ≠ a) :
    cacheFind (l ++ [g]) a = cacheFind l a := by
  rw [cacheFind_append_singleton]
  cases hl : cacheFind l a
  · show (if g.appId = a then some g else none) = none
    rw [if_neg hk]
  · rfl

lemma cacheFind_append_singleton_self (l : List ProcessedSteamGameInfo)
    (g : ProcessedSteamGameInfo) (a : ℕ) (hl : cacheFind l a = none) (hk : g.appId = a) :
    cacheFind (l ++ [g]) a = some g := by
  rw [cacheFind_append_singleton, hl]
  show (if g.appId = a then some g else none) = some g
  rw [if_pos hk]

lemma cacheFind_map_keypres (f : ProcessedSteamGameInfo → ProcessedSteamGameInfo)
    (hf : ∀ g, (f g).appId = g.appId) (l : List ProcessedSteamGameInfo) (a : ℕ) :
    cacheFind (l.map f) a = (cacheFind l a).map f := by
  induction l with
  | nil => rfl
  | cons x rest ih =>
    by_cases hx : x.appId = a
    · rw [List.map_cons, cacheFind, List.find?_cons_of_pos _ (by simp [hf, hx]),
        cacheFind, List.find?_cons_of_pos _ (by simp [hx])]
      rfl
    · rw [List.map_cons, cacheFind, List.find?_cons_of_neg _ (by simp [hf, hx]),
        cacheFind, List.find?_cons_of_neg _ (by simp [hx])]
      exact ih

lemma stripBasicData_restore (g : ProcessedSteamGameInfo) (b : BasicSteamGameInfo)
    (h : g.basicData = some b) : { stripBasicData g with basicData := some b } = g := by
  cases g
  unfold stripBasicData
  subst h
  rfl

/-- The per-record effect of the estimate loop when no request throws:
skip on a truthy layer timestamp, otherwise apply the first hit or stamp
the timestamp on an empty result. -/
def hltbFn (w : SteamWorld) (useCache : Bool) (gameInfo : ProcessedSteamGameInfo) :
    ProcessedSteamGameInfo :=
  if jsTruthyNat gameInfo.last_hltb_update_timestamp && useCache then gameInfo
  else
    match w.hltb (hltbSearchQuery gameInfo.name) with
    | .fetchFailed => gameInfo
    | .noData => { gameInfo with last_hltb_update_timestamp := some w.time }
    | .ok data => applyHltbData w gameInfo data

/-- The two enrichment layers composed, as each identity record is
rewritten by a run in which no statistics or estimate request throws. -/
def layerFn (w : SteamWorld) (useCache : Bool) (gameInfo : ProcessedSteamGameInfo) :
    ProcessedSteamGameInfo :=
  hltbFn w useCache (spyStep w useCache gameInfo).1

lemma processHltbLoop_map (w : SteamWorld) (u : Bool)
    (hh : ∀ q, w.hltb q ≠ .fetchFailed) :
    ∀ (l : List ProcessedSteamGameInfo) (n : ℕ),
      (processHltbLoop w u l n).1 = l.map (hltbFn w u) := by
  intro l
  induction l with
  | nil => intro n; rfl
  | cons g rest ih =>
    intro n
    unfold processHltbLoop
    by_cases hskip : (jsTruthyNat g.last_hltb_update_timestamp && u) = true
    · rw [if_pos hskip, List.map_cons]
      show g :: (processHltbLoop w u rest n).1 = _
      rw [ih n]
      congr 1
      unfold hltbFn
      rw [if_pos hskip]
    · rw [if_neg hskip]
      cases hq : w.hltb (hltbSearchQuery g.name) with
      | fetchFailed => exact absurd hq (hh _)
      | noData =>
        rw [List.map_cons]
        show ({ g with last_hltb_update_timestamp := some w.time } : ProcessedSteamGameInfo) ::
          (processHltbLoop w u rest 0).1 = _
        rw [ih 0]
        congr 1
        unfold hltbFn
        rw [if_neg hskip, hq]
      | ok d =>
        rw [List.map_cons]
        show applyHltbData w g d :: (processHltbLoop w u rest 0).1 = _
        rw [ih 0]
        congr 1
        unfold hltbFn
        rw [if_neg hskip, hq]

lemma hltbFn_appId (w : SteamWorld) (u : Bool) (g : ProcessedSteamGameInfo) :
    (hltbFn w u g).appId = g.appId := by
  unfold hltbFn
  split
  · rfl
  · split <;> rfl

lemma hltbFn_basicData (w : SteamWorld) (u : Bool) (g : ProcessedSteamGameInfo) :
    (hltbFn w u g).basicData = g.basicData := by
  unfold hltbFn
  split
  · rfl
  · split <;> rfl

lemma hltbFn_spy_ts (w : SteamWorld) (u : Bool) (g : ProcessedSteamGameInfo) :
    (hltbFn w u g).spy_update_timestamp = g.spy_update_timestamp := by
  unfold hltbFn
  split
  · rfl
  · split <;> rfl

lemma hltbFn_hltb_ts (w : SteamWorld) (g : ProcessedSteamGameInfo)
    (hh : ∀ q, w.hltb q ≠ .fetchFailed) (ht : w.time ≠ 0) :
    jsTruthyNat (hltbFn w true g).last_hltb_update_timestamp = true := by
  unfold hltbFn
  by_cases hskip : (jsTruthyNat g.last_hltb_update_timestamp && true) = true
  · rw [if_pos hskip]
    simpa using hskip
  · rw [if_neg hskip]
    cases hq : w.hltb (hltbSearchQuery g.name) with
    | fetchFailed => exact absurd hq (hh _)
    | noData => simp [jsTruthyNat, ht]
    | ok d => simp [applyHltbData, jsTruthyNat, ht]

lemma layerFn_appId (w : SteamWorld) (u : Bool) (g : ProcessedSteamGameInfo) :
    (layerFn w u g).appId = g.appId := by
  rw [layerFn, hltbFn_appId, spyStep_appId]

lemma layerFn_basicData (w : SteamWorld) (u : Bool) (g : ProcessedSteamGameInfo) :
    (layerFn w u g).basicData = g.basicData := by
  rw [layerFn, hltbFn_basicData, spyStep_fst_basicData]

lemma layerFn_spy_ts (w : SteamWorld) (g : ProcessedSteamGameInfo)
    (hs : w.spy g.appId ≠ .fetchFailed) (ht : w.time ≠ 0) :
    jsTruthyNat (layerFn w true g).spy_update_timestamp = true := by
  rw [layerFn, hltbFn_spy_ts]
  exact spyStep_fst_spy_ts w g hs ht

lemma layerFn_hltb_ts (w : SteamWorld) (g : ProcessedSteamGameInfo)
    (hh : ∀ q, w.hltb q ≠ .fetchFailed) (ht : w.time ≠ 0) :
    jsTruthyNat (layerFn w true g).last_hltb_update_timestamp = true :=
  hltbFn_hltb_ts w _ hh ht

lemma layerFn_skip (w : SteamWorld) (g : ProcessedSteamGameInfo)
    (h1 : jsTruthyNat g.spy_update_timestamp = true)
    (h2 : jsTruthyNat g.last_hltb_update_timestamp = true) :
    layerFn w true g = g := by
  rw [layerFn, spyStep_skip w g h1]
  unfold hltbFn
  rw [if_pos (by simp [h2])]

/-- The whole per-account result set, when caching is on, no statistics or
estimate request throws and the auth capture succeeds: each identity
record passed through both layers. -/
lemma processSteamGamesForSingleUser_gameInfos (w : SteamWorld) (language : String)
    (st : CacheState) (t : String) (hh : ∀ q, w.hltb q ≠ .fetchFailed)
    (ha : w.authOk = true) :
    (processSteamGamesForSingleUser w true language st t).gameInfos =
      (identityPass w language st.gameInfoCache st.knownDeleted
        (w.ownedGames t)).gameInfos.map (layerFn w true) := by
  show (processHltbDataForSteamGames w true (fetchSteamSpyDataForAppIds w true
      (identityPass w language st.gameInfoCache st.knownDeleted
        (w.ownedGames t)).gameInfos).1).1 = _
  rw [fetchSteamSpyDataForAppIds_eq]
  show (processHltbDataForSteamGames w true
      ((identityPass w language st.gameInfoCache st.knownDeleted
        (w.ownedGames t)).gameInfos.map (fun g => (spyStep w true g).1))).1 = _
  unfold processHltbDataForSteamGames
  rw [if_pos ha]
  show (processHltbLoop w true
      ((identityPass w language st.gameInfoCache st.knownDeleted
        (w.ownedGames t)).gameInfos.map (fun g => (spyStep w true g).1)) 0).1 = _
  rw [processHltbLoop_map w true hh _ 0, List.map_map]
  rfl

/-! ### Structure of the identity-loop result set -/

lemma identity_gameInfos_append (w : SteamWorld) (language : String)
    (cache : List ProcessedSteamGameInfo) :
    ∀ (basics : List BasicSteamGameInfo) (st : IdentityPassState),
      ∃ suf, (basics.foldl (identityStep w language cache) st).gameInfos =
        st.gameInfos ++ suf := by
  intro basics
  induction basics with
  | nil => intro st; exact ⟨[], by simp⟩
  | cons b rest ih =>
    intro st
    rw [List.foldl_cons]
    obtain ⟨suf, hsuf⟩ := ih (identityStep w language cache st b)
    have hstep : ∃ x, (identityStep w language cache st b).gameInfos =
        st.gameInfos ++ x := by
      unfold identityStep
      by_cases hdup : (cacheFind st.gameInfos b.appId).isSome = true
      · rw [if_pos hdup]
        exact ⟨[], by simp⟩
      · rw [if_neg hdup]
        cases hfind : cacheFind cache b.appId with
        | some c => exact ⟨[{ c with basicData := some b }], rfl⟩
        | none =>
          by_cases hden : b.appId ∈ st.knownDeletedAppIds
          · rw [if_pos hden]
            exact ⟨[], by simp⟩
          · rw [if_neg hden]
            cases hs : w.store b.appId with
            | fetchFailed => exact ⟨[], by simp⟩
            | missingEntry => exact ⟨[], by simp⟩
            | successFalse => exact ⟨[], by simp⟩
            | successUndefined => exact ⟨[], by simp⟩
            | ok d => exact ⟨[mapSteamAppToProcessedGameInfo b d
                (createSteamGameLookupUrl b.appId language)], rfl⟩
    obtain ⟨x, hx⟩ := hstep
    exact ⟨x ++ suf, by rw [hsuf, hx, List.append_assoc]⟩

lemma identity_cacheFind_stable (w : SteamWorld) (language : String)
    (cache : List ProcessedSteamGameInfo) (basics : List BasicSteamGameInfo)
    (st : IdentityPassState) (a : ℕ) (r : ProcessedSteamGameInfo)
    (h : cacheFind st.gameInfos a = some r) :
    cacheFind (basics.foldl (identityStep w language cache) st).gameInfos a = some r := by
  obtain ⟨suf, hsuf⟩ := identity_gameInfos_append w language cache basics st
  rw [hsuf]
  exact cacheFind_append_of_some _ _ _ _ h

lemma identity_gameInfos_keys_nodup (w : SteamWorld) (language : String)
    (cache : List ProcessedSteamGameInfo) :
    ∀ (basics : List BasicSteamGameInfo) (st : IdentityPassState),
      ((st.gameInfos).map (·.appId)).Nodup →
      (((basics.foldl (identityStep w language cache) st).gameInfos).map (·.appId)).Nodup := by
  intro basics
  induction basics with
  | nil => intro st h; exact h
  | cons b rest ih =>
    intro st h
    rw [List.foldl_cons]
    refine ih _ ?_
    unfold identityStep
    by_cases hdup : (cacheFind st.gameInfos b.appId).isSome = true
    · rw [if_pos hdup]
      exact h
    · have hnone : cacheFind st.gameInfos b.appId = none := by
        cases hc : cacheFind st.gameInfos b.appId
        · rfl
        · rw [hc] at hdup
          exact absurd rfl hdup
      have hnot : b.appId ∉ st.gameInfos.map (·.appId) :=
        (cacheFind_eq_none_iff st.gameInfos b.appId).mp hnone
      rw [if_neg hdup]
      cases hfind : cacheFind cache b.appId with
      | some c =>
        have hkey : c.appId = b.appId := (cacheFind_eq_some cache _ c hfind).2
        show ((st.gameInfos ++
          ([{ c with basicData := some b }] : List ProcessedSteamGameInfo)).map
            (·.appId)).Nodup
        rw [List.map_append]
        refine List.Nodup.append h (by simp) ?_
        intro x hx hx2
        have hxb : x = b.appId := by simpa [hkey] using hx2
        rw [hxb] at hx
        exact hnot hx
      | none =>
        by_cases hden : b.appId ∈ st.knownDeletedAppIds
        · rw [if_pos hden]
          exact h
        · rw [if_neg hden]
          cases hs : w.store b.appId with
          | fetchFailed => exact h
          | missingEntry => exact h
          | successFalse => exact h
          | successUndefined => exact h
          | ok d =>
            show ((st.gameInfos ++ [mapSteamAppToProcessedGameInfo b d
              (createSteamGameLookupUrl b.appId language)]).map (·.appId)).Nodup
            rw [List.map_append]
            refine List.Nodup.append h (by simp) ?_
            intro x hx hx2
            have hxb : x = b.appId := by
              simpa [mapSteamAppToProcessedGameInfo] using hx2
            rw [hxb] at hx
            exact hnot hx

lemma identity_gameInfos_provenance (w : SteamWorld) (language : String)
    (cache : List ProcessedSteamGameInfo) :
    ∀ (basics : List BasicSteamGameInfo) (st : IdentityPassState),
      ∀ g ∈ (basics.foldl (identityStep w language cache) st).gameInfos,
        g ∈ st.gameInfos ∨
          ∃ b ∈ basics,
            (∃ c, cacheFind cache b.appId = some c ∧ g = { c with basicData := some b }) ∨
            (cacheFind cache b.appId = none ∧ ∃ d, w.store b.appId = .ok d ∧
              g = mapSteamAppToProcessedGameInfo b d
                (createSteamGameLookupUrl b.appId language)) := by
  intro basics
  induction basics with
  | nil => intro st g hg; exact Or.inl hg
  | cons b rest ih =>
    intro st g hg
    rw [List.foldl_cons] at hg
    rcases ih (identityStep w language cache st b) g hg with hacc | ⟨b', hb', hform⟩
    · revert hacc
      unfold identityStep
      by_cases hdup : (cacheFind st.gameInfos b.appId).isSome = true
      · rw [if_pos hdup]
        exact fun hacc => Or.inl hacc
      · rw [if_neg hdup]
        cases hfind : cacheFind cache b.appId with
        | some c =>
          intro hacc
          have hacc' : g ∈ st.gameInfos ++ [{ c with basicData := some b }] := hacc
          rcases List.mem_append.mp hacc' with h | h
          · exact Or.inl h
          · refine Or.inr ⟨b, List.mem_cons_self _ _, Or.inl ⟨c, hfind, ?_⟩⟩
            rw [List.mem_singleton.mp h]
        | none =>
          by_cases hden : b.appId ∈ st.knownDeletedAppIds
          · rw [if_pos hden]
            exact fun hacc => Or.inl hacc
          · rw [if_neg hden]
            cases hs : w.store b.appId with
            | fetchFailed => exact fun hacc => Or.inl hacc
            | missingEntry => exact fun hacc => Or.inl hacc
            | successFalse => exact fun hacc => Or.inl hacc
            | successUndefined => exact fun hacc => Or.inl hacc
            | ok d =>
              intro hacc
              have hacc' : g ∈ st.gameInfos ++ [mapSteamAppToProcessedGameInfo b d
                (createSteamGameLookupUrl b.appId language)] := hacc
              rcases List.mem_append.mp hacc' with h | h
              · exact Or.inl h
              · refine Or.inr ⟨b, List.mem_cons_self _ _, Or.inr ⟨hfind, d, hs, ?_⟩⟩
                rw [List.mem_singleton.mp h]
    · exact Or.inr ⟨b', List.mem_cons_of_mem _ hb', hform⟩

lemma identity_coverage (w : SteamWorld) (language : String)
    (cache : List ProcessedSteamGameInfo) :
    ∀ (basics : List BasicSteamGameInfo) (st : IdentityPassState),
      (∀ b ∈ basics, (∃ d, w.store b.appId = .ok d) ∨ w.store b.appId = .successFalse) →
      ∀ b ∈ basics,
        (∃ r, cacheFind (basics.foldl (identityStep w language cache) st).gameInfos
          b.appId = some r) ∨
        (b.appId ∈ (basics.foldl (identityStep w language cache) st).knownDeletedAppIds ∧
          cacheFind (basics.foldl (identityStep w language cache) st).gameInfos
            b.appId = none ∧
          cacheFind cache b.appId = none) := by
  intro basics
  induction basics with
  | nil => intro st _ b hb; cases hb
  | cons b0 rest ih =>
    intro st hst b hb
    rw [List.foldl_cons]
    rcases List.mem_cons.mp hb with rfl | hbrest
    · by_cases hdup : (cacheFind st.gameInfos b.appId).isSome = true
      · obtain ⟨r0, hr0⟩ := Option.isSome_iff_exists.mp hdup
        have hstep : identityStep w language cache st b = st := by
          unfold identityStep
          rw [if_pos hdup]
        rw [hstep]
        exact Or.inl ⟨r0, identity_cacheFind_stable w language cache rest st _ r0 hr0⟩
      · have hnone : cacheFind st.gameInfos b.appId = none := by
          cases hc : cacheFind st.gameInfos b.appId
          · rfl
          · rw [hc] at hdup
            exact absurd rfl hdup
        cases hfind : cacheFind cache b.appId with
        | some c =>
          have hkey : c.appId = b.appId := (cacheFind_eq_some cache _ c hfind).2
          have hstep : identityStep w language cache st b =
              { st with gameInfos :=
                  st.gameInfos ++ [{ c with basicData := some b }] } := by
            unfold identityStep
            rw [if_neg hdup, hfind]
          rw [hstep]
          refine Or.inl ⟨{ c with basicData := some b },
            identity_cacheFind_stable w language cache rest _ _ _ ?_⟩
          show cacheFind (st.gameInfos ++ [{ c with basicData := some b }]) b.appId = _
          exact cacheFind_append_singleton_self _ _ _ hnone hkey
        | none =>
          by_cases hden : b.appId ∈ st.knownDeletedAppIds
          · have hstep : identityStep w language cache st b =
                { st with failedGameInfos := st.failedGameInfos ++ [b.appId] } := by
              unfold identityStep
              rw [if_neg hdup, hfind, if_pos hden]
            rw [hstep]
            refine Or.inr ⟨identityPass_foldl_deny_mono w language cache b.appId rest
              { st with failedGameInfos := st.failedGameInfos ++ [b.appId] } hden,
              ?_, rfl⟩
            exact (identityPass_foldl_denied w language cache b.appId hfind rest
              { st with failedGameInfos := st.failedGameInfos ++ [b.appId] }
              hden hnone).1
          · rcases hst b (List.mem_cons_self _ _) with ⟨d, hd⟩ | hsf
            · have hstep : identityStep w language cache st b =
                  { st with
                    identityCalls := st.identityCalls ++ [b.appId]
                    gameInfos := st.gameInfos ++
                      [mapSteamAppToProcessedGameInfo b d
                        (createSteamGameLookupUrl b.appId language)] } := by
                unfold identityStep
                rw [if_neg hdup, hfind, if_neg hden, hd]
              rw [hstep]
              refine Or.inl ⟨mapSteamAppToProcessedGameInfo b d
                (createSteamGameLookupUrl b.appId language),
                identity_cacheFind_stable w language cache rest _ _ _ ?_⟩
              show cacheFind (st.gameInfos ++ [mapSteamAppToProcessedGameInfo b d
                (createSteamGameLookupUrl b.appId language)]) b.appId = _
              exact cacheFind_append_singleton_self _ _ _ hnone rfl
            · have hstep : identityStep w language cache st b =
                  { st with
                    identityCalls := st.identityCalls ++ [b.appId]
                    failedGameInfos := st.failedGameInfos ++ [b.appId]
                    knownDeletedAppIds := st.knownDeletedAppIds ++ [b.appId] } := by
                unfold identityStep
                rw [if_neg hdup, hfind, if_neg hden, hsf]
              rw [hstep]
              have hden2 : b.appId ∈ (st.knownDeletedAppIds ++ [b.appId]) := by simp
              refine Or.inr ⟨identityPass_foldl_deny_mono w language cache b.appId rest
                { st with
                  identityCalls := st.identityCalls ++ [b.appId]
                  failedGameInfos := st.failedGameInfos ++ [b.appId]
                  knownDeletedAppIds := st.knownDeletedAppIds ++ [b.appId] } hden2,
                ?_, rfl⟩
              exact (identityPass_foldl_denied w language cache b.appId hfind rest
                { st with
                  identityCalls := st.identityCalls ++ [b.appId]
                  failedGameInfos := st.failedGameInfos ++ [b.appId]
                  knownDeletedAppIds := st.knownDeletedAppIds ++ [b.appId] }
                hden2 hnone).1
    · exact ih (identityStep w language cache st b0)
        (fun b' hb' => hst b' (List.mem_cons_of_mem _ hb')) b hbrest

/-! ### What one per-account run leaves in the cache files -/

lemma keys_map_keypres (f : ProcessedSteamGameInfo → ProcessedSteamGameInfo)
    (hf : ∀ g, (f g).appId = g.appId) (l : List ProcessedSteamGameInfo) :
    (l.map f).map (·.appId) = l.map (·.appId) := by
  rw [List.map_map]
  exact List.map_congr_left (fun g _ => hf g)

lemma processHltbLoop_keys (w : SteamWorld) (u : Bool) :
    ∀ (l : List ProcessedSteamGameInfo) (n : ℕ),
      (processHltbLoop w u l n).1.map (·.appId) = l.map (·.appId) := by
  intro l
  induction l with
  | nil => intro n; rfl
  | cons g rest ih =>
    intro n
    unfold processHltbLoop
    by_cases hskip : (jsTruthyNat g.last_hltb_update_timestamp && u) = true
    · rw [if_pos hskip]
      show (g :: (processHltbLoop w u rest n).1).map (·.appId) = _
      rw [List.map_cons, List.map_cons, ih n]
    · rw [if_neg hskip]
      cases hq : w.hltb (hltbSearchQuery g.name) with
      | ok d =>
        show (applyHltbData w g d :: (processHltbLoop w u rest 0).1).map (·.appId) = _
        rw [List.map_cons, List.map_cons, ih 0]
        rfl
      | noData =>
        show (({ g with last_hltb_update_timestamp := some w.time } :
            ProcessedSteamGameInfo) :: (processHltbLoop w u rest 0).1).map (·.appId) = _
        rw [List.map_cons, List.map_cons, ih 0]
      | fetchFailed =>
        by_cases hceil : MAX_HLTB_FAILED_ATTEMPTS ≤ n + 1
        · rw [if_pos hceil]
        · rw [if_neg hceil]
          by_cases hauth : w.authOk = true
          · rw [if_pos hauth]
            show (g :: (processHltbLoop w u rest (n + 1)).1).map (·.appId) = _
            rw [List.map_cons, List.map_cons, ih (n + 1)]
          · rw [if_neg hauth]

lemma processSteamGamesForSingleUser_cacheFind (w : SteamWorld) (language : String)
    (st : CacheState) (t : String)
    (hh : ∀ q, w.hltb q ≠ .fetchFailed) (ha : w.authOk = true)
    (hnodup : (st.gameInfoCache.map (·.appId)).Nodup)
    (hclean : ∀ c ∈ st.gameInfoCache, c.basicData = none) (a : ℕ) :
    cacheFind
      (processSteamGamesForSingleUser w true language st t).state.gameInfoCache a =
      match cacheFind (identityPass w language st.gameInfoCache st.knownDeleted
          (w.ownedGames t)).gameInfos a with
      | some r => some (stripBasicData (layerFn w true r))
      | none => cacheFind st.gameInfoCache a := by
  have hnI : (((identityPass w language st.gameInfoCache st.knownDeleted
      (w.ownedGames t)).gameInfos).map (·.appId)).Nodup :=
    identity_gameInfos_keys_nodup w language st.gameInfoCache (w.ownedGames t)
      { knownDeletedAppIds := st.knownDeleted } (by simp)
  have hS : (fetchSteamSpyDataForAppIds w true
      (identityPass w language st.gameInfoCache st.knownDeleted
        (w.ownedGames t)).gameInfos).1 =
      (identityPass w language st.gameInfoCache st.knownDeleted
        (w.ownedGames t)).gameInfos.map (fun g => (spyStep w true g).1) := by
    rw [fetchSteamSpyDataForAppIds_eq]
  have hH : (processHltbDataForSteamGames w true (fetchSteamSpyDataForAppIds w true
      (identityPass w language st.gameInfoCache st.knownDeleted
        (w.ownedGames t)).gameInfos).1).1 =
      (identityPass w language st.gameInfoCache st.knownDeleted
        (w.ownedGames t)).gameInfos.map (layerFn w true) :=
    processSteamGamesForSingleUser_gameInfos w language st t hh ha
  show cacheFind (updateSteamGameInfoCache (updateSteamGameInfoCache
    (updateSteamGameInfoCache st.gameInfoCache
      (identityPass w language st.gameInfoCache st.knownDeleted
        (w.ownedGames t)).gameInfos)
    (fetchSteamSpyDataForAppIds w true
      (identityPass w language st.gameInfoCache st.knownDeleted
        (w.ownedGames t)).gameInfos).1)
    (processHltbDataForSteamGames w true (fetchSteamSpyDataForAppIds w true
      (identityPass w language st.gameInfoCache st.knownDeleted
        (w.ownedGames t)).gameInfos).1).1) a = _
  rw [hH, hS]
  have hnS : ((((identityPass w language st.gameInfoCache st.knownDeleted
      (w.ownedGames t)).gameInfos).map (fun g => (spyStep w true g).1)).map
        (·.appId)).Nodup := by
    rw [keys_map_keypres _ (spyStep_appId w true)]
    exact hnI
  have hnH : ((((identityPass w language st.gameInfoCache st.knownDeleted
      (w.ownedGames t)).gameInfos).map (layerFn w true)).map (·.appId)).Nodup := by
    rw [keys_map_keypres _ (layerFn_appId w true)]
    exact hnI
  have hnA := keys_updateSteamGameInfoCache_nodup st.gameInfoCache
    (identityPass w language st.gameInfoCache st.knownDeleted
      (w.ownedGames t)).gameInfos hnodup hnI
  have hnB := keys_updateSteamGameInfoCache_nodup _ _ hnA hnS
  rw [cacheFind_updateSteamGameInfoCache _ _ a hnB hnH]
  rw [cacheFind_map_keypres (layerFn w true) (layerFn_appId w true) _ a]
  rw [cacheFind_updateSteamGameInfoCache _ _ a hnA hnS]
  rw [cacheFind_map_keypres (fun g => (spyStep w true g).1) (spyStep_appId w true) _ a]
  rw [cacheFind_updateSteamGameInfoCache _ _ a hnodup hnI]
  cases h : cacheFind (identityPass w language st.gameInfoCache st.knownDeleted
      (w.ownedGames t)).gameInfos a with
  | some r => simp
  | none =>
    cases hc : cacheFind st.gameInfoCache a with
    | none => simp
    | some c =>
      have hcc := stripBasicData_eq_self c
        (hclean c (cacheFind_eq_some st.gameInfoCache a c hc).1)
      simp [hcc]

lemma processSteamGamesForSingleUser_deny (w : SteamWorld) (language : String)
    (st : CacheState) (t : String) (a : ℕ) :
    a ∈ (processSteamGamesForSingleUser w true language st t).state.knownDeleted ↔
      a ∈ (identityPass w language st.gameInfoCache st.knownDeleted
        (w.ownedGames t)).knownDeletedAppIds := by
  show a ∈ updateKnownDeletedGamesCache (identityPass w language st.gameInfoCache
    st.knownDeleted (w.ownedGames t)).knownDeletedAppIds ↔ _
  rw [updateKnownDeletedGamesCache, mem_jsSortBy]

lemma processSteamGamesForSingleUser_state_nodup (w : SteamWorld) (language : String)
    (st : CacheState) (t : String)
    (hnodup : (st.gameInfoCache.map (·.appId)).Nodup) :
    (((processSteamGamesForSingleUser w true language st t).state.gameInfoCache).map
      (·.appId)).Nodup := by
  have hnI : (((identityPass w language st.gameInfoCache st.knownDeleted
      (w.ownedGames t)).gameInfos).map (·.appId)).Nodup :=
    identity_gameInfos_keys_nodup w language st.gameInfoCache (w.ownedGames t)
      { knownDeletedAppIds := st.knownDeleted } (by simp)
  show (((updateSteamGameInfoCache (updateSteamGameInfoCache
    (updateSteamGameInfoCache st.gameInfoCache
      (identityPass w language st.gameInfoCache st.knownDeleted
        (w.ownedGames t)).gameInfos)
    (fetchSteamSpyDataForAppIds w true
      (identityPass w language st.gameInfoCache st.knownDeleted
        (w.ownedGames t)).gameInfos).1)
    (processHltbDataForSteamGames w true (fetchSteamSpyDataForAppIds w true
      (identityPass w language st.gameInfoCache st.knownDeleted
        (w.ownedGames t)).gameInfos).1).1)).map (·.appId)).Nodup
  refine keys_updateSteamGameInfoCache_nodup _ _
    (keys_updateSteamGameInfoCache_nodup _ _
      (keys_updateSteamGameInfoCache_nodup _ _ hnodup hnI) ?_) ?_
  · rw [fetchSteamSpyDataForAppIds_keys]
    exact hnI
  · have hsub : (processHltbDataForSteamGames w true (fetchSteamSpyDataForAppIds w true
        (identityPass w language st.gameInfoCache st.knownDeleted
          (w.ownedGames t)).gameInfos).1).1.map (·.appId) =
        (fetchSteamSpyDataForAppIds w true
          (identityPass w language st.gameInfoCache st.knownDeleted
            (w.ownedGames t)).gameInfos).1.map (·.appId) := by
      unfold processHltbDataForSteamGames
      by_cases hauth : w.authOk = true
      · rw [if_pos hauth]
        show ((processHltbLoop w true (fetchSteamSpyDataForAppIds w true
          (identityPass w language st.gameInfoCache st.knownDeleted
            (w.ownedGames t)).gameInfos).1 0).1.map (·.appId)) = _
        rw [processHltbLoop_keys]
      · rw [if_neg hauth]
    rw [hsub, fetchSteamSpyDataForAppIds_keys]
    exact hnI

lemma processSteamGamesForSingleUser_state_clean (w : SteamWorld) (language : String)
    (st : CacheState) (t : String) :
    ∀ c ∈ (processSteamGamesForSingleUser w true language st t).state.gameInfoCache,
      c.basicData = none := by
  intro c hc
  exact updateSteamGameInfoCache_clean _ _ c hc

/-! ### Settledness across runs -/

/-- Both invariants of the enrichment cache file: unique keys and no
transient per-run layer. Every written cache satisfies them, and the
initial empty cache does trivially. -/
def cacheInv (st : CacheState) : Prop :=
  ((st.gameInfoCache.map (·.appId)).Nodup) ∧
  ∀ c ∈ st.gameInfoCache, c.basicData = none

/-- An id settled with a specific cached record: the record is found and
both layer timestamps are truthy. -/
def settledVal (st : CacheState) (a : ℕ) (c : ProcessedSteamGameInfo) : Prop :=
  cacheFind st.gameInfoCache a = some c ∧
  jsTruthyNat c.spy_update_timestamp = true ∧
  jsTruthyNat c.last_hltb_update_timestamp = true

/-- An id settled by denylisting: absent from the cache and on the
denylist. -/
def settledNone (st : CacheState) (a : ℕ) : Prop :=
  cacheFind st.gameInfoCache a = none ∧ a ∈ st.knownDeleted

/-- External-source behaviour under which a run completes all its
enrichment work: every owned id's store lookup either succeeds or is
affirmatively deleted, no statistics or estimate request throws, the
auth capture succeeds, and the clock is nonzero (a zero epoch would be
falsy and re-trigger the layers). -/
def goodWorld (w : SteamWorld) (targetIds : List String) : Prop :=
  (∀ t ∈ targetIds, ∀ b ∈ w.ownedGames t,
    (∃ d, w.store b.appId = .ok d) ∨ w.store b.appId = .successFalse) ∧
  (∀ a, w.spy a ≠ .fetchFailed) ∧
  (∀ q, w.hltb q ≠ .fetchFailed) ∧
  w.authOk = true ∧
  w.time ≠ 0

lemma singleUserRun_record_cached (w : SteamWorld) (language : String)
    (st : CacheState) (t : String)
    (hsp : ∀ a, w.spy a ≠ .fetchFailed) (hh : ∀ q, w.hltb q ≠ .fetchFailed)
    (ha : w.authOk = true) (htime : w.time ≠ 0) (hinv : cacheInv st)
    (a : ℕ) (r : ProcessedSteamGameInfo)
    (hr : cacheFind (identityPass w language st.gameInfoCache st.knownDeleted
      (w.ownedGames t)).gameInfos a = some r) :
    settledVal (processSteamGamesForSingleUser w true language st t).state a
      (stripBasicData (layerFn w true r)) := by
  refine ⟨?_, ?_, ?_⟩
  · rw [processSteamGamesForSingleUser_cacheFind w language st t hh ha hinv.1 hinv.2 a,
      hr]
  · show jsTruthyNat (layerFn w true r).spy_update_timestamp = true
    exact layerFn_spy_ts w r (hsp _) htime
  · show jsTruthyNat (layerFn w true r).last_hltb_update_timestamp = true
    exact layerFn_hltb_ts w r hh htime

lemma singleUserRun_settledVal_preserved (w : SteamWorld) (language : String)
    (st : CacheState) (t : String)
    (hh : ∀ q, w.hltb q ≠ .fetchFailed) (ha : w.authOk = true)
    (hinv : cacheInv st) (a : ℕ) (c : ProcessedSteamGameInfo)
    (h : settledVal st a c) :
    settledVal (processSteamGamesForSingleUser w true language st t).state a c := by
  obtain ⟨hc, hts1, hts2⟩ := h
  refine ⟨?_, hts1, hts2⟩
  rw [processSteamGamesForSingleUser_cacheFind w language st t hh ha hinv.1 hinv.2 a]
  cases hI : cacheFind (identityPass w language st.gameInfoCache st.knownDeleted
      (w.ownedGames t)).gameInfos a with
  | none => exact hc
  | some r =>
    show some (stripBasicData (layerFn w true r)) = some c
    obtain ⟨hrmem, hrkey⟩ := cacheFind_eq_some _ a r hI
    rcases identity_gameInfos_provenance w language st.gameInfoCache (w.ownedGames t)
      { knownDeletedAppIds := st.knownDeleted } r hrmem with h0 | ⟨b, _, hform⟩
    · simp at h0
    · rcases hform with ⟨c', hc', rfl⟩ | ⟨hmiss, d, _, rfl⟩
      · have hkey : c'.appId = b.appId := (cacheFind_eq_some _ _ c' hc').2
        have hca : c'.appId = a := hrkey
        have hba : b.appId = a := by rw [← hkey]; exact hca
        rw [hba, hc] at hc'
        have hcc : c' = c := Option.some.inj hc'.symm
        subst hcc
        have h1 : jsTruthyNat ({ c' with basicData := some b } :
            ProcessedSteamGameInfo).spy_update_timestamp = true := hts1
        have h2 : jsTruthyNat ({ c' with basicData := some b } :
            ProcessedSteamGameInfo).last_hltb_update_timestamp = true := hts2
        rw [layerFn_skip w _ h1 h2]
        have hcb : ({ c' with basicData := some b } :
            ProcessedSteamGameInfo).basicData = some b := rfl
        have hclean' : c'.basicData = none :=
          hinv.2 c' (cacheFind_eq_some st.gameInfoCache a c' hc).1
        have hst : stripBasicData { c' with basicData := some b } = c' := by
          rw [← stripBasicData_eq_self c' hclean']
          rfl
        rw [hst]
      · have hba : b.appId = a := hrkey
        rw [hba, hc] at hmiss
        cases hmiss

lemma singleUserRun_settledNone_preserved (w : SteamWorld) (language : String)
    (st : CacheState) (t : String)
    (hh : ∀ q, w.hltb q ≠ .fetchFailed) (ha : w.authOk = true)
    (hinv : cacheInv st) (a : ℕ) (h : settledNone st a) :
    settledNone (processSteamGamesForSingleUser w true language st t).state a := by
  obtain ⟨hc, hd⟩ := h
  constructor
  · rw [processSteamGamesForSingleUser_cacheFind w language st t hh ha hinv.1 hinv.2 a]
    have hIn : cacheFind (identityPass w language st.gameInfoCache st.knownDeleted
        (w.ownedGames t)).gameInfos a = none :=
      (identityPass_foldl_denied w language st.gameInfoCache a hc (w.ownedGames t)
        { knownDeletedAppIds := st.knownDeleted } hd rfl).1
    rw [hIn]
    exact hc
  · rw [processSteamGamesForSingleUser_deny]
    exact identityPass_foldl_deny_mono w language st.gameInfoCache a (w.ownedGames t) _ hd

lemma singleUserRun_skip_settledNone (w : SteamWorld) (language : String)
    (st : CacheState) (t : String)
    (hst : ∀ b ∈ w.ownedGames t,
      (∃ d, w.store b.appId = .ok d) ∨ w.store b.appId = .successFalse)
    (hh : ∀ q, w.hltb q ≠ .fetchFailed) (ha : w.authOk = true) (hinv : cacheInv st) :
    ∀ b ∈ w.ownedGames t,
      cacheFind (identityPass w language st.gameInfoCache st.knownDeleted
        (w.ownedGames t)).gameInfos b.appId = none →
      settledNone (processSteamGamesForSingleUser w true language st t).state b.appId := by
  intro b hb hIn
  rcases identity_coverage w language st.gameInfoCache (w.ownedGames t)
    { knownDeletedAppIds := st.knownDeleted } hst b hb with ⟨r, hr⟩ | ⟨hden, _, hcache⟩
  · have hr' : cacheFind (identityPass w language st.gameInfoCache st.knownDeleted
        (w.ownedGames t)).gameInfos b.appId = some r := hr
    rw [hIn] at hr'
    cases hr'
  · constructor
    · rw [processSteamGamesForSingleUser_cacheFind w language st t hh ha
        hinv.1 hinv.2 b.appId, hIn]
      exact hcache
    · rw [processSteamGamesForSingleUser_deny]
      exact hden

lemma singleUserRun_settles_owned (w : SteamWorld) (language : String)
    (st : CacheState) (t : String)
    (hst : ∀ b ∈ w.ownedGames t,
      (∃ d, w.store b.appId = .ok d) ∨ w.store b.appId = .successFalse)
    (hsp : ∀ a, w.spy a ≠ .fetchFailed) (hh : ∀ q, w.hltb q ≠ .fetchFailed)
    (ha : w.authOk = true) (htime : w.time ≠ 0) (hinv : cacheInv st) :
    ∀ b ∈ w.ownedGames t,
      settledId (processSteamGamesForSingleUser w true language st t).state b.appId := by
  intro b hb
  rcases identity_coverage w language st.gameInfoCache (w.ownedGames t)
    { knownDeletedAppIds := st.knownDeleted } hst b hb with ⟨r, hr⟩ | ⟨hden, hnone, hcache⟩
  · have hr' : cacheFind (identityPass w language st.gameInfoCache st.knownDeleted
        (w.ownedGames t)).gameInfos b.appId = some r := hr
    obtain ⟨h1, h2, h3⟩ :=
      singleUserRun_record_cached w language st t hsp hh ha htime hinv b.appId r hr'
    exact Or.inl ⟨stripBasicData (layerFn w true r), h1, h2, h3⟩
  · have hnone' : cacheFind (identityPass w language st.gameInfoCache st.knownDeleted
        (w.ownedGames t)).gameInfos b.appId = none := hnone
    obtain ⟨h1, h2⟩ := singleUserRun_skip_settledNone w language st t hst hh ha hinv
      b hb hnone'
    exact Or.inr ⟨h1, h2⟩

lemma singleUserRun_cacheInv (w : SteamWorld) (language : String)
    (st : CacheState) (t : String) (hinv : cacheInv st) :
    cacheInv (processSteamGamesForSingleUser w true language st t).state :=
  ⟨processSteamGamesForSingleUser_state_nodup w language st t hinv.1,
   processSteamGamesForSingleUser_state_clean w language st t⟩

/-- Replaying a fully settled owned list against any cache whose lookups
reflect the run's identity outcomes reproduces the run's final records:
per id, the settled cached record is the stripped fully-layered record,
and re-attaching the ownership layer restores it. -/
lemma identity_replay_reconstruction (w : SteamWorld) (language : String)
    (cache Wc : List ProcessedSteamGameInfo) :
    ∀ (basics : List BasicSteamGameInfo) (st : IdentityPassState),
      (∀ b ∈ basics, (∃ d, w.store b.appId = .ok d) ∨ w.store b.appId = .successFalse) →
      (∀ a r, cacheFind (basics.foldl (identityStep w language cache) st).gameInfos a =
        some r → cacheFind Wc a = some (stripBasicData (layerFn w true r))) →
      (∀ b ∈ basics, cacheFind (basics.foldl (identityStep w language cache) st).gameInfos
        b.appId = none → cacheFind Wc b.appId = none) →
      basics.foldl (replayStep Wc) (st.gameInfos.map (layerFn w true)) =
        ((basics.foldl (identityStep w language cache) st).gameInfos).map
          (layerFn w true) := by
  intro basics
  induction basics with
  | nil => intro st _ _ _; rfl
  | cons b rest ih =>
    intro st hst Hrec Hnone
    rw [List.foldl_cons] at Hrec Hnone ⊢
    rw [List.foldl_cons]
    have hstR : ∀ b' ∈ rest,
        (∃ d, w.store b'.appId = .ok d) ∨ w.store b'.appId = .successFalse :=
      fun b' hb' => hst b' (List.mem_cons_of_mem _ hb')
    have HnoneR : ∀ b' ∈ rest,
        cacheFind ((rest.foldl (identityStep w language cache)
          (identityStep w language cache st b)).gameInfos) b'.appId = none →
        cacheFind Wc b'.appId = none :=
      fun b' hb' => Hnone b' (List.mem_cons_of_mem _ hb')
    have hacc : cacheFind (st.gameInfos.map (layerFn w true)) b.appId =
        (cacheFind st.gameInfos b.appId).map (layerFn w true) :=
      cacheFind_map_keypres _ (layerFn_appId w true) _ _
    by_cases hdup : (cacheFind st.gameInfos b.appId).isSome = true
    · obtain ⟨r0, hr0⟩ := Option.isSome_iff_exists.mp hdup
      have hstep : identityStep w language cache st b = st := by
        unfold identityStep
        rw [if_pos hdup]
      have hrep : replayStep Wc (st.gameInfos.map (layerFn w true)) b =
          st.gameInfos.map (layerFn w true) := by
        unfold replayStep
        rw [if_pos (by rw [hacc, hr0]; rfl)]
      rw [hstep] at HnoneR Hrec ⊢
      rw [hrep]
      exact ih st hstR Hrec HnoneR
    · have hnone : cacheFind st.gameInfos b.appId = none := by
        cases hc : cacheFind st.gameInfos b.appId
        · rfl
        · rw [hc] at hdup
          exact absurd rfl hdup
      have haccnone : ¬ (cacheFind (st.gameInfos.map (layerFn w true)) b.appId).isSome
          = true := by
        rw [hacc, hnone]
        simp
      cases hfind : cacheFind cache b.appId with
      | some c =>
        have hkey : ({ c with basicData := some b } :
            ProcessedSteamGameInfo).appId = b.appId :=
          (cacheFind_eq_some cache _ c hfind).2
        have hstep : identityStep w language cache st b =
            { st with gameInfos :=
                st.gameInfos ++ [{ c with basicData := some b }] } := by
          unfold identityStep
          rw [if_neg hdup, hfind]
        have hfin : cacheFind ((rest.foldl (identityStep w language cache)
            (identityStep w language cache st b)).gameInfos) b.appId =
            some { c with basicData := some b } := by
          rw [hstep]
          exact identity_cacheFind_stable w language cache rest _ _ _
            (cacheFind_append_singleton_self _ _ _ hnone hkey)
        have hW := Hrec b.appId _ hfin
        have hrestore : { stripBasicData (layerFn w true { c with basicData := some b })
            with basicData := some b } = layerFn w true { c with basicData := some b } :=
          stripBasicData_restore _ b (by rw [layerFn_basicData])
        have hrep : replayStep Wc (st.gameInfos.map (layerFn w true)) b =
            (st.gameInfos ++ [{ c with basicData := some b }]).map (layerFn w true) := by
          unfold replayStep
          rw [if_neg haccnone, hW]
          show st.gameInfos.map (layerFn w true) ++
            [{ stripBasicData (layerFn w true { c with basicData := some b })
              with basicData := some b }] =
            (st.gameInfos ++ [{ c with basicData := some b }]).map (layerFn w true)
          rw [hrestore, List.map_append]
          rfl
        rw [hrep, hstep]
        rw [hstep] at Hrec HnoneR
        exact ih { st with gameInfos :=
          st.gameInfos ++ [{ c with basicData := some b }] } hstR Hrec HnoneR
      | none =>
        by_cases hden : b.appId ∈ st.knownDeletedAppIds
        · have hstep : identityStep w language cache st b =
              { st with failedGameInfos := st.failedGameInfos ++ [b.appId] } := by
            unfold identityStep
            rw [if_neg hdup, hfind, if_pos hden]
          have hfin : cacheFind ((rest.foldl (identityStep w language cache)
              (identityStep w language cache st b)).gameInfos) b.appId = none := by
            rw [hstep]
            exact (identityPass_foldl_denied w language cache b.appId hfind rest
              { st with failedGameInfos := st.failedGameInfos ++ [b.appId] }
              hden hnone).1
          have hW := Hnone b (List.mem_cons_self _ _) hfin
          have hrep : replayStep Wc (st.gameInfos.map (layerFn w true)) b =
              st.gameInfos.map (layerFn w true) := by
            unfold replayStep
            rw [if_neg haccnone, hW]
          rw [hrep, hstep]
          rw [hstep] at Hrec HnoneR
          exact ih { st with failedGameInfos := st.failedGameInfos ++ [b.appId] }
            hstR Hrec HnoneR
        · rcases hst b (List.mem_cons_self _ _) with ⟨d, hd⟩ | hsf
          · have hstep : identityStep w language cache st b =
                { st with
                  identityCalls := st.identityCalls ++ [b.appId]
                  gameInfos := st.gameInfos ++
                    [mapSteamAppToProcessedGameInfo b d
                      (createSteamGameLookupUrl b.appId language)] } := by
              unfold identityStep
              rw [if_neg hdup, hfind, if_neg hden, hd]
            have hfin : cacheFind ((rest.foldl (identityStep w language cache)
                (identityStep w language cache st b)).gameInfos) b.appId =
                some (mapSteamAppToProcessedGameInfo b d
                  (createSteamGameLookupUrl b.appId language)) := by
              rw [hstep]
              exact identity_cacheFind_stable w language cache rest _ _ _
                (cacheFind_append_singleton_self _ _ _ hnone rfl)
            have hW := Hrec b.appId _ hfin
            have hrestore : { stripBasicData (layerFn w true
                (mapSteamAppToProcessedGameInfo b d
                  (createSteamGameLookupUrl b.appId language)))
                with basicData := some b } = layerFn w true
                  (mapSteamAppToProcessedGameInfo b d
                    (createSteamGameLookupUrl b.appId language)) :=
              stripBasicData_restore _ b (by rw [layerFn_basicData]; rfl)
            have hrep : replayStep Wc (st.gameInfos.map (layerFn w true)) b =
                (st.gameInfos ++ [mapSteamAppToProcessedGameInfo b d
                  (createSteamGameLookupUrl b.appId language)]).map (layerFn w true) := by
              unfold replayStep
              rw [if_neg haccnone, hW]
              show st.gameInfos.map (layerFn w true) ++
                [{ stripBasicData (layerFn w true (mapSteamAppToProcessedGameInfo b d
                  (createSteamGameLookupUrl b.appId language)))
                  with basicData := some b }] =
                (st.gameInfos ++ [mapSteamAppToProcessedGameInfo b d
                  (createSteamGameLookupUrl b.appId language)]).map (layerFn w true)
              rw [hrestore, List.map_append]
              rfl
            rw [hrep, hstep]
            rw [hstep] at Hrec HnoneR
            exact ih { st with
              identityCalls := st.identityCalls ++ [b.appId]
              gameInfos := st.gameInfos ++
                [mapSteamAppToProcessedGameInfo b d
                  (createSteamGameLookupUrl b.appId language)] } hstR Hrec HnoneR
          · have hstep : identityStep w language cache st b =
                { st with
                  identityCalls := st.identityCalls ++ [b.appId]
                  failedGameInfos := st.failedGameInfos ++ [b.appId]
                  knownDeletedAppIds := st.knownDeletedAppIds ++ [b.appId] } := by
              unfold identityStep
              rw [if_neg hdup, hfind, if_neg hden, hsf]
            have hden2 : b.appId ∈ (st.knownDeletedAppIds ++ [b.appId]) := by simp
            have hfin : cacheFind ((rest.foldl (identityStep w language cache)
                (identityStep w language cache st b)).gameInfos) b.appId = none := by
              rw [hstep]
              exact (identityPass_foldl_denied w language cache b.appId hfind rest
                { st with
                  identityCalls := st.identityCalls ++ [b.appId]
                  failedGameInfos := st.failedGameInfos ++ [b.appId]
                  knownDeletedAppIds := st.knownDeletedAppIds ++ [b.appId] }
                hden2 hnone).1
            have hW := Hnone b (List.mem_cons_self _ _) hfin
            have hrep : replayStep Wc (st.gameInfos.map (layerFn w true)) b =
                st.gameInfos.map (layerFn w true) := by
              unfold replayStep
              rw [if_neg haccnone, hW]
            rw [hrep, hstep]
            rw [hstep] at Hrec HnoneR
            exact ih { st with
              identityCalls := st.identityCalls ++ [b.appId]
              failedGameInfos := st.failedGameInfos ++ [b.appId]
              knownDeletedAppIds := st.knownDeletedAppIds ++ [b.appId] }
              hstR Hrec HnoneR

/-- The replay fold only inspects the cache through `cacheFind`, so
lookup-equal caches replay identically. -/
lemma replayRecords_congr (W1 W2 : List ProcessedSteamGameInfo)
    (h : ∀ a, cacheFind W1 a = cacheFind W2 a) :
    ∀ (basics : List BasicSteamGameInfo) (acc : List ProcessedSteamGameInfo),
      basics.foldl (replayStep W1) acc = basics.foldl (replayStep W2) acc := by
  intro basics
  induction basics with
  | nil => intro acc; rfl
  | cons b rest ih =>
    intro acc
    rw [List.foldl_cons, List.foldl_cons]
    have hstep : replayStep W1 acc b = replayStep W2 acc b := by
      unfold replayStep
      rw [h b.appId]
    rw [hstep]
    exact ih _

/-! ### The multi-account fold -/

/-- One account step of the `processSteamGames` fold, named for reuse in
lemmas (definitionally the lambda inside `processSteamGames`). -/
def pipelineStep (w : SteamWorld) (useCache : Bool) (language : String)
    (acc : List ProcessedSteamGameInfo × CacheState × CallLog) (targetId : String) :
    List ProcessedSteamGameInfo × CacheState × CallLog :=
  (acc.1 ++ (processSteamGamesForSingleUser w useCache language acc.2.1 targetId).gameInfos,
   (processSteamGamesForSingleUser w useCache language acc.2.1 targetId).state,
   acc.2.2.append (processSteamGamesForSingleUser w useCache language acc.2.1 targetId).log)

lemma processSteamGames_eq_fold (w : SteamWorld) (useCache : Bool) (language : String)
    (targetIds : List String) (st : CacheState) :
    processSteamGames w useCache language targetIds st =
      { records := processSteamGamesFinalize
          (targetIds.foldl (pipelineStep w useCache language) ([], st, {})).1
        state := (targetIds.foldl (pipelineStep w useCache language) ([], st, {})).2.1
        log := (targetIds.foldl (pipelineStep w useCache language) ([], st, {})).2.2 } :=
  rfl

lemma CallLog.append_empty (a : CallLog) : a.append {} = a := by
  simp [CallLog.append]

lemma CallLog.empty_append (a : CallLog) : CallLog.append {} a = a := by
  simp [CallLog.append]

lemma CallLog.append_assoc (a b c : CallLog) :
    (a.append b).append c = a.append (b.append c) := by
  simp [CallLog.append, List.append_assoc, Nat.add_assoc]

lemma pipeline_foldl_shift (w : SteamWorld) (useCache : Bool) (language : String) :
    ∀ (targetIds : List String) (c₀ : List ProcessedSteamGameInfo) (st : CacheState)
      (log₀ : CallLog),
      targetIds.foldl (pipelineStep w useCache language) (c₀, st, log₀) =
        (c₀ ++ (targetIds.foldl (pipelineStep w useCache language) ([], st, {})).1,
         (targetIds.foldl (pipelineStep w useCache language) ([], st, {})).2.1,
         log₀.append (targetIds.foldl (pipelineStep w useCache language) ([], st, {})).2.2) := by
  intro targetIds
  induction targetIds with
  | nil =>
    intro c₀ st log₀
    show (c₀, st, log₀) = (c₀ ++ [], st, log₀.append {})
    rw [List.append_nil, CallLog.append_empty]
  | cons t rest ih =>
    intro c₀ st log₀
    have hR : (t :: rest).foldl (pipelineStep w useCache language) ([], st, {}) =
        ((processSteamGamesForSingleUser w useCache language st t).gameInfos ++
          (rest.foldl (pipelineStep w useCache language)
            ([], (processSteamGamesForSingleUser w useCache language st t).state, {})).1,
         (rest.foldl (pipelineStep w useCache language)
            ([], (processSteamGamesForSingleUser w useCache language st t).state, {})).2.1,
         (processSteamGamesForSingleUser w useCache language st t).log.append
           (rest.foldl (pipelineStep w useCache language)
            ([], (processSteamGamesForSingleUser w useCache language st t).state, {})).2.2) := by
      rw [List.foldl_cons]
      show rest.foldl (pipelineStep w useCache language)
        ((processSteamGamesForSingleUser w useCache language st t).gameInfos,
         (processSteamGamesForSingleUser w useCache language st t).state,
         CallLog.append {} (processSteamGamesForSingleUser w useCache language st t).log) = _
      rw [CallLog.empty_append, ih]
    rw [List.foldl_cons]
    show rest.foldl (pipelineStep w useCache language)
      (c₀ ++ (processSteamGamesForSingleUser w useCache language st t).gameInfos,
       (processSteamGamesForSingleUser w useCache language st t).state,
       log₀.append (processSteamGamesForSingleUser w useCache language st t).log) = _
    rw [ih, hR]
    show (c₀ ++ (processSteamGamesForSingleUser w useCache language st t).gameInfos ++
        (rest.foldl (pipelineStep w useCache language)
          ([], (processSteamGamesForSingleUser w useCache language st t).state, {})).1,
      (rest.foldl (pipelineStep w useCache language)
          ([], (processSteamGamesForSingleUser w useCache language st t).state, {})).2.1,
      (log₀.append (processSteamGamesForSingleUser w useCache language st t).log).append
        (rest.foldl (pipelineStep w useCache language)
          ([], (processSteamGamesForSingleUser w useCache language st t).state, {})).2.2) = _
    rw [List.append_assoc, CallLog.append_assoc]

/-- Unfolding one account of the canonical pipeline fold. -/
lemma pipeline_foldl_cons (w : SteamWorld) (useCache : Bool) (language : String)
    (t : String) (rest : List String) (st : CacheState) :
    (t :: rest).foldl (pipelineStep w useCache language) ([], st, {}) =
      ((processSteamGamesForSingleUser w useCache language st t).gameInfos ++
        (rest.foldl (pipelineStep w useCache language)
          ([], (processSteamGamesForSingleUser w useCache language st t).state, {})).1,
       (rest.foldl (pipelineStep w useCache language)
          ([], (processSteamGamesForSingleUser w useCache language st t).state, {})).2.1,
       (processSteamGamesForSingleUser w useCache language st t).log.append
         (rest.foldl (pipelineStep w useCache language)
          ([], (processSteamGamesForSingleUser w useCache language st t).state, {})).2.2) := by
  rw [List.foldl_cons]
  show rest.foldl (pipelineStep w useCache language)
    ((processSteamGamesForSingleUser w useCache language st t).gameInfos,
     (processSteamGamesForSingleUser w useCache language st t).state,
     CallLog.append {} (processSteamGamesForSingleUser w useCache language st t).log) = _
  rw [CallLog.empty_append, pipeline_foldl_shift]

/-- Master induction for idempotence: after the multi-account fold from a
state satisfying the cache invariants, under benign external sources, the
final state keeps the invariants and all previously settled ids; and the
same fold re-run from any state with the same lookups and denylist
membership reproduces the combined record list exactly while issuing no
identity, statistics or estimate request. -/
lemma processSteamGames_fold_idempotent (w : SteamWorld) (language : String) :
    ∀ (targetIds : List String) (st : CacheState),
      goodWorld w targetIds → cacheInv st →
      cacheInv (targetIds.foldl (pipelineStep w true language) ([], st, {})).2.1 ∧
      (∀ a c, settledVal st a c →
        settledVal (targetIds.foldl (pipelineStep w true language) ([], st, {})).2.1 a c) ∧
      (∀ a, settledNone st a →
        settledNone (targetIds.foldl (pipelineStep w true language) ([], st, {})).2.1 a) ∧
      (∀ st₂ : CacheState,
        (∀ a, cacheFind st₂.gameInfoCache a =
          cacheFind (targetIds.foldl (pipelineStep w true language)
            ([], st, {})).2.1.gameInfoCache a) →
        (∀ a, a ∈ st₂.knownDeleted ↔
          a ∈ (targetIds.foldl (pipelineStep w true language)
            ([], st, {})).2.1.knownDeleted) →
        cacheInv st₂ →
        (targetIds.foldl (pipelineStep w true language) ([], st₂, {})).1 =
          (targetIds.foldl (pipelineStep w true language) ([], st, {})).1 ∧
        (targetIds.foldl (pipelineStep w true language)
          ([], st₂, {})).2.2.identityCalls = [] ∧
        (targetIds.foldl (pipelineStep w true language) ([], st₂, {})).2.2.spyCalls = [] ∧
        (targetIds.foldl (pipelineStep w true language) ([], st₂, {})).2.2.hltbCalls = [] ∧
        (∀ a, cacheFind (targetIds.foldl (pipelineStep w true language)
            ([], st₂, {})).2.1.gameInfoCache a =
          cacheFind (targetIds.foldl (pipelineStep w true language)
            ([], st, {})).2.1.gameInfoCache a) ∧
        (∀ a, a ∈ (targetIds.foldl (pipelineStep w true language)
            ([], st₂, {})).2.1.knownDeleted ↔
          a ∈ (targetIds.foldl (pipelineStep w true language)
            ([], st, {})).2.1.knownDeleted) ∧
        cacheInv (targetIds.foldl (pipelineStep w true language) ([], st₂, {})).2.1) := by
  intro targetIds
  induction targetIds with
  | nil =>
    intro st _ hinv
    refine ⟨hinv, fun a c h => h, fun a h => h, ?_⟩
    intro st₂ heq hmem hinv₂
    exact ⟨rfl, rfl, rfl, rfl, heq, hmem, hinv₂⟩
  | cons t rest ih =>
    intro st hgw hinv
    obtain ⟨hgw1, hsp, hh, ha, htime⟩ := hgw
    have hstore_t := hgw1 t (List.mem_cons_self _ _)
    have hgwR : goodWorld w rest :=
      ⟨fun t' ht' => hgw1 t' (List.mem_cons_of_mem _ ht'), hsp, hh, ha, htime⟩
    have hinv1 : cacheInv (processSteamGamesForSingleUser w true language st t).state :=
      singleUserRun_cacheInv w language st t hinv
    obtain ⟨IH1, IH2, IH3, IH4⟩ :=
      ih (processSteamGamesForSingleUser w true language st t).state hgwR hinv1
    rw [pipeline_foldl_cons]
    refine ⟨IH1, ?_, ?_, ?_⟩
    · intro a c h
      exact IH2 a c (singleUserRun_settledVal_preserved w language st t hh ha hinv a c h)
    · intro a h
      exact IH3 a (singleUserRun_settledNone_preserved w language st t hh ha hinv a h)
    · intro st₂ heq hmem hinv₂
      have heq' : ∀ a, cacheFind st₂.gameInfoCache a =
          cacheFind (rest.foldl (pipelineStep w true language)
            ([], (processSteamGamesForSingleUser w true language st t).state,
              {})).2.1.gameInfoCache a := heq
      have hmem' : ∀ a, a ∈ st₂.knownDeleted ↔
          a ∈ (rest.foldl (pipelineStep w true language)
            ([], (processSteamGamesForSingleUser w true language st t).state,
              {})).2.1.knownDeleted := hmem
      have hset1 : ∀ b ∈ w.ownedGames t,
          settledId (processSteamGamesForSingleUser w true language st t).state b.appId :=
        singleUserRun_settles_owned w language st t hstore_t hsp hh ha htime hinv
      have hset2 : ∀ b ∈ w.ownedGames t, settledId st₂ b.appId := by
        intro b hb
        rcases hset1 b hb with ⟨c, hc, h1, h2⟩ | ⟨h1, h2⟩
        · refine Or.inl ⟨c, ?_, h1, h2⟩
          rw [heq' b.appId]
          exact (IH2 b.appId c ⟨hc, h1, h2⟩).1
        · refine Or.inr ⟨?_, ?_⟩
          · rw [heq' b.appId]
            exact (IH3 b.appId ⟨h1, h2⟩).1
          · exact (hmem' b.appId).mpr (IH3 b.appId ⟨h1, h2⟩).2
      obtain ⟨hgi2, hid2, hspy2, hhltb2, hlook2, hdeny2, hnodup2, hclean2⟩ :=
        processSteamGamesForSingleUser_replay w language st₂ t hset2 hinv₂.1 hinv₂.2
      have hrecords : (processSteamGamesForSingleUser w true language st₂ t).gameInfos =
          (processSteamGamesForSingleUser w true language st t).gameInfos := by
        rw [hgi2]
        have hcongr : replayRecords st₂.gameInfoCache (w.ownedGames t) =
            (w.ownedGames t).foldl (replayStep (rest.foldl (pipelineStep w true language)
              ([], (processSteamGamesForSingleUser w true language st t).state,
                {})).2.1.gameInfoCache) [] :=
          replayRecords_congr _ _ heq' (w.ownedGames t) []
        rw [hcongr]
        have Hrec : ∀ a r, cacheFind ((w.ownedGames t).foldl
            (identityStep w language st.gameInfoCache)
            { knownDeletedAppIds := st.knownDeleted }).gameInfos a = some r →
            cacheFind (rest.foldl (pipelineStep w true language)
              ([], (processSteamGamesForSingleUser w true language st t).state,
                {})).2.1.gameInfoCache a =
              some (stripBasicData (layerFn w true r)) := by
          intro a r hr
          have hr' : cacheFind (identityPass w language st.gameInfoCache st.knownDeleted
              (w.ownedGames t)).gameInfos a = some r := hr
          have hsv := singleUserRun_record_cached w language st t hsp hh ha htime hinv
            a r hr'
          exact (IH2 a _ hsv).1
        have Hnone : ∀ b ∈ w.ownedGames t, cacheFind ((w.ownedGames t).foldl
            (identityStep w language st.gameInfoCache)
            { knownDeletedAppIds := st.knownDeleted }).gameInfos b.appId = none →
            cacheFind (rest.foldl (pipelineStep w true language)
              ([], (processSteamGamesForSingleUser w true language st t).state,
                {})).2.1.gameInfoCache b.appId = none := by
          intro b hb hn
          have hn' : cacheFind (identityPass w language st.gameInfoCache st.knownDeleted
              (w.ownedGames t)).gameInfos b.appId = none := hn
          have hsn := singleUserRun_skip_settledNone w language st t hstore_t hh ha hinv
            b hb hn'
          exact (IH3 b.appId hsn).1
        have hrr := identity_replay_reconstruction w language st.gameInfoCache
          (rest.foldl (pipelineStep w true language)
            ([], (processSteamGamesForSingleUser w true language st t).state,
              {})).2.1.gameInfoCache (w.ownedGames t)
          { knownDeletedAppIds := st.knownDeleted } hstore_t Hrec Hnone
        have hlhs : ((({ knownDeletedAppIds := st.knownDeleted } :
            IdentityPassState)).gameInfos.map (layerFn w true)) = [] := rfl
        rw [hlhs] at hrr
        rw [hrr]
        exact (processSteamGamesForSingleUser_gameInfos w language st t hh ha).symm
      have hlookF : ∀ a,
          cacheFind (processSteamGamesForSingleUser w true language st₂ t).state.gameInfoCache
            a = cacheFind (rest.foldl (pipelineStep w true language)
            ([], (processSteamGamesForSingleUser w true language st t).state,
              {})).2.1.gameInfoCache a := by
        intro a
        rw [hlook2 a]
        exact heq' a
      have hdenyF : ∀ a,
          a ∈ (processSteamGamesForSingleUser w true language st₂ t).state.knownDeleted ↔
          a ∈ (rest.foldl (pipelineStep w true language)
            ([], (processSteamGamesForSingleUser w true language st t).state,
              {})).2.1.knownDeleted := by
        intro a
        rw [hdeny2 a]
        exact hmem' a
      obtain ⟨J1, J2, J3, J4, J5, J6, J7⟩ := IH4
        (processSteamGamesForSingleUser w true language st₂ t).state
        hlookF hdenyF ⟨hnodup2, hclean2⟩
      rw [pipeline_foldl_cons]
      refine ⟨?_, ?_, ?_, ?_, J5, J6, J7⟩
      · show (processSteamGamesForSingleUser w true language st₂ t).gameInfos ++
          (rest.foldl (pipelineStep w true language)
            ([], (processSteamGamesForSingleUser w true language st₂ t).state, {})).1 =
          (processSteamGamesForSingleUser w true language st t).gameInfos ++
          (rest.foldl (pipelineStep w true language)
            ([], (processSteamGamesForSingleUser w true language st t).state, {})).1
        rw [hrecords, J1]
      · show (processSteamGamesForSingleUser w true language st₂ t).log.identityCalls ++
          (rest.foldl (pipelineStep w true language)
            ([], (processSteamGamesForSingleUser w true language st₂ t).state,
              {})).2.2.identityCalls = []
        rw [hid2, J2]
        rfl
      · show (processSteamGamesForSingleUser w true language st₂ t).log.spyCalls ++
          (rest.foldl (pipelineStep w true language)
            ([], (processSteamGamesForSingleUser w true language st₂ t).state,
              {})).2.2.spyCalls = []
        rw [hspy2, J3]
        rfl
      · show (processSteamGamesForSingleUser w true language st₂ t).log.hltbCalls ++
          (rest.foldl (pipelineStep w true language)
            ([], (processSteamGamesForSingleUser w true language st₂ t).state,
              {})).2.2.hltbCalls = []
        rw [hhltb2, J4]
        rfl

/-- C3 (amended): with caching enabled, benign external sources (every
owned id's store lookup resolves or is affirmatively deleted, no
statistics or estimate request throws, the auth capture succeeds, the
clock is nonzero) and a starting cache satisfying the file invariants, a
second `processSteamGames` run over the same accounts from the first
run's final state returns the identical final record set and issues zero
per-item network calls: no identity-layer, statistics or estimate
request. The claim's stronger reading — zero network calls of any kind on
the second run — is false: every run still fetches each account's owned
list and performs the estimate-source auth handshake (see the
counterexample). -/
theorem processSteamGames_second_run_idempotent (w : SteamWorld) (language : String)
    (targetIds : List String) (st : CacheState)
    (hgw : goodWorld w targetIds) (hinv : cacheInv st) :
    (processSteamGames w true language targetIds
      (processSteamGames w true language targetIds st).state).records =
      (processSteamGames w true language targetIds st).records ∧
    (processSteamGames w true language targetIds
      (processSteamGames w true language targetIds st).state).log.identityCalls = [] ∧
    (processSteamGames w true language targetIds
      (processSteamGames w true language targetIds st).state).log.spyCalls = [] ∧
    (processSteamGames w true language targetIds
      (processSteamGames w true language targetIds st).state).log.hltbCalls = [] := by
  obtain ⟨M1, _, _, M4⟩ :=
    processSteamGames_fold_idempotent w language targetIds st hgw hinv
  obtain ⟨J1, J2, J3, J4, _, _, _⟩ := M4
    (targetIds.foldl (pipelineStep w true language) ([], st, {})).2.1
    (fun _ => rfl) (fun _ => Iff.rfl) M1
  refine ⟨?_, J2, J3, J4⟩
  show processSteamGamesFinalize (targetIds.foldl (pipelineStep w true language)
    ([], (targetIds.foldl (pipelineStep w true language) ([], st, {})).2.1, {})).1 =
    processSteamGamesFinalize (targetIds.foldl (pipelineStep w true language)
      ([], st, {})).1
  rw [J1]

/-- World used by the C3 evaluations: one account owning nothing; every
source answers trivially, the auth capture succeeds and the clock is 1. -/
def c3World : SteamWorld :=
  { ownedGames := fun _ => []
    store := fun _ => .successFalse
    spy := fun _ => .noData
    hltb := fun _ => .noData
    authOk := true
    time := 1 }

/-- C3 counterexample to the literal reading "the second run issues zero
additional network calls": even with nothing owned and everything cached,
the second run still issues the per-account owned-games fetch and the
estimate-source auth handshake, so its outbound request count is not
zero. -/
theorem second_run_still_calls_network :
    (processSteamGames c3World true "english" ["account"]
      (processSteamGames c3World true "english" ["account"] {}).state).log.total ≠ 0 := by
  decide

/-- Witness for the C3 theorem at a concrete input: the benign-world and
cache-invariant hypotheses hold for `c3World` with one account and the
empty initial state, and the theorem applies. -/
theorem processSteamGames_second_run_idempotent_witness :
    goodWorld c3World ["account"] ∧ cacheInv {} ∧
    ((processSteamGames c3World true "english" ["account"]
      (processSteamGames c3World true "english" ["account"] {}).state).records =
      (processSteamGames c3World true "english" ["account"] {}).records ∧
    (processSteamGames c3World true "english" ["account"]
      (processSteamGames c3World true "english" ["account"] {}).state).log.identityCalls
      = [] ∧
    (processSteamGames c3World true "english" ["account"]
      (processSteamGames c3World true "english" ["account"] {}).state).log.spyCalls
      = [] ∧
    (processSteamGames c3World true "english" ["account"]
      (processSteamGames c3World true "english" ["account"] {}).state).log.hltbCalls
      = []) := by
  have hgw : goodWorld c3World ["account"] := by
    refine ⟨?_, ?_, ?_, rfl, ?_⟩
    · intro t _ b hb
      simp [c3World] at hb
    · intro a
      simp [c3World]
    · intro q
      simp [c3World]
    · simp [c3World]
  have hinv : cacheInv ({} : CacheState) := by
    constructor
    · simp
    · intro c hc
      simp at hc
  exact ⟨hgw, hinv,
    processSteamGames_second_run_idempotent c3World "english" ["account"] {} hgw hinv⟩

/-! ### The Directus upsert (source: `handlers/directus.ts`,
`upsertAllSteamGames` and `createSteamAppIdToDirectusItemIdMap`) -/

/-- One existing remote item as the upsert reads it: its internal
Directus item id (`record.id`) and the stored Steam id foreign-key field
(`Steam_ID`, absent when the column is null). -/
structure DirectusItem where
  id : ℕ
  steamId : Option ℕ := none
deriving DecidableEq

/-- The payload assembled per record (the `data` object of the source):
the projection of the enriched record the sink writes. -/
structure DirectusGameData where
  name : String
  developers : List String
  publishers : List String
  marketplace : String
  url : String
  thumbnail : String
  description : String
  tags : List String
  steamId : ℕ
deriving DecidableEq

/-- The projection `data` built inside the upsert loop. -/
def toDirectusGameData (g : ProcessedSteamGameInfo) : DirectusGameData :=
  { name := g.name
    developers := g.developers
    publishers := g.publishers
    marketplace := "Steam"
    url := "https://store.steampowered.com/app/" ++ toString g.appId
    thumbnail := g.header_image
    description := g.short_description
    tags := g.genres ++ g.categories
    steamId := g.appId }

/-- One request issued to the remote sink. -/
inductive UpsertAction where
  | update (itemId : ℕ) (data : DirectusGameData)
  | create (data : DirectusGameData)
deriving DecidableEq

/-- Foreign-key map built by `createSteamAppIdToDirectusItemIdMap`: for
each existing item in enumeration order, `map[item[Steam_ID]] = item`
(a later item overwrites an earlier one with the same stored Steam id; an
item with no stored Steam id produces the string key "undefined", which
no numeric app-id lookup can hit, so it is dropped here). -/
def createSteamAppIdToDirectusItemIdMap (existingGames : List DirectusItem) :
    List (ℕ × DirectusItem) :=
  existingGames.foldl
    (fun m item =>
      match item.steamId with
      | some s => setKey m s item
      | none => m)
    []

/-- The per-record dispatch of the upsert loop:
`const directusItemId = steamAppIdToDirectusItemIdMap[gameData.appId]?.id`
followed by `if (directusItemId)` — the branch condition is JavaScript
truthiness, so both a missing mapping and the internal item id 0 take the
create branch. -/
def upsertAction (m : List (ℕ × DirectusItem)) (g : ProcessedSteamGameInfo) :
    UpsertAction :=
  if jsTruthyNat ((lookupKey m g.appId).map (·.id)) then
    .update (((lookupKey m g.appId).map (·.id)).getD 0) (toDirectusGameData g)
  else
    .create (toDirectusGameData g)

/-- The sequence of remote requests issued by `upsertAllSteamGames` for a
reconciled record list against the existing items (each loop iteration
issues exactly one request; a failed request aborts the process). -/
def upsertAllSteamGames (existingGames : List DirectusItem)
    (steamGameData : List ProcessedSteamGameInfo) : List UpsertAction :=
  steamGameData.map (upsertAction (createSteamAppIdToDirectusItemIdMap existingGames))

lemma directusMap_foldl_isSome :
    ∀ (l : List DirectusItem) (init : List (ℕ × DirectusItem)) (a : ℕ),
      (lookupKey (l.foldl (fun m item =>
        match item.steamId with
        | some s => setKey m s item
        | none => m) init) a).isSome = true ↔
      ((lookupKey init a).isSome = true ∨ ∃ item ∈ l, item.steamId = some a) := by
  intro l
  induction l with
  | nil =>
    intro init a
    simp
  | cons x rest ih =>
    intro init a
    rw [List.foldl_cons]
    cases hs : x.steamId with
    | none =>
      show (lookupKey (rest.foldl _ init) a).isSome = true ↔ _
      rw [ih init a]
      constructor
      · rintro (h | ⟨y, hy, hya⟩)
        · exact Or.inl h
        · exact Or.inr ⟨y, List.mem_cons_of_mem _ hy, hya⟩
      · rintro (h | ⟨y, hy, hya⟩)
        · exact Or.inl h
        · rcases List.mem_cons.mp hy with rfl | hy'
          · rw [hs] at hya
            cases hya
          · exact Or.inr ⟨y, hy', hya⟩
    | some s =>
      show (lookupKey (rest.foldl _ (setKey init s x)) a).isSome = true ↔ _
      rw [ih (setKey init s x) a]
      by_cases hsa : s = a
      · subst hsa
        constructor
        · intro _
          exact Or.inr ⟨x, List.mem_cons_self _ _, hs⟩
        · intro _
          refine Or.inl ?_
          rw [lookupKey_setKey_self]
          rfl
      · rw [lookupKey_setKey_other init s a x (fun h => hsa h.symm)]
        constructor
        · rintro (h | ⟨y, hy, hya⟩)
          · exact Or.inl h
          · exact Or.inr ⟨y, List.mem_cons_of_mem _ hy, hya⟩
        · rintro (h | ⟨y, hy, hya⟩)
          · exact Or.inl h
          · rcases List.mem_cons.mp hy with rfl | hy'
            · rw [hs] at hya
              exact absurd (Option.some.inj hya) hsa
            · exact Or.inr ⟨y, hy', hya⟩

lemma directusMap_foldl_lookup_mem :
    ∀ (l : List DirectusItem) (init : List (ℕ × DirectusItem)) (a : ℕ)
      (item : DirectusItem),
      lookupKey (l.foldl (fun m it =>
        match it.steamId with
        | some s => setKey m s it
        | none => m) init) a = some item →
      (item ∈ l ∧ item.steamId = some a) ∨ lookupKey init a = some item := by
  intro l
  induction l with
  | nil =>
    intro init a item h
    exact Or.inr h
  | cons x rest ih =>
    intro init a item h
    rw [List.foldl_cons] at h
    cases hs : x.steamId with
    | none =>
      rw [hs] at h
      have h' : lookupKey (rest.foldl _ init) a = some item := h
      rcases ih init a item h' with ⟨hmem, hsteam⟩ | hinit
      · exact Or.inl ⟨List.mem_cons_of_mem _ hmem, hsteam⟩
      · exact Or.inr hinit
    | some s =>
      rw [hs] at h
      have h' : lookupKey (rest.foldl _ (setKey init s x)) a = some item := h
      rcases ih (setKey init s x) a item h' with ⟨hmem, hsteam⟩ | hset
      · exact Or.inl ⟨List.mem_cons_of_mem _ hmem, hsteam⟩
      · by_cases hsa : s = a
        · subst hsa
          rw [lookupKey_setKey_self] at hset
          have hx : x = item := Option.some.inj hset
          subst hx
          exact Or.inl ⟨List.mem_cons_self _ _, hs⟩
        · rw [lookupKey_setKey_other init s a x (fun hcon => hsa hcon.symm)] at hset
          exact Or.inr hset

/-- C9 (amended): the upsert sink addresses an update to the mapped
item's internal identifier only when that identifier is truthy: if the
foreign-key map holds an item with nonzero internal id for the record's
id, an update to exactly that item is issued (and hence no create for the
record); a create is issued precisely when no existing item carries the
record's id as its stored foreign key, or when the mapped item's internal
id is 0 — in the latter case the `if (directusItemId)` truthiness test
wrongly takes the create branch even though a mapping exists. The map
holds an entry for an id exactly when some existing item stores it, and
every mapped item is an existing item storing that id. -/
theorem upsertAllSteamGames_policy (existingGames : List DirectusItem)
    (g : ProcessedSteamGameInfo) :
    (∀ item, lookupKey (createSteamAppIdToDirectusItemIdMap existingGames) g.appId =
      some item → item.id ≠ 0 →
      upsertAction (createSteamAppIdToDirectusItemIdMap existingGames) g =
        .update item.id (toDirectusGameData g)) ∧
    (upsertAction (createSteamAppIdToDirectusItemIdMap existingGames) g =
      .create (toDirectusGameData g) ↔
      (lookupKey (createSteamAppIdToDirectusItemIdMap existingGames) g.appId = none ∨
       ∃ item, lookupKey (createSteamAppIdToDirectusItemIdMap existingGames) g.appId =
         some item ∧ item.id = 0)) ∧
    ((lookupKey (createSteamAppIdToDirectusItemIdMap existingGames) g.appId).isSome =
      true ↔ ∃ item ∈ existingGames, item.steamId = some g.appId) ∧
    (∀ item, lookupKey (createSteamAppIdToDirectusItemIdMap existingGames) g.appId =
      some item → item ∈ existingGames ∧ item.steamId = some g.appId) := by
  refine ⟨?_, ?_, ?_, ?_⟩
  · intro item hit hnz
    unfold upsertAction
    rw [hit]
    have htr : jsTruthyNat ((some item).map (·.id)) = true := by
      show jsTruthyNat (some item.id) = true
      unfold jsTruthyNat
      simp [hnz]
    rw [if_pos htr]
    rfl
  · unfold upsertAction
    cases hlook : lookupKey (createSteamAppIdToDirectusItemIdMap existingGames)
        g.appId with
    | none =>
      rw [if_neg (by simp [jsTruthyNat])]
      constructor
      · intro _
        exact Or.inl rfl
      · intro _
        rfl
    | some item =>
      by_cases hz : item.id = 0
      · rw [if_neg (by simp [jsTruthyNat, hz])]
        constructor
        · intro _
          exact Or.inr ⟨item, rfl, hz⟩
        · intro _
          rfl
      · rw [if_pos (by simp [jsTruthyNat, hz])]
        constructor
        · intro hcon
          cases hcon
        · rintro (hcon | ⟨item', heq, hz'⟩)
          · cases hcon
          · have hii : item = item' := Option.some.inj heq
            rw [← hii] at hz'
            exact absurd hz' hz
  · exact directusMap_foldl_isSome existingGames [] g.appId |>.trans
      (by simp [lookupKey])
  · intro item hit
    rcases directusMap_foldl_lookup_mem existingGames [] g.appId item hit with h | h
    · exact h
    · cases h

/-- Existing remote item used in the C9 counterexample: internal item id
0, storing Steam id 5 as its foreign key. -/
def c9Item : DirectusItem := { id := 0, steamId := some 5 }

/-- Record pushed in the C9 counterexample. -/
def c9Game : ProcessedSteamGameInfo := { appId := 5, name := "zero id" }

/-- C9 counterexample: an existing remote item whose foreign-key field
equals the record's id exists, yet the sink issues a create rather than
an update addressed to that item — the `if (directusItemId)` truthiness
test treats the internal item id 0 as no mapping. -/
theorem upsert_creates_despite_mapping :
    (∃ item ∈ [c9Item], item.steamId = some c9Game.appId) ∧
    upsertAllSteamGames [c9Item] [c9Game] =
      [.create (toDirectusGameData c9Game)] := by
  constructor
  · exact ⟨c9Item, by simp, rfl⟩
  · rfl

/-- Witness for the C9 theorem at a concrete input: one existing item
with internal id 7 storing Steam id 5 makes the upsert issue an update
addressed to item 7. -/
theorem upsertAllSteamGames_policy_witness :
    lookupKey (createSteamAppIdToDirectusItemIdMap
      [{ id := 7, steamId := some 5 }]) c9Game.appId =
      some { id := 7, steamId := some 5 } ∧
    ({ id := 7, steamId := some 5 } : DirectusItem).id ≠ 0 ∧
    upsertAction (createSteamAppIdToDirectusItemIdMap
      [{ id := 7, steamId := some 5 }]) c9Game =
      .update 7 (toDirectusGameData c9Game) :=
  ⟨rfl, by decide,
    (upsertAllSteamGames_policy [{ id := 7, steamId := some 5 }] c9Game).1
      { id := 7, steamId := some 5 } rfl (by decide)⟩

end Satchel
